import Mathlib

/-!
# OpenTournament: weapon state machine and basic fire mode

A shallow embedding of `UR_FireModeBasic.cpp` and of the weapon-state part of
`UR_Weapon.cpp`.

* Seconds are exact rationals (`ℚ`); the source uses `float`.
* A fire mode is identified by its slot in `AUR_Weapon::FireModes`; a null
  slot is `none`.  Dereferencing a null pointer is the fault `NullDeref`.
* The calls between the weapon and its fire modes are mutually recursive in
  the source.  Every function of that cycle carries a call-depth budget and
  answers `OutOfFuel` when the budget is used up.
* `FSimulatedShotInfo::Vectors` is an array; indexing it past its end is the
  fault `OutOfRange`.
* The engine timer manager is modelled after `FTimerManager`: `SetTimer`
  with a rate `≤ 0` clears the handle, a missing timer reports `-1` as its
  remaining and elapsed time, and a handle is invalidated before its
  callback runs.  `step` runs one due timer; `play` runs a sequence of events
  in frames: whenever the clock advances, the callbacks queued for the next
  tick run and then the due timers, in the order of their expire times and,
  among timers that expire together, in the order in which they were armed.
* Calls that leave the two source files (interface callbacks that play
  effects, broadcasts, remote procedure calls) are recorded, with the world
  time, in `World.log`.
-/

namespace OpenTournament

/-! ## Data model -/

/-- Faults of the embedding: the call-depth budget ran out, a null
`UUR_FireModeBase*` was dereferenced, or a `TArray` was indexed past its end. -/
inductive Fault where
  | OutOfFuel
  | NullDeref
  | OutOfRange
  deriving DecidableEq, Repr

/-- Result of a call that may fault. -/
abbrev Run := Except Fault

/-- The `EWeaponState` enumeration used by `AUR_Weapon`. -/
inductive EWeaponState where
  | Inactive
  | BringUp
  | Idle
  | Firing
  | PutDown
  | Busy
  deriving DecidableEq, Repr

/-- An `FVector`; the geometry is not interpreted. -/
abbrev FVector := Int × Int × Int

/-- The member of `FSimulatedShotInfo` that the code reads and writes: the
array `Vectors`.  The struct is declared in a header that is not among the
sources; a default-constructed value is taken to hold no vector. -/
structure FSimulatedShotInfo where
  Vectors : List FVector
  deriving DecidableEq, Repr, Inhabited

/-- Modelled from the spec: `FHitscanVisualInfo` is declared in a header that
is not among the sources; the spec describes it as carrying the impact point
and the surface normal of a hitscan shot. -/
structure FHitscanVisualInfo where
  Impact : FVector
  Normal : FVector
  deriving DecidableEq, Repr, Inhabited

/-- The functions that the two source files hand to the timer manager. -/
inductive Callback where
  /-- The member `UUR_FireModeBasic::CooldownTimer` of the fire mode in the given slot. -/
  | CooldownTimer (fm : Nat)
  /-- The lambda of `ServerFire_Implementation` : re-run the check with the
  captured shot. -/
  | DelayedServerFire (fm : Nat) (info : FSimulatedShotInfo)
  | BringUpCallback
  | PutDownCallback
  | RequestPutDown
  /-- The lambda of `TryStartFire` : retry while the fire mode heads the
  desired list. -/
  | RetryStartFire (fm : Nat)
  deriving DecidableEq, Repr

/-- An armed one-shot timer, as `FTimerData` keeps it. -/
structure FTimerData where
  Rate : ℚ
  ExpireTime : ℚ
  cb : Callback
  deriving DecidableEq, Repr

/-- An `FTimerHandle` together with the timer it designates, if any. -/
abbrev FTimerHandle := Option FTimerData

/-- Calls that leave the modelled code. -/
inductive Effect where
  | OnWeaponStateChanged (s : EWeaponState)
  | PlayFireEffects (fm : Nat)
  | SimulateShot (fm : Nat)
  | SimulateHitscanShot (fm : Nat)
  | PlayHitscanEffects (fm : Nat) (h : FHitscanVisualInfo)
  | AuthorityShot (fm : Nat) (info : FSimulatedShotInfo)
  | AuthorityHitscanShot (fm : Nat) (info : FSimulatedShotInfo)
  /-- The `MulticastFired` broadcast. -/
  | MulticastFired (fm : Nat)
  /-- The `MulticastFiredHitscan` broadcast. -/
  | MulticastFiredHitscan (fm : Nat) (h : FHitscanVisualInfo)
  /-- The `ServerFire` request sent by a client to the authority. -/
  | ServerFireRequest (fm : Nat) (info : FSimulatedShotInfo)
  | OutOfAmmoSound
  | StopFire (fm : Nat)
  deriving DecidableEq, Repr

/-- The members of `UUR_FireModeBasic` (and of its base class) that the code
reads or writes. -/
structure FireMode where
  bIsBusy : Bool
  FireInterval : ℚ
  bIsHitscan : Bool
  /-- Whether `ProjectileClass` is set. -/
  ProjectileClass : Bool
  LocalFireTime : ℚ
  CooldownTimerHandle : FTimerHandle
  DelayedFireTimerHandle : FTimerHandle
  /-- Whether `BaseInterface` is bound (to the owning weapon). -/
  BaseInterface : Bool
  /-- Whether `BasicInterface` is bound (to the owning weapon). -/
  BasicInterface : Bool
  deriving DecidableEq, Repr

/-- The world: clock, net mode, the weapon and its fire modes. -/
structure World where
  /-- The value of `GetWorld()->GetTimeSeconds()`. -/
  now : ℚ
  /-- The value of `GetNetMode() == NM_Client`. -/
  NetModeClient : Bool
  /-- The value of `IsLocallyControlled() && URCharOwner`. -/
  bLocallyControlled : Bool
  /-- The list `URCharOwner->DesiredFireModeNum`. -/
  OwnerDesiredFireModeNum : List Nat
  AmmoCount : Int
  WeaponState : EWeaponState
  FireModes : List (Option FireMode)
  DesiredFireModes : List Nat
  CurrentFireMode : Option Nat
  BringUpTime : ℚ
  PutDownTime : ℚ
  CooldownDelaysPutDownByPercent : ℚ
  bReducePutDownDelayByPutDownTime : Bool
  SwapAnimTimerHandle : FTimerHandle
  PutDownDelayTimerHandle : FTimerHandle
  RetryStartFireTimerHandle : FTimerHandle
  /-- Callbacks queued by `SetTimerForNextTick`. -/
  NextTick : List Callback
  /-- The fire location and the fire direction that `GetFireVector` and the
  muzzle trace report to a simulated shot. -/
  EngineFireVector : FVector × FVector
  /-- What `HitscanTrace` reports to a hitscan shot. -/
  EngineHitscanTrace : FHitscanVisualInfo
  log : List (ℚ × Effect)
  deriving DecidableEq, Repr

/-! ## Engine: timer manager, clock, effect log -/

/-- The engine function `FTimerManager::SetTimer` for a one-shot timer. -/
def SetTimer (now : ℚ) (cb : Callback) (InRate : ℚ) : FTimerHandle :=
  if InRate > 0 then some { Rate := InRate, ExpireTime := now + InRate, cb := cb } else none

/-- The engine function `FTimerManager::GetTimerRemaining`. -/
def GetTimerRemaining (now : ℚ) (h : FTimerHandle) : ℚ :=
  match h with
  | some t => t.ExpireTime - now
  | none => -1

/-- The engine function `FTimerManager::GetTimerElapsed`. -/
def GetTimerElapsed (now : ℚ) (h : FTimerHandle) : ℚ :=
  match h with
  | some t => t.Rate - (t.ExpireTime - now)
  | none => -1

/-- The engine function `FTimerManager::TimerExists`. -/
def TimerExists (h : FTimerHandle) : Bool := h.isSome

/-- The engine function `FTimerManager::IsTimerActive`; timers are never paused here. -/
def IsTimerActive (h : FTimerHandle) : Bool := h.isSome

/-- The engine function `UWorld::TimeSince`. -/
def TimeSince (w : World) (t : ℚ) : ℚ := w.now - t

/-- Record a call that leaves the modelled code. -/
def emit (w : World) (e : Effect) : World :=
  { w with log := w.log ++ [(w.now, e)] }

/-- Dereference the fire mode in slot `i`. -/
def getFM (w : World) (i : Nat) : Run FireMode :=
  match w.FireModes[i]? with
  | some (some fm) => .ok fm
  | _ => .error .NullDeref

/-- Write back the fire mode in slot `i`. -/
def setFM (w : World) (i : Nat) (fm : FireMode) : World :=
  { w with FireModes := w.FireModes.set i (some fm) }

/-! ## Leaf functions of the weapon and the fire mode -/

/-- The source function `AUR_Weapon::HasEnoughAmmoFor`. -/
def HasEnoughAmmoFor (w : World) (_fm : Nat) : Bool := decide (w.AmmoCount ≥ 1)

/-- The source function `AUR_Weapon::ConsumeAmmo`. -/
def ConsumeAmmo (w : World) (_fm : Nat) : World := { w with AmmoCount := w.AmmoCount - 1 }

/-- Modelled from the spec: `UUR_FireModeBase::IsBusy` is not among the
sources; the spec gives a fire mode a busy flag that `IsBusy()` reports. -/
def IsBusy (fm : FireMode) : Bool := fm.bIsBusy

/-- Modelled from the spec: `StopFire` of a basic fire mode is not among the
sources.  The spec lets a fire mode become idle only through its cooldown
expiry, so stopping leaves the busy flag and the timers alone; the call is
recorded. -/
def StopFire (w : World) (i : Nat) : Run World := do
  let _ ← getFM w i
  pure (emit w (.StopFire i))

/-- The source function `UUR_FireModeBasic::GetTimeUntilIdle_Implementation`. -/
def GetTimeUntilIdle_Implementation (w : World) (fm : FireMode) : ℚ :=
  if fm.bIsBusy then GetTimerRemaining w.now fm.CooldownTimerHandle else 0

/-- The source function `UUR_FireModeBasic::GetCooldownStartTime_Implementation`. -/
def GetCooldownStartTime_Implementation (w : World) (fm : FireMode) : ℚ :=
  if TimerExists fm.CooldownTimerHandle then
    w.now - GetTimerElapsed w.now fm.CooldownTimerHandle
  else 0

/-- The source function `AUR_Weapon::TimeUntilReadyToFire_Implementation`. -/
def TimeUntilReadyToFire_Implementation (w : World) (i : Nat) : Run ℚ := do
  let Delay ← (match w.WeaponState with
    | .BringUp => pure (GetTimerRemaining w.now w.SwapAnimTimerHandle)
    | .Idle => pure 0
    | .Firing =>
      match w.CurrentFireMode with
      | some c => do
        let cur ← getFM w c
        pure (GetTimeUntilIdle_Implementation w cur)
      | none => .error .NullDeref
    | _ => pure 1 : Run ℚ)
  if Delay ≤ 0 ∧ HasEnoughAmmoFor w i = false then pure 1 else pure Delay

/-- The source function `AUR_Weapon::StopAllFire`. -/
def StopAllFire (w : World) : Run World :=
  let w := { w with DesiredFireModes := [] }
  match w.CurrentFireMode with
  | some c => StopFire w c
  | none => pure w

/-- The engine function `TArray::operator[]` : an index past the end is a fault. -/
def TArrayAt (a : List FVector) (k : Nat) : Run FVector :=
  match a[k]? with
  | some v => .ok v
  | none => .error .OutOfRange

/-- The engine function `TArray::EmplaceAt`, for an index within the array or
at its end. -/
def EmplaceAt (a : List FVector) (k : Nat) (v : FVector) : List FVector :=
  a.take k ++ v :: a.drop k

/-- What `SimulateShot_Implementation` and `SimulateHitscanShot_Implementation`
write to `OutSimulatedInfo` : the fire location at index 0 and the fire
direction at index 1. -/
def SimulatedShot (w : World) (OutSimulatedInfo : FSimulatedShotInfo) : FSimulatedShotInfo :=
  { Vectors := EmplaceAt (EmplaceAt OutSimulatedInfo.Vectors 0 w.EngineFireVector.1) 1
      w.EngineFireVector.2 }

/-- The source function `AUR_Weapon::AuthorityShot_Implementation`; the
projectile it spawns is not modelled. -/
def AuthorityShot_Implementation (w : World) (i : Nat) (SimulatedInfo : FSimulatedShotInfo) :
    Run World := do
  let fm ← getFM w i
  if fm.ProjectileClass then
    let _FireLoc ← TArrayAt SimulatedInfo.Vectors 0
    let _FireDir ← TArrayAt SimulatedInfo.Vectors 1
    pure (ConsumeAmmo w i)
  else pure w

/-- The source function `AUR_Weapon::AuthorityHitscanShot_Implementation`; the second component is
`OutHitscanInfo`. -/
def AuthorityHitscanShot_Implementation (w : World) (i : Nat)
    (SimulatedInfo : FSimulatedShotInfo) : Run (World × FHitscanVisualInfo) := do
  let _TraceStart ← TArrayAt SimulatedInfo.Vectors 0
  let _FireDir ← TArrayAt SimulatedInfo.Vectors 1
  pure (ConsumeAmmo w i, w.EngineHitscanTrace)

/-- Whether the authoritative shot of the fire mode reads `Vectors[0]` and
`Vectors[1]` of the request: `AuthorityHitscanShot` always does,
`AuthorityShot` does under `ProjectileClass`, and neither is called unless
`BasicInterface` is bound. -/
def ReadsVectors (fm : FireMode) : Bool :=
  fm.BasicInterface && (fm.bIsHitscan || fm.ProjectileClass)

/-- The source function `UUR_FireModeBasic::LocalConfirmFired`. -/
def LocalConfirmFired (w : World) (i : Nat) : Run World := do
  let fm ← getFM w i
  if fm.bIsBusy then
    let FirePing := TimeSince w fm.LocalFireTime
    let Delay := fm.FireInterval - FirePing / 2
    if Delay > 0 then
      pure (setFM w i { fm with CooldownTimerHandle := SetTimer w.now (.CooldownTimer i) Delay })
    else pure w
  else pure w

/-- The source function `UUR_FireModeBasic::MulticastFired_Implementation`. -/
def MulticastFired_Implementation (w : World) (i : Nat) : Run World := do
  let fm ← getFM w i
  if w.NetModeClient then
    if fm.LocalFireTime > 0 then LocalConfirmFired w i
    else if fm.BasicInterface then pure (emit w (.PlayFireEffects i))
    else pure w
  else pure w

/-- The source function `UUR_FireModeBasic::MulticastFiredHitscan_Implementation`. -/
def MulticastFiredHitscan_Implementation (w : World) (i : Nat) (h : FHitscanVisualInfo) :
    Run World := do
  let fm ← getFM w i
  if w.NetModeClient then
    if fm.LocalFireTime > 0 then LocalConfirmFired w i
    else if fm.BasicInterface then
      pure (emit (emit w (.PlayFireEffects i)) (.PlayHitscanEffects i h))
    else pure w
  else pure w

/-- The `MulticastFired()` call of the authority: the broadcast is recorded and
the implementation runs locally. -/
def MulticastFired (w : World) (i : Nat) : Run World :=
  MulticastFired_Implementation (emit w (.MulticastFired i)) i

/-- The `MulticastFiredHitscan()` call of the authority. -/
def MulticastFiredHitscan (w : World) (i : Nat) (h : FHitscanVisualInfo) : Run World :=
  MulticastFiredHitscan_Implementation (emit w (.MulticastFiredHitscan i h)) i h

/-- The `Delay` that `ServerFire_Implementation` computes first: the owner's
`TimeUntilReadyToFire` when `BaseInterface` is bound, `GetTimeUntilIdle()`
otherwise. -/
def ServerFireDelay (w : World) (i : Nat) (fm : FireMode) : Run ℚ :=
  if fm.BaseInterface then TimeUntilReadyToFire_Implementation w i
  else pure (GetTimeUntilIdle_Implementation w fm)

/-- The `Delay` that `RequestPutDown` computes in state `Firing` from the
cooldown of the current fire mode `cur`. -/
def FiringPutDownDelay (w : World) (cur : FireMode) : ℚ :=
  let CooldownStartTime := GetCooldownStartTime_Implementation w cur
  let CooldownRemaining := GetTimeUntilIdle_Implementation w cur
  if TimeSince w CooldownStartTime < 0 then
    max (CooldownRemaining * w.CooldownDelaysPutDownByPercent) (1/10)
  else if CooldownRemaining > 0 ∧ w.CooldownDelaysPutDownByPercent > 0 then
    let TotalCooldown := TimeSince w CooldownStartTime + CooldownRemaining
    let TotalPutDownDelay := TotalCooldown * w.CooldownDelaysPutDownByPercent
    let TotalPutDownDelay :=
      if w.bReducePutDownDelayByPutDownTime then TotalPutDownDelay - w.PutDownTime
      else TotalPutDownDelay
    let PutDownStartTime := CooldownStartTime + TotalPutDownDelay
    PutDownStartTime - w.now
  else 0

/-- The `if (BasicInterface)` block of `StartFire_Implementation` : the fire
effects are played and the shot is simulated.  The second component is the
`SimulatedInfo` that is sent on: default-constructed, and filled in by the
simulation when an interface is bound. -/
def StartFire_simulate (w : World) (i : Nat) (fm : FireMode) : World × FSimulatedShotInfo :=
  if fm.BasicInterface then
    let w := emit w (.PlayFireEffects i)
    if fm.bIsHitscan then
      (emit (emit w (.SimulateHitscanShot i)) (.PlayHitscanEffects i w.EngineHitscanTrace),
        SimulatedShot w default)
    else (emit w (.SimulateShot i), SimulatedShot w default)
  else (w, default)

/-- The `if (GetNetMode() == NM_Client)` block of `StartFire_Implementation` :
the local fire time is recorded and the local cooldown is armed, for the next
tick when `FireInterval` is not positive. -/
def StartFire_localCooldown (w : World) (i : Nat) (fm : FireMode) : World :=
  if w.NetModeClient then
    let fm := { fm with LocalFireTime := w.now }
    if fm.FireInterval > 0 then
      setFM w i { fm with
        CooldownTimerHandle := SetTimer w.now (.CooldownTimer i) fm.FireInterval }
    else
      { setFM w i fm with NextTick := w.NextTick ++ [.CooldownTimer i] }
  else w

/-! ## The call cycle between the weapon and its fire modes -/

mutual

/-- The source function `AUR_Weapon::SetWeaponState`. -/
def SetWeaponState : Nat → EWeaponState → World → Run World
  | 0, _, _ => .error .OutOfFuel
  | n + 1, NewState, w0 => do
    let w := if NewState ≠ w0.WeaponState then
        emit { w0 with WeaponState := NewState } (.OnWeaponStateChanged NewState)
      else w0
    match w.WeaponState with
    | .BringUp =>
      if w.bLocallyControlled then
        match w.OwnerDesiredFireModeNum with
        | d :: _ => RequestStartFire n d w
        | [] => pure w
      else pure w
    | .Idle =>
      if IsTimerActive w.PutDownDelayTimerHandle then
        RequestPutDown n { w with PutDownDelayTimerHandle := none }
      else
        match w.DesiredFireModes with
        | fm :: _ => TryStartFire n fm w
        | [] => pure w
    | .PutDown => StopAllFire w
    | .Inactive => StopAllFire w
    | _ => pure w

/-- The source function `AUR_Weapon::PutDown`; the montage playback is engine plumbing. -/
def PutDown : Nat → ℚ → World → Run World
  | 0, _, _ => .error .OutOfFuel
  | n + 1, FromPosition, w0 => do
    let w ← SetWeaponState n .PutDown { w0 with SwapAnimTimerHandle := none }
    let Delay := FromPosition * w.PutDownTime
    if Delay > 0 then
      pure { w with SwapAnimTimerHandle := SetTimer w.now .PutDownCallback Delay }
    else PutDownCallback n w

/-- The source function `AUR_Weapon::PutDownCallback`. -/
def PutDownCallback : Nat → World → Run World
  | 0, _ => .error .OutOfFuel
  | n + 1, w =>
    if w.WeaponState = .PutDown then SetWeaponState n .Inactive w else pure w

/-- The source function `AUR_Weapon::TryStartFire`. -/
def TryStartFire : Nat → Nat → World → Run World
  | 0, _, _ => .error .OutOfFuel
  | n + 1, fm, w =>
    if w.WeaponState = .Idle then
      if HasEnoughAmmoFor w fm then StartFire_Implementation n fm w
      else
        let w := emit w .OutOfAmmoSound
        pure { w with RetryStartFireTimerHandle := SetTimer w.now (.RetryStartFire fm) (1/2) }
    else pure w

/-- The source function `AUR_Weapon::RequestStartFire`. -/
def RequestStartFire : Nat → Nat → World → Run World
  | 0, _, _ => .error .OutOfFuel
  | n + 1, FireModeIndex, w =>
    match w.FireModes[FireModeIndex]? with
    | some (some _) =>
      TryStartFire n FireModeIndex
        { w with DesiredFireModes :=
            FireModeIndex :: w.DesiredFireModes.filter (fun j => j ≠ FireModeIndex) }
    | _ => pure w

/-- The source function `AUR_Weapon::RequestPutDown`. -/
def RequestPutDown : Nat → World → Run World
  | 0, _ => .error .OutOfFuel
  | n + 1, w =>
    match w.WeaponState with
    | .BringUp => PutDown n (GetTimerElapsed w.now w.SwapAnimTimerHandle / w.BringUpTime) w
    | .Idle => PutDown n 1 w
    | .Firing =>
      match w.CurrentFireMode with
      | none => .error .NullDeref
      | some c => do
        let cur ← getFM w c
        let Delay := FiringPutDownDelay w cur
        if Delay > 0 then
          pure { w with PutDownDelayTimerHandle := SetTimer w.now .RequestPutDown Delay }
        else PutDown n 1 w
    | .Busy => pure { w with PutDownDelayTimerHandle := SetTimer w.now .RequestPutDown 1 }
    | _ => pure w

/-- The source function `AUR_Weapon::FireModeChangedStatus_Implementation`. -/
def FireModeChangedStatus_Implementation : Nat → Nat → World → Run World
  | 0, _, _ => .error .OutOfFuel
  | n + 1, i, w => do
    let fm ← getFM w i
    if IsBusy fm then
      SetWeaponState n .Firing { w with CurrentFireMode := some i }
    else if some i = w.CurrentFireMode then
      let w := { w with CurrentFireMode := none }
      if w.WeaponState = .Firing then SetWeaponState n .Idle w else pure w
    else pure w

/-- Modelled from the spec: `UUR_FireModeBase::SetBusy` is not among the
sources.  The spec has the busy flag set, and the owning weapon notified
through the status-changed callback, synchronously within the call that
changed the busy state. -/
def SetBusy : Nat → Bool → Nat → World → Run World
  | 0, _, _, _ => .error .OutOfFuel
  | n + 1, bNewBusy, i, w => do
    let fm ← getFM w i
    if bNewBusy ≠ fm.bIsBusy then
      let w := setFM w i { fm with bIsBusy := bNewBusy }
      if fm.BaseInterface then FireModeChangedStatus_Implementation n i w else pure w
    else pure w

/-- The source function `UUR_FireModeBasic::StartFire_Implementation`. -/
def StartFire_Implementation : Nat → Nat → World → Run World
  | 0, _, _ => .error .OutOfFuel
  | n + 1, i, w0 => do
    let w ← SetBusy n true i w0
    let fm ← getFM w i
    let (w, SimulatedInfo) := StartFire_simulate w i fm
    let w := StartFire_localCooldown w i fm
    ServerFire n i SimulatedInfo w

/-- The `ServerFire()` call: a client sends the request to the authority, any
other net mode runs the implementation in place. -/
def ServerFire : Nat → Nat → FSimulatedShotInfo → World → Run World
  | 0, _, _, _ => .error .OutOfFuel
  | n + 1, i, SimulatedInfo, w =>
    if w.NetModeClient then pure (emit w (.ServerFireRequest i SimulatedInfo))
    else ServerFire_Implementation n i SimulatedInfo w

/-- The source function `UUR_FireModeBasic::ServerFire_Implementation`. -/
def ServerFire_Implementation : Nat → Nat → FSimulatedShotInfo → World → Run World
  | 0, _, _, _ => .error .OutOfFuel
  | n + 1, i, SimulatedInfo, w0 => do
    let fm ← getFM w0 i
    let Delay ← ServerFireDelay w0 i fm
    if Delay > 0 then
      if Delay > min (1/5) (fm.FireInterval / 2) then
        pure w0
      else
        pure (setFM w0 i { fm with
          DelayedFireTimerHandle := SetTimer w0.now (.DelayedServerFire i SimulatedInfo) Delay })
    else do
      let w ← SetBusy n true i w0
      let w ← (if fm.bIsHitscan then do
          let (w, HitscanInfo) ← (if fm.BasicInterface then
              AuthorityHitscanShot_Implementation (emit w (.AuthorityHitscanShot i SimulatedInfo))
                i SimulatedInfo
            else pure (w, default) : Run (World × FHitscanVisualInfo))
          MulticastFiredHitscan w i HitscanInfo
        else do
          let w ← (if fm.BasicInterface then
              AuthorityShot_Implementation (emit w (.AuthorityShot i SimulatedInfo)) i SimulatedInfo
            else pure w : Run World)
          MulticastFired w i : Run World)
      let fm ← getFM w i
      pure (setFM w i { fm with
        CooldownTimerHandle := SetTimer w.now (.CooldownTimer i) fm.FireInterval })

end

/-! ## Functions outside the cycle -/

/-- The source function `UUR_FireModeBasic::CooldownTimer`. -/
def CooldownTimer (n : Nat) (i : Nat) (w : World) : Run World :=
  SetBusy n false i w

/-- The source function `AUR_Weapon::BringUpCallback`. -/
def BringUpCallback (n : Nat) (w : World) : Run World :=
  if w.WeaponState = .BringUp then
    match w.CurrentFireMode with
    | some c => do
      let cur ← getFM w c
      if IsBusy cur then SetWeaponState n .Firing w else SetWeaponState n .Idle w
    | none => SetWeaponState n .Idle w
  else pure w

/-- The source function `AUR_Weapon::BringUp`; the montage playback is engine plumbing. -/
def BringUp (n : Nat) (FromPosition : ℚ) (w0 : World) : Run World := do
  let w ← SetWeaponState n .BringUp { w0 with SwapAnimTimerHandle := none }
  let Delay := (1 - FromPosition) * w.BringUpTime
  if Delay > 0 then
    pure { w with SwapAnimTimerHandle := SetTimer w.now .BringUpCallback Delay }
  else BringUpCallback n w

/-- The source function `AUR_Weapon::RequestBringUp`. -/
def RequestBringUp (n : Nat) (w0 : World) : Run World :=
  let w := { w0 with PutDownDelayTimerHandle := none }
  match w.WeaponState with
  | .Inactive => BringUp n 0 w
  | .PutDown => BringUp n (GetTimerRemaining w.now w.SwapAnimTimerHandle / w.PutDownTime) w
  | _ => pure w

/-- The source function `AUR_Weapon::RequestStopFire`. -/
def RequestStopFire (FireModeIndex : Nat) (w : World) : Run World :=
  match w.FireModes[FireModeIndex]? with
  | some (some fm) =>
    let w := { w with DesiredFireModes := w.DesiredFireModes.filter (fun j => j ≠ FireModeIndex) }
    if IsBusy fm then StopFire w FireModeIndex else pure w
  | _ => pure w

/-- The lambda that `TryStartFire` hands to the retry timer. -/
def RetryStartFire (n : Nat) (fm : Nat) (w : World) : Run World :=
  match w.DesiredFireModes with
  | d :: _ => if d = fm then TryStartFire n fm w else pure w
  | [] => pure w

/-- Run a timer callback. -/
def runCallback (n : Nat) (cb : Callback) (w : World) : Run World :=
  match cb with
  | .CooldownTimer i => CooldownTimer n i w
  | .DelayedServerFire i info => ServerFire_Implementation n i info w
  | .BringUpCallback => BringUpCallback n w
  | .PutDownCallback => PutDownCallback n w
  | .RequestPutDown => RequestPutDown n w
  | .RetryStartFire fm => RetryStartFire n fm w

/-! ## Events -/

/-- The timer handles of the weapon and of its fire modes. -/
inductive Handle where
  | Cooldown (fm : Nat)
  | DelayedFire (fm : Nat)
  | SwapAnim
  | PutDownDelay
  | RetryStartFire
  deriving DecidableEq, Repr

/-- What can happen to a weapon: the four requests of its owner, calls and
deliveries addressed to one of its fire modes, the passing of time, and the
timer manager running a due timer or a next-tick callback. -/
inductive Event where
  | RequestStartFire (FireModeIndex : Nat)
  | RequestStopFire (FireModeIndex : Nat)
  | RequestBringUp
  | RequestPutDown
  /-- A direct `StartFire()` call on a fire mode. -/
  | StartFire (fm : Nat)
  /-- A `ServerFire` request reaches the authority. -/
  | ServerFire (fm : Nat) (info : FSimulatedShotInfo)
  /-- A `MulticastFired` broadcast is delivered. -/
  | MulticastFired (fm : Nat)
  /-- A `MulticastFiredHitscan` broadcast is delivered. -/
  | MulticastFiredHitscan (fm : Nat) (h : FHitscanVisualInfo)
  /-- The clock advances. -/
  | Advance (dt : ℚ)
  /-- The timer manager runs the timer of a handle, if it is due. -/
  | Fire (h : Handle)
  /-- The timer manager runs the oldest next-tick callback. -/
  | Tick
  deriving DecidableEq, Repr

/-- Read a timer handle. -/
def readHandle (w : World) (h : Handle) : FTimerHandle :=
  match h with
  | .Cooldown i =>
    match w.FireModes[i]? with
    | some (some fm) => fm.CooldownTimerHandle
    | _ => none
  | .DelayedFire i =>
    match w.FireModes[i]? with
    | some (some fm) => fm.DelayedFireTimerHandle
    | _ => none
  | .SwapAnim => w.SwapAnimTimerHandle
  | .PutDownDelay => w.PutDownDelayTimerHandle
  | .RetryStartFire => w.RetryStartFireTimerHandle

/-- Invalidate a timer handle. -/
def clearHandle (w : World) (h : Handle) : World :=
  match h with
  | .Cooldown i =>
    match w.FireModes[i]? with
    | some (some fm) => setFM w i { fm with CooldownTimerHandle := none }
    | _ => w
  | .DelayedFire i =>
    match w.FireModes[i]? with
    | some (some fm) => setFM w i { fm with DelayedFireTimerHandle := none }
    | _ => w
  | .SwapAnim => { w with SwapAnimTimerHandle := none }
  | .PutDownDelay => { w with PutDownDelayTimerHandle := none }
  | .RetryStartFire => { w with RetryStartFireTimerHandle := none }

/-- Whether slot `i` holds a fire mode. -/
def validFM (w : World) (i : Nat) : Bool :=
  match w.FireModes[i]? with
  | some (some _) => true
  | _ => false

/-- One event.  An event addressed to a slot without a fire mode, a timer
that is not due, and a clock that would run backwards, change nothing. -/
def step (n : Nat) (e : Event) (w : World) : Run World :=
  match e with
  | .RequestStartFire i => RequestStartFire n i w
  | .RequestStopFire i => RequestStopFire i w
  | .RequestBringUp => RequestBringUp n w
  | .RequestPutDown => RequestPutDown n w
  | .StartFire i => if validFM w i then StartFire_Implementation n i w else pure w
  | .ServerFire i info => if validFM w i then ServerFire_Implementation n i info w else pure w
  | .MulticastFired i => if validFM w i then MulticastFired_Implementation w i else pure w
  | .MulticastFiredHitscan i h =>
    if validFM w i then MulticastFiredHitscan_Implementation w i h else pure w
  | .Advance dt => if dt ≥ 0 then pure { w with now := w.now + dt } else pure w
  | .Fire h =>
    match readHandle w h with
    | some t => if t.ExpireTime ≤ w.now then runCallback n t.cb (clearHandle w h) else pure w
    | none => pure w
  | .Tick =>
    match w.NextTick with
    | cb :: rest => runCallback n cb { w with NextTick := rest }
    | [] => pure w

/-- A sequence of events, oldest first; it stops at the first fault. -/
def run (n : Nat) : List Event → World → Run World
  | [], w => pure w
  | e :: es, w => do
    let w1 ← step n e w
    run n es w1

/-- The call-depth budget given to every event. -/
def callDepth : Nat := 16

/-! ## The tick of the timer manager -/

/-- Whether the timer `a` runs before the timer `b` when both are due in the
same tick: `FTimerManager::Tick` takes the due timers in the order of their
expire times, and of two timers that expire together the one armed first. -/
def runsBefore (a b : FTimerData) : Bool :=
  decide (a.ExpireTime < b.ExpireTime) ||
    (decide (a.ExpireTime = b.ExpireTime) &&
      decide (a.ExpireTime - a.Rate < b.ExpireTime - b.Rate))

/-- The timer handles that the weapon and its fire modes hold. -/
def allHandles (w : World) : List Handle :=
  (List.range w.FireModes.length).map Handle.Cooldown ++
    (List.range w.FireModes.length).map Handle.DelayedFire ++
    [.SwapAnim, .PutDownDelay, .RetryStartFire]

/-- One step of the search for the timer that runs next: the timer of the
handle `h`, if it is due, replaces the best found so far if it runs before it. -/
def nextDueStep (w : World) (best : Option Handle) (h : Handle) : Option Handle :=
  match readHandle w h with
  | some t =>
    if t.ExpireTime ≤ w.now then
      match best.bind (readHandle w) with
      | some tb => if runsBefore t tb then some h else best
      | none => some h
    else best
  | none => best

/-- The handle of the timer that the timer manager runs next: among the timers
that are due, the first in the order of `runsBefore`. -/
def nextDue (w : World) : Option Handle :=
  (allHandles w).foldl (nextDueStep w) none

/-- The engine function `FTimerManager::Tick` : the due timers run one after
the other, each the first that is due when its turn comes; `k` bounds their
number. -/
def TimerManagerTick (n : Nat) : Nat → World → Run World
  | 0, w => pure w
  | k + 1, w =>
    match nextDue w with
    | some h => do
      let w1 ← step n (.Fire h) w
      TimerManagerTick n k w1
    | none => pure w

/-- A frame of the engine: the clock advances by `dt`, the callbacks that were
queued for the next tick run, and the timer manager runs the timers that are
due. -/
def elapse (n : Nat) (dt : ℚ) (w : World) : Run World := do
  let w1 ← step n (.Advance dt) w
  let w2 ← run n (List.replicate w1.NextTick.length .Tick) w1
  TimerManagerTick n (allHandles w2).length w2

/-- A sequence of events as the engine schedules it: every advance of the
clock is a frame, in which the timer manager runs what is due, and no timer
runs at any other time (a `Fire` or `Tick` in the list is passed over). -/
def play (n : Nat) : List Event → World → Run World
  | [], w => pure w
  | .Advance dt :: es, w => do
    let w1 ← elapse n dt w
    play n es w1
  | .Fire _ :: es, w => play n es w
  | .Tick :: es, w => play n es w
  | e :: es, w => do
    let w1 ← step n e w
    play n es w1

/-! ## Closed forms and example worlds -/

/-- The world after `SetBusy(true)` on the fire mode `fm` of slot `i`, in
closed form: the flag is set and, when it changed and `BaseInterface` is bound,
the weapon makes the fire mode current and enters `Firing`. -/
def afterSetBusyTrue (w : World) (i : Nat) (fm : FireMode) : World :=
  if fm.bIsBusy then w
  else
    let w1 := setFM w i { fm with bIsBusy := true }
    if fm.BaseInterface then
      if w.WeaponState = .Firing then { w1 with CurrentFireMode := some i }
      else emit { w1 with CurrentFireMode := some i, WeaponState := .Firing }
        (.OnWeaponStateChanged .Firing)
    else w1

deriving instance DecidableEq for Except

/-- A hitscan fire mode bound to its weapon: idle, one shot a second. -/
def exFireMode : FireMode := {
  bIsBusy := false, FireInterval := 1, bIsHitscan := true, ProjectileClass := false,
  LocalFireTime := 0, CooldownTimerHandle := none, DelayedFireTimerHandle := none,
  BaseInterface := true, BasicInterface := true }

/-- A weapon on the authority: inactive, five rounds, one fire mode, the
constructor's bring-up and put-down times. -/
def exWorld : World := {
  now := 0, NetModeClient := false, bLocallyControlled := false, OwnerDesiredFireModeNum := [],
  AmmoCount := 5, WeaponState := .Inactive, FireModes := [some exFireMode],
  DesiredFireModes := [], CurrentFireMode := none,
  BringUpTime := 3/10, PutDownTime := 3/10, CooldownDelaysPutDownByPercent := 0,
  bReducePutDownDelayByPutDownTime := false,
  SwapAnimTimerHandle := none, PutDownDelayTimerHandle := none,
  RetryStartFireTimerHandle := none, NextTick := [],
  EngineFireVector := default, EngineHitscanTrace := default, log := [] }

/-- The example fire mode with a negative `FireInterval`. -/
def negIntervalFireMode : FireMode := { exFireMode with FireInterval := -1 }

/-- An idle weapon whose fire mode has a negative `FireInterval`. -/
def negIntervalWorld : World :=
  { exWorld with WeaponState := .Idle, FireModes := [some negIntervalFireMode] }

/-- The example weapon while it is being put down. -/
def putDownWorld : World := { exWorld with WeaponState := .PutDown }

/-- The example fire mode without callback interfaces. -/
def unboundFireMode : FireMode :=
  { exFireMode with BaseInterface := false, BasicInterface := false }

/-- A world whose fire mode has no callback interface bound. -/
def unboundWorld : World := { exWorld with FireModes := [some unboundFireMode] }

/-- The example fire mode 0.9 s into its cooldown. -/
def coolingFireMode : FireMode :=
  { exFireMode with bIsBusy := true, CooldownTimerHandle := some ⟨1, 1, .CooldownTimer 0⟩ }

/-- The example weapon firing, its fire mode 0.9 s into the cooldown. -/
def coolingWorld : World :=
  { exWorld with now := 9/10, WeaponState := .Firing, CurrentFireMode := some 0,
                 FireModes := [some coolingFireMode] }

/-- The example weapon idle. -/
def idleWorld : World := { exWorld with WeaponState := .Idle }

/-! ## The frame of a call -/

/-- What a call may do to a fire-mode slot: an empty slot stays empty, a fire
mode keeps its configuration and its interfaces, and does not turn idle. -/
def FireModeFrame (a b : Option (Option FireMode)) : Prop :=
  match a, b with
  | some (some fm), some (some fm') =>
    fm'.FireInterval = fm.FireInterval ∧ fm'.bIsHitscan = fm.bIsHitscan ∧
    fm'.ProjectileClass = fm.ProjectileClass ∧ fm'.BaseInterface = fm.BaseInterface ∧
    fm'.BasicInterface = fm.BasicInterface ∧ (fm.bIsBusy = true → fm'.bIsBusy = true)
  | some none, some none => True
  | none, none => True
  | _, _ => False

/-- Every fire mode that has `BasicInterface` bound has `BaseInterface` bound:
the weapon binds both when it takes the fire mode into `FireModes`. -/
def AmmoGuarded (w : World) : Prop :=
  ∀ (i : Nat) (fm : FireMode), w.FireModes[i]? = some (some fm) → fm.BasicInterface = true → fm.BaseInterface = true

/-- What every call of the cycle leaves in place. -/
structure Frame (w w' : World) : Prop where
  now : w'.now = w.now
  client : w'.NetModeClient = w.NetModeClient
  log : ∃ rest, w'.log = w.log ++ rest
  fms : ∀ i : Nat, FireModeFrame (w.FireModes[i]?) (w'.FireModes[i]?)
  ammo : AmmoGuarded w → 0 ≤ w.AmmoCount → 0 ≤ w'.AmmoCount

/-- The functions of the cycle respect the frame at budget `n`. -/
def CycleFrame (n : Nat) : Prop :=
  (∀ s w w', SetWeaponState n s w = .ok w' → Frame w w') ∧
  (∀ p w w', PutDown n p w = .ok w' → Frame w w') ∧
  (∀ w w', PutDownCallback n w = .ok w' → Frame w w') ∧
  (∀ fm w w', TryStartFire n fm w = .ok w' → Frame w w') ∧
  (∀ i w w', RequestStartFire n i w = .ok w' → Frame w w') ∧
  (∀ w w', RequestPutDown n w = .ok w' → Frame w w') ∧
  (∀ i w w', FireModeChangedStatus_Implementation n i w = .ok w' → Frame w w') ∧
  (∀ i w w', SetBusy n true i w = .ok w' → Frame w w') ∧
  (∀ i w w', StartFire_Implementation n i w = .ok w' → Frame w w') ∧
  (∀ i info w w', ServerFire n i info w = .ok w' → Frame w w') ∧
  (∀ i info w w', ServerFire_Implementation n i info w = .ok w' → Frame w w')

/-- The ammo invariant together with what maintains it. -/
def AmmoInv (w : World) : Prop := 0 ≤ w.AmmoCount ∧ AmmoGuarded w

/-- The call did not use up its call-depth budget. -/
def FuelOK {α : Type} (r : Run α) : Prop := r ≠ .error .OutOfFuel

/-- The fire mode in slot `i` exists and is busy. -/
def BusyAt (w : World) (i : Nat) : Prop := ∃ fm, getFM w i = .ok fm ∧ IsBusy fm = true

/-- The event runs `CooldownTimer` of the fire mode in slot `i` : the timer it
fires, or the oldest next-tick callback, carries that callback. -/
def runsCooldown (w : World) (e : Event) (i : Nat) : Prop :=
  match e with
  | .Fire h => ∃ t, readHandle w h = some t ∧ t.cb = .CooldownTimer i
  | .Tick => w.NextTick.head? = some (.CooldownTimer i)
  | _ => False

/-- Modelled from the spec: `SetCallbackInterface` is not among the sources.
The spec binds a fire mode to the callback interface owned by its weapon; the
weapon implements the base and the basic interface, so both get bound. -/
def SetCallbackInterface (fm : FireMode) : FireMode :=
  { fm with BaseInterface := true, BasicInterface := true }

/-- The binding loop of `AUR_Weapon::PostInitializeComponents`. -/
def BindFireModes (w : World) : World :=
  { w with FireModes := w.FireModes.map (Option.map SetCallbackInterface) }

/-- The example weapon, bound by `PostInitializeComponents`, idle with one round left. -/
def lastRoundWorld : World := BindFireModes { idleWorld with AmmoCount := 1 }

/-- A first shot. -/
def shotA : FSimulatedShotInfo := ⟨[(1, 0, 0), (0, 0, 1)]⟩

/-- A second shot. -/
def shotB : FSimulatedShotInfo := ⟨[(2, 0, 0), (0, 0, 1)]⟩

/-- Two fire requests a cooldown apart. -/
def twoRequests : List Event :=
  [.ServerFire 0 shotA, .Advance 1, .Fire (.Cooldown 0), .ServerFire 0 shotB]

/-- The example fire mode on the client that fired it 0.3 s ago. -/
def predictedFireMode : FireMode :=
  { exFireMode with bIsBusy := true, LocalFireTime := 6/10,
                    CooldownTimerHandle := some ⟨1, 16/10, .CooldownTimer 0⟩ }

/-- The example weapon on a client, firing, 0.3 s into the predicted cooldown. -/
def predictedWorld : World :=
  { exWorld with now := 9/10, NetModeClient := true, WeaponState := .Firing,
                 CurrentFireMode := some 0, FireModes := [some predictedFireMode] }

/-- The times at which the authority broadcast a shot of the fire mode `i`,
that is, accepted a request for it. -/
def acceptedAt (w : World) (i : Nat) : List ℚ :=
  w.log.filterMap (fun te =>
    match te.2 with
    | .MulticastFired j => if j = i then some te.1 else none
    | .MulticastFiredHitscan j _ => if j = i then some te.1 else none
    | _ => none)

/-- The example weapon 0.3 s after `RequestBringUp()`. -/
def bringUpWorld : World :=
  { exWorld with now := 3/10, WeaponState := .BringUp,
                 SwapAnimTimerHandle := some ⟨3/10, 3/10, .BringUpCallback⟩,
                 log := [(0, .OnWeaponStateChanged .BringUp)] }

/-! ## The stock of the weapon, and further example worlds -/

/-- What the calls of a fire mode other than an authority shot leave alone:
the desired list and the ammo of the weapon. -/
def SameStock (w w' : World) : Prop :=
  w'.DesiredFireModes = w.DesiredFireModes ∧ w'.AmmoCount = w.AmmoCount

/-- What a call of a fire mode leaves alone: the desired list, and the ammo
but for at most one round. -/
def OneRound (w w' : World) : Prop :=
  w'.DesiredFireModes = w.DesiredFireModes ∧ w'.AmmoCount ≤ w.AmmoCount ∧
    w.AmmoCount ≤ w'.AmmoCount + 1

/-- The example fire mode on the issuing client: predicted at 1.0 s, busy, its
local cooldown armed for one second. -/
def issuerFireMode : FireMode :=
  { exFireMode with bIsBusy := true, LocalFireTime := 1,
                    CooldownTimerHandle := some ⟨1, 2, .CooldownTimer 0⟩ }

/-- The issuing client 0.2 s after it predicted the shot. -/
def issuerWorld : World :=
  { exWorld with now := 6/5, NetModeClient := true, WeaponState := .Firing,
                 CurrentFireMode := some 0, FireModes := [some issuerFireMode] }

/-- The example weapon with three fire modes, the last two desired. -/
def threeModeWorld : World :=
  { idleWorld with WeaponState := .Inactive, DesiredFireModes := [2, 1],
                   FireModes := [some exFireMode, some exFireMode, some exFireMode] }

/-- A fire mode at the start of a cooldown of 0.4 s. -/
def shortCooldownFireMode : FireMode :=
  { exFireMode with bIsBusy := true, FireInterval := 2/5,
                    CooldownTimerHandle := some ⟨2/5, 1 + 2/5, .CooldownTimer 0⟩ }

/-- A firing weapon at the start of a cooldown of 0.4 s, with
`CooldownDelaysPutDownByPercent = 0.5`. -/
def shortCooldownWorld : World :=
  { exWorld with now := 1, WeaponState := .Firing, CurrentFireMode := some 0,
                 CooldownDelaysPutDownByPercent := 1/2,
                 FireModes := [some shortCooldownFireMode] }

/-- A fire mode 0.6 s into a cooldown of one second. -/
def lateCooldownFireMode : FireMode :=
  { exFireMode with bIsBusy := true, CooldownTimerHandle := some ⟨1, 2, .CooldownTimer 0⟩ }

/-- A firing weapon 0.6 s into a cooldown of one second, 0.4 s remaining, with
`CooldownDelaysPutDownByPercent = 0.5`. -/
def lateCooldownWorld : World :=
  { exWorld with now := 8/5, WeaponState := .Firing, CurrentFireMode := some 0,
                 CooldownDelaysPutDownByPercent := 1/2,
                 FireModes := [some lateCooldownFireMode] }

/-- The idle example weapon without ammo. -/
def outOfAmmoWorld : World := { idleWorld with AmmoCount := 0 }

/-- The owner asks `k` times for the fire mode `i`, 0.1 s apart; after every
0.1 s the timer manager runs the retry timer if it is due. -/
def holdFire (i : Nat) : Nat → List Event
  | 0 => []
  | k + 1 => .RequestStartFire i :: .Advance (1/10) :: .Fire .RetryStartFire :: holdFire i k

/-- The world after an out-of-ammo start attempt: the cue is played and the
retry timer is armed for 0.5 s. -/
def afterOutOfAmmo (w : World) (i : Nat) : World :=
  { w with log := w.log ++ [(w.now, .OutOfAmmoSound)]
           RetryStartFireTimerHandle := some ⟨1/2, w.now + 1/2, .RetryStartFire i⟩ }

/-- The example weapon on a client, idle. -/
def clientWorld : World := { idleWorld with NetModeClient := true }

/-- The example weapon with two fire modes. -/
def twoModeWorld : World := { exWorld with FireModes := [some exFireMode, some exFireMode] }

/-- A hitscan fire mode bound to its weapon: idle, one shot every two seconds. -/
def slowFireMode : FireMode := { exFireMode with FireInterval := 2 }

/-- A weapon on the authority with bring-up and put-down times of 0.5 s and
one fire mode with `FireInterval = 2`. -/
def slowWorld : World :=
  { exWorld with BringUpTime := 1/2, PutDownTime := 1/2, FireModes := [some slowFireMode] }

/-- The weapon of `slowWorld` with two such fire modes. -/
def twoSlowWorld : World := { slowWorld with FireModes := [some slowFireMode, some slowFireMode] }

/-- The first events of a weapon swap around a shot, every advance a frame:
the weapon is brought up (due at 0.5 s) and is `Idle` at the end of the first
frame, at 0.5625 s; a request for fire mode 0 is accepted there and the weapon
is put down (due at 1.0625 s); it is `Inactive` at the end of the second frame,
at 1.125 s, and is brought up again, to be up at 1.625 s; the third frame ends
at 1.5 s. -/
def swapPrefix : List Event :=
  [.RequestBringUp, .Advance (9/16), .ServerFire 0 shotA, .RequestPutDown, .Advance (9/16),
   .RequestBringUp, .Advance (3/8)]

/-- A weapon swap that is reversed for a moment: after `swapPrefix` a request
for the fire mode `j` arrives at 1.5 s, 0.125 s before the bring-up ends, and
is rescheduled for 1.625 s.  At 1.5625 s the weapon is asked to put down and
one frame later, at 1.578125 s, to come up again, which moves the end of the
bring-up to 1.65625 s.  The next frame ends at 1.671875 s. -/
def reversedSwap (j : Nat) : List Event :=
  swapPrefix ++ [.ServerFire j shotB, .Advance (1/16), .RequestPutDown, .Advance (1/64),
    .RequestBringUp, .Advance (3/32)]

/-- The frames of `reversedSwap` without the put-down and the second bring-up. -/
def plainSwap (j : Nat) : List Event :=
  swapPrefix ++ [.ServerFire j shotB, .Advance (1/16), .Advance (1/64), .Advance (3/32)]

/-- The example fire mode with `FireInterval = 0`. -/
def zeroIntervalFireMode : FireMode := { exFireMode with FireInterval := 0 }

/-- The example weapon with a fire mode of `FireInterval = 0` in slot 0 and the
example fire mode in slot 1. -/
def mixedWorld : World :=
  { exWorld with FireModes := [some zeroIntervalFireMode, some exFireMode] }

/-- The weapon is brought up (due at 0.3 s); the first frame ends at 0.5 s and
a request for fire mode 0 arrives, the second frame ends at 0.625 s and a
request for fire mode 1 arrives. -/
def twoModeRequests : List Event :=
  [.RequestBringUp, .Advance (1/2), .ServerFire 0 shotA, .Advance (1/8), .ServerFire 1 shotB]

/-- The client predicts a shot at 1.0 s and releases the trigger; the cooldown
is due at 2.0 s and runs in the frame that ends at 2.25 s; the next frame ends
at 3.5 s. -/
def lateConfirm : List Event :=
  [.Advance 1, .RequestStartFire 0, .RequestStopFire 0, .Advance (5/4), .Advance (5/4)]

/-- The client of `lateConfirm` at 3.5 s, when the broadcast of the authority
arrives: the shot predicted at 1.0 s has cooled down. -/
def lateConfirmWorld : World :=
  { clientWorld with
    now := 7/2
    FireModes := [some { exFireMode with LocalFireTime := 1 }]
    log := [(1, .OnWeaponStateChanged .Firing), (1, .PlayFireEffects 0),
      (1, .SimulateHitscanShot 0), (1, .PlayHitscanEffects 0 default),
      (1, .ServerFireRequest 0 ⟨[(0, 0, 0), (0, 0, 0)]⟩), (1, .StopFire 0),
      (9/4, .OnWeaponStateChanged .Idle)] }

/-- The example weapon on a client, idle, its fire mode with `FireInterval = 0`. -/
def zeroClientWorld : World := { clientWorld with FireModes := [some zeroIntervalFireMode] }

/-- The owner presses fire at 1.0 s and holds it; the next frame ends at
1.015625 s. -/
def heldFire : List Event := [.Advance 1, .RequestStartFire 0, .Advance (1/64)]

/-- A relation between worlds that every elementary update made by a call of a
fire mode respects. -/
structure FireStable (R : World → World → Prop) : Prop where
  same : ∀ w, R w w
  chain : ∀ w w1 w2, R w w1 → R w1 w2 → R w w2
  onEmit : ∀ w e, R w (emit w e)
  onSetFM : ∀ w i fm, R w (setFM w i fm)
  onConsume : ∀ w i, R w (ConsumeAmmo w i)
  onBusy : ∀ w i fm, R w (afterSetBusyTrue w i fm)
  onTick : ∀ w l, R w { w with NextTick := l }

/-- The put-down-delay timer is the same in both worlds. -/
def SamePutDownDelay (w w' : World) : Prop :=
  w'.PutDownDelayTimerHandle = w.PutDownDelayTimerHandle

/-- The assignment at the head of `SetWeaponState` : a new state is stored and
broadcast. -/
def afterEnter (s : EWeaponState) (w : World) : World :=
  if s ≠ w.WeaponState then emit { w with WeaponState := s } (.OnWeaponStateChanged s) else w

/-- The world after `StopAllFire()`, in closed form. -/
def afterStopAllFire (w : World) : World :=
  match w.CurrentFireMode with
  | some c => emit { w with DesiredFireModes := [] } (.StopFire c)
  | none => { w with DesiredFireModes := [] }

/-- The world after `SetWeaponState(BringUp)`, in closed form: a locally
controlled weapon queues the fire mode its owner desires. -/
def afterBringUpEntry (w : World) : World :=
  let w1 := afterEnter .BringUp w
  if w1.bLocallyControlled then
    match w1.OwnerDesiredFireModeNum with
    | d :: _ =>
      if validFM w1 d then
        { w1 with DesiredFireModes := d :: w1.DesiredFireModes.filter (fun j => j ≠ d) }
      else w1
    | [] => w1
  else w1

/-- The world after `PutDown(FromPosition)`, in closed form. -/
def afterPutDown (FromPosition : ℚ) (w : World) : World :=
  let w1 := afterStopAllFire (afterEnter .PutDown { w with SwapAnimTimerHandle := none })
  if FromPosition * w1.PutDownTime > 0 then
    { w1 with
      SwapAnimTimerHandle := SetTimer w1.now .PutDownCallback (FromPosition * w1.PutDownTime) }
  else afterStopAllFire (afterEnter .Inactive w1)

/-- The current fire mode, if any, is in a slot that holds a fire mode. -/
def CurrentValid (w : World) : Prop := ∀ c, w.CurrentFireMode = some c → validFM w c = true

/-- The firing weapon of `shortCooldownWorld` with a put-down pending in 0.2 s. -/
def pendingPutDownWorld : World :=
  { shortCooldownWorld with PutDownDelayTimerHandle := some ⟨1/5, 6/5, .RequestPutDown⟩ }

/-- The example weapon 0.1 s into a put-down of 0.3 s. -/
def halfDownWorld : World :=
  { exWorld with now := 1/10, WeaponState := .PutDown,
                 SwapAnimTimerHandle := some ⟨3/10, 3/10, .PutDownCallback⟩ }

/-- The example weapon idle with a put-down pending and fire mode 0 desired. -/
def idleEntryWorld : World :=
  { coolingWorld with DesiredFireModes := [0], CurrentFireMode := none,
                      PutDownDelayTimerHandle := some ⟨1/10, 1, .RequestPutDown⟩,
                      FireModes := [some exFireMode] }

/-- The example weapon 0.1 s into a bring-up of 0.3 s from position 0. -/
def thirdUpWorld : World :=
  { exWorld with now := 1/10, WeaponState := .BringUp,
                 SwapAnimTimerHandle := some ⟨3/10, 1/10 - 1/10 + 3/10, .BringUpCallback⟩ }

/-- What the invariant of a weapon is stated against: the slots that hold a
fire mode, the slots whose fire mode reads the vectors of an accepted request,
and whether the pending delayed checks are required to hold those vectors. -/
structure Marks where
  valid : Nat → Bool
  reads : Nat → Bool
  pend : Bool

/-- The callback, if it is bound to a fire mode, is bound to one in a slot that
`V` marks as holding a fire mode; under `V.pend`, a delayed check moreover holds
the two vectors, if the fire mode of its slot reads them. -/
def cbOn (V : Marks) (cb : Callback) : Prop :=
  match cb with
  | .CooldownTimer i => V.valid i = true
  | .DelayedServerFire i info =>
    V.valid i = true ∧ (V.pend = true → V.reads i = true → 2 ≤ info.Vectors.length)
  | .RetryStartFire i => V.valid i = true
  | _ => True

/-- The timer of the handle, if any, carries such a callback. -/
def handleOn (V : Marks) (h : FTimerHandle) : Prop := ∀ t, h = some t → cbOn V t.cb

/-- Every reference that the weapon and its fire modes hold is to a slot that
`V` marks: the current fire mode, the desired list, and the callbacks of the
pending timers and of the next tick. -/
structure RefsOn (V : Marks) (w : World) : Prop where
  cur : ∀ c, w.CurrentFireMode = some c → V.valid c = true
  des : ∀ i ∈ w.DesiredFireModes, V.valid i = true
  tick : ∀ cb ∈ w.NextTick, cbOn V cb
  swap : handleOn V w.SwapAnimTimerHandle
  pdd : handleOn V w.PutDownDelayTimerHandle
  retry : handleOn V w.RetryStartFireTimerHandle
  fms : ∀ o ∈ w.FireModes, ∀ fm, o = some fm →
    handleOn V fm.CooldownTimerHandle ∧ handleOn V fm.DelayedFireTimerHandle

/-- A weapon in state `Firing` has a current fire mode. -/
def FiringHasCurrent (w : World) : Prop :=
  w.WeaponState = .Firing → w.CurrentFireMode ≠ none

/-- The marks `V` describe the slots of the weapon: `V.valid` marks the slots
that hold a fire mode, `V.reads` those whose fire mode reads the vectors. -/
def SlotsOn (V : Marks) (w : World) : Prop :=
  ∀ i, validFM w i = V.valid i ∧ ∀ fm, getFM w i = .ok fm → ReadsVectors fm = V.reads i

/-- The invariant of a weapon whose slots are marked by `V` : `V` describes the
slots, every reference is to a marked slot, and the state `Firing` comes with a
current fire mode. -/
structure Inv (V : Marks) (w : World) : Prop where
  slots : SlotsOn V w
  refs : RefsOn V w
  firing : FiringHasCurrent w

/-- The call did not dereference a missing fire mode: it returned a result
with the property `P`, or its call-depth budget ran out, or, unless `S` is set,
it indexed the vectors of a request past their end. -/
def Safe {α : Type} (S : Bool) (P : α → Prop) (r : Run α) : Prop :=
  match r with
  | .ok a => P a
  | .error .OutOfFuel => True
  | .error .NullDeref => False
  | .error .OutOfRange => S = false

/-- Whether the fire mode in slot `i`, if any, reads the vectors of a request. -/
def readsFM (w : World) (i : Nat) : Bool :=
  match w.FireModes[i]? with
  | some (some fm) => ReadsVectors fm
  | _ => false

/-- The marks that describe the slots of the weapon `w`. -/
def marksOf (w : World) (pend : Bool) : Marks :=
  { valid := fun i => validFM w i, reads := fun i => readsFM w i, pend := pend }

/-- An inactive weapon with no current fire mode, whose desired list and
pending timers refer to fire modes that it holds. -/
structure InactiveWeapon (w : World) : Prop where
  state : w.WeaponState = .Inactive
  current : w.CurrentFireMode = none
  refs : RefsOn (marksOf w false) w

/-- A fire request that holds the two vectors that a shot callback may read;
any other event. -/
def GoodRequest (e : Event) : Prop :=
  match e with
  | .ServerFire _ info => 2 ≤ info.Vectors.length
  | _ => True

/-- The local cooldown of a busy fire mode on a client as `StartFire()` and the
handling of a broadcast arm it.  With `FireInterval > 0` the cooldown timer was
armed at a time `b = ExpireTime - Rate` that is not in the future, for
`FireInterval - (b - LocalFireTime) / 2 > 0` seconds (for `FireInterval` seconds
by `StartFire()`, at `b = LocalFireTime`); otherwise the cooldown callback is
queued for the next tick. -/
def LocalCooldownArmed (w : World) (i : Nat) (fm : FireMode) : Prop :=
  fm.bIsBusy = true →
    if 0 < fm.FireInterval then
      ∃ t, fm.CooldownTimerHandle = some t ∧ 0 < t.Rate ∧ t.ExpireTime - t.Rate ≤ w.now ∧
        t.Rate = fm.FireInterval - (t.ExpireTime - t.Rate - fm.LocalFireTime) / 2
    else Callback.CooldownTimer i ∈ w.NextTick

/-- The timer manager has run the cooldown timer of the fire mode if it was
due: the timer, if armed, is not overdue. -/
def CooldownNotOverdue (w : World) (fm : FireMode) : Prop :=
  ∀ t, fm.CooldownTimerHandle = some t → w.now ≤ t.ExpireTime

/-! ## Theorems -/

/-! ### The `Run` monad and fire-mode lookup -/

theorem Run.bind_ok {α β : Type} (a : α) (f : α → Run β) : (Except.ok a >>= f) = f a := rfl

theorem Run.bind_error {α β : Type} (e : Fault) (f : α → Run β) :
    ((Except.error e : Run α) >>= f) = Except.error e := rfl

theorem Run.pure_eq {α : Type} (a : α) : (pure a : Run α) = Except.ok a := rfl

theorem getFM_eq_ok_iff (w : World) (i : Nat) (fm : FireMode) :
    getFM w i = .ok fm ↔ w.FireModes[i]? = some (some fm) := by
  unfold getFM
  split
  · next h => simp [h]
  · next h =>
    constructor
    · intro h'; cases h'
    · intro h'; exact absurd h' (h fm)

theorem getFM_setFM_same (w : World) (i : Nat) (fm fm1 : FireMode) (h : getFM w i = .ok fm) :
    getFM (setFM w i fm1) i = .ok fm1 := by
  unfold getFM at h ⊢
  have hlt : i < w.FireModes.length := by
    by_contra hc
    rw [List.getElem?_eq_none (not_lt.mp hc)] at h
    simp at h
  simp [setFM, List.getElem?_set, hlt]

/-! ### The authoritative shot and the vectors of the request -/

theorem TArrayAt_ok (a : List FVector) (k : Nat) (h : k < a.length) :
    ∃ v, TArrayAt a k = .ok v := by
  unfold TArrayAt
  rw [List.getElem?_eq_getElem h]
  exact ⟨_, rfl⟩

theorem TArrayAt_short (a : List FVector) (k : Nat) (h : a.length ≤ k) :
    TArrayAt a k = .error .OutOfRange := by
  unfold TArrayAt
  rw [List.getElem?_eq_none h]

theorem AuthorityHitscanShot_ok (w : World) (i : Nat) (info : FSimulatedShotInfo)
    (h : 2 ≤ info.Vectors.length) :
    AuthorityHitscanShot_Implementation w i info =
      .ok (ConsumeAmmo w i, w.EngineHitscanTrace) := by
  obtain ⟨v0, h0⟩ := TArrayAt_ok info.Vectors 0 (by omega)
  obtain ⟨v1, h1⟩ := TArrayAt_ok info.Vectors 1 (by omega)
  simp only [AuthorityHitscanShot_Implementation, h0, h1, Run.bind_ok, Run.pure_eq]

theorem AuthorityHitscanShot_short (w : World) (i : Nat) (info : FSimulatedShotInfo)
    (h : info.Vectors.length < 2) :
    AuthorityHitscanShot_Implementation w i info = .error .OutOfRange := by
  unfold AuthorityHitscanShot_Implementation
  by_cases h0 : info.Vectors.length = 0
  · rw [TArrayAt_short info.Vectors 0 (by omega)]; rfl
  · obtain ⟨v0, hv0⟩ := TArrayAt_ok info.Vectors 0 (by omega)
    rw [hv0, TArrayAt_short info.Vectors 1 (by omega)]; rfl

/-- The hitscan shot consumes a round and reports the trace, or faults at the
index. -/
theorem AuthorityHitscanShot_cases (w : World) (i : Nat) (info : FSimulatedShotInfo) :
    AuthorityHitscanShot_Implementation w i info =
        .ok (ConsumeAmmo w i, w.EngineHitscanTrace) ∨
      AuthorityHitscanShot_Implementation w i info = .error .OutOfRange := by
  by_cases h : 2 ≤ info.Vectors.length
  · exact Or.inl (AuthorityHitscanShot_ok w i info h)
  · exact Or.inr (AuthorityHitscanShot_short w i info (by omega))

theorem AuthorityShot_ok (w : World) (i : Nat) (info : FSimulatedShotInfo) (fm : FireMode)
    (hfm : getFM w i = .ok fm) (h : fm.ProjectileClass = true → 2 ≤ info.Vectors.length) :
    AuthorityShot_Implementation w i info =
      .ok (if fm.ProjectileClass then ConsumeAmmo w i else w) := by
  simp only [AuthorityShot_Implementation, hfm, Run.bind_ok]
  by_cases hp : fm.ProjectileClass = true
  · have hl := h hp
    obtain ⟨v0, h0⟩ := TArrayAt_ok info.Vectors 0 (by omega)
    obtain ⟨v1, h1⟩ := TArrayAt_ok info.Vectors 1 (by omega)
    simp only [hp, if_true, h0, h1, Run.bind_ok, Run.pure_eq]
  · simp only [hp, Bool.false_eq_true, if_false, Run.pure_eq]

theorem AuthorityShot_short (w : World) (i : Nat) (info : FSimulatedShotInfo) (fm : FireMode)
    (hfm : getFM w i = .ok fm) (hp : fm.ProjectileClass = true)
    (h : info.Vectors.length < 2) :
    AuthorityShot_Implementation w i info = .error .OutOfRange := by
  simp only [AuthorityShot_Implementation, hfm, Run.bind_ok, hp, if_true]
  by_cases h0 : info.Vectors.length = 0
  · rw [TArrayAt_short info.Vectors 0 (by omega)]; rfl
  · obtain ⟨v0, hv0⟩ := TArrayAt_ok info.Vectors 0 (by omega)
    rw [hv0, TArrayAt_short info.Vectors 1 (by omega)]; rfl

/-- The projectile shot consumes a round under `ProjectileClass`, or faults at
the index. -/
theorem AuthorityShot_cases (w : World) (i : Nat) (info : FSimulatedShotInfo) (fm : FireMode)
    (hfm : getFM w i = .ok fm) :
    AuthorityShot_Implementation w i info =
        .ok (if fm.ProjectileClass then ConsumeAmmo w i else w) ∨
      AuthorityShot_Implementation w i info = .error .OutOfRange := by
  by_cases h : fm.ProjectileClass = true → 2 ≤ info.Vectors.length
  · exact Or.inl (AuthorityShot_ok w i info fm hfm h)
  · push_neg at h
    exact Or.inr (AuthorityShot_short w i info fm hfm h.1 h.2)

/-- The simulation fills in the two vectors that the authoritative shot reads. -/
theorem SimulatedShot_length (w : World) (o : FSimulatedShotInfo) :
    2 ≤ (SimulatedShot w o).Vectors.length := by
  simp [SimulatedShot, EmplaceAt]

/-! ### `SetBusy(true)` and the three branches of `ServerFire_Implementation` -/

theorem SetWeaponState_Firing (n : Nat) (w : World) :
    SetWeaponState (n + 1) .Firing w =
      .ok (if w.WeaponState = .Firing then w
        else emit { w with WeaponState := .Firing } (.OnWeaponStateChanged .Firing)) := by
  by_cases h : w.WeaponState = .Firing
  · simp [SetWeaponState, h, Run.pure_eq]
  · have h' : EWeaponState.Firing ≠ w.WeaponState := fun e => h e.symm
    simp [SetWeaponState, h, h', emit, Run.pure_eq]

theorem SetBusy_true_eq (n : Nat) (w : World) (i : Nat) (fm : FireMode)
    (hfm : getFM w i = .ok fm) :
    SetBusy (n + 3) true i w = .ok (afterSetBusyTrue w i fm) := by
  obtain ⟨busy, I, hs, pc, lft, ct, dt, bi, bsi⟩ := fm
  have h1 := fun x => getFM_setFM_same w i _ x hfm
  cases busy <;> cases bi <;>
    simp [afterSetBusyTrue, SetBusy, hfm, Run.bind_ok, Run.pure_eq,
      FireModeChangedStatus_Implementation, h1, IsBusy, SetWeaponState_Firing]
  simp [setFM]

/-- Whatever the budget, a `SetBusy(true)` that returns has produced the
closed form. -/
theorem SetBusy_true_ok (n : Nat) (w w1 : World) (i : Nat) (fm : FireMode)
    (hfm : getFM w i = .ok fm) (h : SetBusy n true i w = .ok w1) :
    w1 = afterSetBusyTrue w i fm := by
  match n with
  | 0 => simp [SetBusy] at h
  | 1 =>
    obtain ⟨busy, I, hs, pc, lft, ct, dt, bi, bsi⟩ := fm
    cases busy <;> cases bi <;>
      simp [afterSetBusyTrue, SetBusy, hfm, Run.bind_ok, Run.pure_eq,
        FireModeChangedStatus_Implementation] at h ⊢ <;>
      try exact h.symm
  | 2 =>
    obtain ⟨busy, I, hs, pc, lft, ct, dt, bi, bsi⟩ := fm
    have h1 := fun x => getFM_setFM_same w i _ x hfm
    cases busy <;> cases bi <;>
      simp [afterSetBusyTrue, SetBusy, hfm, Run.bind_ok, Run.pure_eq,
        FireModeChangedStatus_Implementation, h1, IsBusy, SetWeaponState] at h ⊢ <;>
      try exact h.symm
  | n + 3 =>
    rw [SetBusy_true_eq n w i fm hfm] at h
    exact (Except.ok.inj h).symm

theorem getFM_afterSetBusyTrue (w : World) (i : Nat) (fm : FireMode)
    (hfm : getFM w i = .ok fm) :
    getFM (afterSetBusyTrue w i fm) i = .ok { fm with bIsBusy := true } := by
  obtain ⟨busy, I, hs, pc, lft, ct, dt, bi, bsi⟩ := fm
  have h1 := fun x => getFM_setFM_same w i _ x hfm
  have h2 := fun x => (getFM_eq_ok_iff _ _ _).mp (h1 x)
  cases busy <;> cases bi <;> simp [afterSetBusyTrue, hfm, h1]
  split <;> simp [getFM_eq_ok_iff, emit, h2]

theorem afterSetBusyTrue_now (w : World) (i : Nat) (fm : FireMode) :
    (afterSetBusyTrue w i fm).now = w.now := by
  unfold afterSetBusyTrue; split <;> [rfl; (split <;> [(split <;> rfl); rfl])]

theorem afterSetBusyTrue_client (w : World) (i : Nat) (fm : FireMode) :
    (afterSetBusyTrue w i fm).NetModeClient = w.NetModeClient := by
  unfold afterSetBusyTrue; split <;> [rfl; (split <;> [(split <;> rfl); rfl])]

theorem afterSetBusyTrue_trace (w : World) (i : Nat) (fm : FireMode) :
    (afterSetBusyTrue w i fm).EngineHitscanTrace = w.EngineHitscanTrace := by
  unfold afterSetBusyTrue; split <;> [rfl; (split <;> [(split <;> rfl); rfl])]

/-- The discarding branch of `ServerFire_Implementation` : the world is
returned as it was. -/
theorem ServerFire_drop (n : Nat) (w : World) (i : Nat) (info : FSimulatedShotInfo)
    (fm : FireMode) (d : ℚ) (hfm : getFM w i = .ok fm) (hd : ServerFireDelay w i fm = .ok d)
    (hpos : 0 < d) (hgt : d > min (1/5) (fm.FireInterval / 2)) :
    ServerFire_Implementation (n + 1) i info w = .ok w := by
  have hpos' : d > 0 := hpos
  simp only [ServerFire_Implementation, hfm, hd, Run.bind_ok, if_pos hpos', if_pos hgt,
    Run.pure_eq]

/-- The rescheduling branch of `ServerFire_Implementation` : only the
delayed-fire timer of the fire mode changes. -/
theorem ServerFire_resched (n : Nat) (w : World) (i : Nat) (info : FSimulatedShotInfo)
    (fm : FireMode) (d : ℚ) (hfm : getFM w i = .ok fm) (hd : ServerFireDelay w i fm = .ok d)
    (hpos : 0 < d) (hle : d ≤ min (1/5) (fm.FireInterval / 2)) :
    ServerFire_Implementation (n + 1) i info w = .ok (setFM w i { fm with
      DelayedFireTimerHandle := some ⟨d, w.now + d, .DelayedServerFire i info⟩ }) := by
  have hpos' : d > 0 := hpos
  simp only [ServerFire_Implementation, hfm, hd, Run.bind_ok, if_pos hpos',
    if_neg (not_lt.mpr hle), Run.pure_eq, SetTimer]

/-- The accepting branch of `ServerFire_Implementation` on the authority, in
closed form. -/
theorem ServerFire_accept (n : Nat) (w : World) (i : Nat) (info : FSimulatedShotInfo)
    (fm : FireMode) (d : ℚ) (hfm : getFM w i = .ok fm) (hd : ServerFireDelay w i fm = .ok d)
    (hle : d ≤ 0) (hauth : w.NetModeClient = false)
    (hv : ReadsVectors fm = true → 2 ≤ info.Vectors.length) :
    ServerFire_Implementation (n + 4) i info w = .ok
      (let w1 := afterSetBusyTrue w i fm
       let w2 :=
         if fm.bIsHitscan then
           if fm.BasicInterface then
             emit (ConsumeAmmo (emit w1 (.AuthorityHitscanShot i info)) i)
               (.MulticastFiredHitscan i w.EngineHitscanTrace)
           else emit w1 (.MulticastFiredHitscan i default)
         else
           if fm.BasicInterface then
             emit (if fm.ProjectileClass then ConsumeAmmo (emit w1 (.AuthorityShot i info)) i
               else emit w1 (.AuthorityShot i info)) (.MulticastFired i)
           else emit w1 (.MulticastFired i)
       setFM w2 i { fm with
         bIsBusy := true
         CooldownTimerHandle := SetTimer w.now (.CooldownTimer i) fm.FireInterval }) := by
  obtain ⟨busy, I, hs, pc, lft, ct, dt, bi, bsi⟩ := fm
  have hb := SetBusy_true_eq n w i _ hfm
  have hg' := (getFM_eq_ok_iff _ _ _).mp (getFM_afterSetBusyTrue w i _ hfm)
  have hnow := afterSetBusyTrue_now w i ⟨busy, I, hs, pc, lft, ct, dt, bi, bsi⟩
  have hcl := afterSetBusyTrue_client w i ⟨busy, I, hs, pc, lft, ct, dt, bi, bsi⟩
  have hhit := afterSetBusyTrue_trace w i ⟨busy, I, hs, pc, lft, ct, dt, bi, bsi⟩
  rw [hauth] at hcl
  dsimp only at hg'
  have hnot : ¬ d > 0 := not_lt.mpr hle
  simp only [ServerFire_Implementation, hfm, hd, Run.bind_ok, if_neg hnot, hb]
  have hget : ∀ e, getFM (emit (afterSetBusyTrue w i ⟨busy, I, hs, pc, lft, ct, dt, bi, bsi⟩) e) i
      = .ok ⟨true, I, hs, pc, lft, ct, dt, bi, bsi⟩ := fun e =>
    (getFM_eq_ok_iff _ _ _).mpr hg'
  have hH : ∀ w1, bsi = true → hs = true →
      AuthorityHitscanShot_Implementation w1 i info =
        .ok (ConsumeAmmo w1 i, w1.EngineHitscanTrace) := fun w1 h1 h2 =>
    AuthorityHitscanShot_ok w1 i info (hv (by simp [ReadsVectors, h1, h2]))
  have hS : ∀ e, bsi = true →
      AuthorityShot_Implementation
          (emit (afterSetBusyTrue w i ⟨busy, I, hs, pc, lft, ct, dt, bi, bsi⟩) e) i info =
        .ok (if pc = true then
          ConsumeAmmo (emit (afterSetBusyTrue w i ⟨busy, I, hs, pc, lft, ct, dt, bi, bsi⟩) e) i
          else emit (afterSetBusyTrue w i ⟨busy, I, hs, pc, lft, ct, dt, bi, bsi⟩) e) :=
    fun e h1 => AuthorityShot_ok _ i info _ (hget e)
      (fun hp => hv (by simp only [ReadsVectors] at hp ⊢; simp [h1, hp]))
  clear hv
  cases hs <;> cases bsi <;> cases pc <;>
    (try simp only [forall_true_left, Bool.false_eq_true, false_implies, implies_true]
      at hH hS) <;>
    (try simp only [if_true, if_false, Bool.false_eq_true, hH, hS, Run.bind_ok, Run.pure_eq,
      bind_pure_comp, pure_bind]) <;>
    simp [Run.bind_ok, Run.pure_eq, MulticastFired, MulticastFiredHitscan,
      MulticastFired_Implementation, MulticastFiredHitscan_Implementation, hH, hS,
      getFM, setFM, emit, ConsumeAmmo, hg', hcl, hnow, hhit, bind, Except.bind]

/-- A request whose array is too short for the shot callback that reads it
faults at the index. -/
theorem ServerFire_short (n : Nat) (w : World) (i : Nat) (info : FSimulatedShotInfo)
    (fm : FireMode) (d : ℚ) (hfm : getFM w i = .ok fm) (hd : ServerFireDelay w i fm = .ok d)
    (hle : d ≤ 0) (hr : ReadsVectors fm = true) (hs : info.Vectors.length < 2) :
    ServerFire_Implementation (n + 4) i info w = .error .OutOfRange := by
  have hb := SetBusy_true_eq n w i _ hfm
  have hg := getFM_afterSetBusyTrue w i _ hfm
  have hnot : ¬ d > 0 := not_lt.mpr hle
  simp only [ServerFire_Implementation, hfm, hd, Run.bind_ok, if_neg hnot, hb]
  simp only [ReadsVectors, Bool.and_eq_true, Bool.or_eq_true] at hr
  obtain ⟨hbi, hr⟩ := hr
  by_cases hh : fm.bIsHitscan = true
  · simp only [hh, if_true, hbi, AuthorityHitscanShot_short _ i info hs]
    rfl
  · have hp : fm.ProjectileClass = true := by
      rcases hr with h | h
      · exact absurd h hh
      · exact h
    have hge : getFM (emit (afterSetBusyTrue w i fm) (.AuthorityShot i info)) i =
        .ok { fm with bIsBusy := true } := by
      rw [getFM_eq_ok_iff] at hg ⊢; exact hg
    simp only [hh, hbi, if_true, AuthorityShot_short _ i info _ hge hp hs]
    rfl

/-! ### C1 -/

/-- C1, as amended: when the `Delay` the authority computes is positive (which
it is for every `FireInterval ≥ 0` once it exceeds the threshold) and exceeds
`min(0.2, FireInterval/2)`, `ServerFire` returns the world as it was: busy flag,
cooldown timer, delayed-fire timer and ammo are unchanged and nothing is
recorded, neither an authority-shot callback nor a broadcast. -/
theorem C1_ServerFire_drops_excessive_delay (n : Nat) (w : World) (i : Nat)
    (info : FSimulatedShotInfo) (fm : FireMode) (d : ℚ)
    (hfm : getFM w i = .ok fm) (hd : ServerFireDelay w i fm = .ok d)
    (hpos : 0 ≤ fm.FireInterval ∨ 0 < d) (hgt : d > min (1/5) (fm.FireInterval / 2)) :
    ServerFire_Implementation (n + 1) i info w = .ok w := by
  have hd0 : 0 < d := by
    rcases hpos with hI | h
    · have : (0 : ℚ) ≤ min (1/5) (fm.FireInterval / 2) := le_min (by norm_num) (by linarith)
      linarith
    · exact h
  exact ServerFire_drop n w i info fm d hfm hd hd0 hgt

/-- C1 at a weapon that is being put down: the owner answers a delay of one
second, the threshold is 0.2 s, the request is dropped. -/
theorem C1_witness :
    ServerFireDelay putDownWorld 0 exFireMode = .ok 1 ∧
      ServerFire_Implementation 1 0 default putDownWorld = .ok putDownWorld :=
  ⟨by decide!, C1_ServerFire_drops_excessive_delay 0 putDownWorld 0 default exFireMode 1
    (by decide!) (by decide!) (Or.inl (by decide!)) (by decide!)⟩

/-- C1 as stated fails for a negative `FireInterval` : with `FireInterval = -1`
on an idle weapon the delay is `0 > min(0.2, -0.5)`, yet the request is
accepted: the fire mode turns busy, a round is consumed, the authority-shot
callback runs and the shot is broadcast. -/
theorem C1_counterexample :
    getFM negIntervalWorld 0 = .ok negIntervalFireMode ∧
      ServerFireDelay negIntervalWorld 0 negIntervalFireMode = .ok 0 ∧
      (0 : ℚ) > min (1/5) (negIntervalFireMode.FireInterval / 2) ∧
      (ServerFire_Implementation 4 0 shotA negIntervalWorld).toOption.map
          (fun w => (w.FireModes.map (Option.map FireMode.bIsBusy), w.AmmoCount, w.log)) =
        some ([some true], 4,
          [(0, .OnWeaponStateChanged .Firing), (0, .AuthorityHitscanShot 0 shotA),
           (0, .MulticastFiredHitscan 0 default)]) := by
  decide!

/-! ### C2 -/

/-- C2, as amended: on the authority, for a request for which the computed
`Delay` is `≤ 0`.  (1) If the `SimulatedShotInfo` holds the two vectors that the
shot callback of the fire mode reads, the request is accepted: the fire mode is
busy afterwards and exactly one broadcast is made (`MulticastFiredHitscan` if
`bIsHitscan`, else `MulticastFired`); when `BasicInterface` is bound the
authoritative shot callback (`AuthorityHitscanShot` if `bIsHitscan`, else
`AuthorityShot`) is invoked exactly once, before the broadcast, with the
caller's `SimulatedShotInfo`; and when `FireInterval > 0` the cooldown timer is
armed for `FireInterval` seconds.  Before the shot the log gains at most the
weapon's change to `Firing`.  (2) If the callback reads the vectors and the
request holds fewer than two, the call faults at the index: there is no
broadcast and no cooldown timer. -/
theorem C2_ServerFire_accepts (n : Nat) (w : World) (i : Nat) (info : FSimulatedShotInfo)
    (fm : FireMode) (d : ℚ) (hfm : getFM w i = .ok fm) (hd : ServerFireDelay w i fm = .ok d)
    (hle : d ≤ 0) (hauth : w.NetModeClient = false) :
    ((ReadsVectors fm = true → 2 ≤ info.Vectors.length) →
      ∃ w' fm', ServerFire_Implementation (n + 4) i info w = .ok w' ∧
        getFM w' i = .ok fm' ∧ fm'.bIsBusy = true ∧
        (0 < fm.FireInterval → fm'.CooldownTimerHandle =
          some ⟨fm.FireInterval, w.now + fm.FireInterval, .CooldownTimer i⟩) ∧
        ∃ pre h, (∀ e ∈ pre, e = (w.now, Effect.OnWeaponStateChanged .Firing)) ∧
          w'.log = w.log ++ pre ++
            (if fm.BasicInterface then
              [(w.now, if fm.bIsHitscan then Effect.AuthorityHitscanShot i info
                else Effect.AuthorityShot i info)] else []) ++
            [(w.now, if fm.bIsHitscan then Effect.MulticastFiredHitscan i h
                else Effect.MulticastFired i)]) ∧
    (ReadsVectors fm = true → info.Vectors.length < 2 →
      ServerFire_Implementation (n + 4) i info w = .error .OutOfRange) := by
  refine ⟨fun hv => ?_, fun hr hs => ServerFire_short n w i info fm d hfm hd hle hr hs⟩
  have hacc := ServerFire_accept n w i info fm d hfm hd hle hauth hv
  have hg := (getFM_eq_ok_iff _ _ _).mp (getFM_afterSetBusyTrue w i fm hfm)
  have hlt : i < (afterSetBusyTrue w i fm).FireModes.length := by
    by_contra hc
    rw [List.getElem?_eq_none (not_lt.mp hc)] at hg
    cases hg
  have hnow := afterSetBusyTrue_now w i fm
  have hlog : ∃ pre, (∀ e ∈ pre, e = (w.now, Effect.OnWeaponStateChanged .Firing)) ∧
      (afterSetBusyTrue w i fm).log = w.log ++ pre := by
    unfold afterSetBusyTrue
    split
    · exact ⟨[], by simp, by simp⟩
    · split
      · split
        · exact ⟨[], by simp, by simp [setFM]⟩
        · exact ⟨[(w.now, Effect.OnWeaponStateChanged .Firing)], by simp, by simp [setFM, emit]⟩
      · exact ⟨[], by simp, by simp [setFM]⟩
  obtain ⟨pre, hpre, hlog⟩ := hlog
  refine ⟨_, (⟨true, fm.FireInterval, fm.bIsHitscan, fm.ProjectileClass, fm.LocalFireTime,
      SetTimer w.now (.CooldownTimer i) fm.FireInterval, fm.DelayedFireTimerHandle,
      fm.BaseInterface, fm.BasicInterface⟩ : FireMode), hacc, ?_, rfl, ?_,
      pre, (if fm.BasicInterface then w.EngineHitscanTrace else default), hpre, ?_⟩
  · simp only [getFM_eq_ok_iff, setFM, List.getElem?_set]
    cases fm.bIsHitscan <;> cases fm.ProjectileClass <;> cases fm.BasicInterface <;>
      simp [emit, ConsumeAmmo, hlt]
  · intro hI
    simp [SetTimer, hI]
  · cases fm.bIsHitscan <;> cases fm.ProjectileClass <;> cases fm.BasicInterface <;>
      simp [emit, ConsumeAmmo, setFM, hlog, hnow]

/-- C2 at an idle weapon: the request with two vectors is accepted, the request
without vectors faults. -/
theorem C2_witness :
    (∃ w' fm', ServerFire_Implementation 4 0 shotA idleWorld = .ok w' ∧
      getFM w' 0 = .ok fm' ∧ fm'.bIsBusy = true ∧
      ((0 : ℚ) < 1 → fm'.CooldownTimerHandle = some ⟨1, 0 + 1, .CooldownTimer 0⟩) ∧
      ∃ pre h, (∀ e ∈ pre, e = ((0 : ℚ), Effect.OnWeaponStateChanged .Firing)) ∧
        w'.log = [] ++ pre ++
          (if true then
            [(0, if true then Effect.AuthorityHitscanShot 0 shotA
              else Effect.AuthorityShot 0 shotA)] else []) ++
          [(0, if true then Effect.MulticastFiredHitscan 0 h else Effect.MulticastFired 0)]) ∧
      ServerFire_Implementation 4 0 default idleWorld = .error .OutOfRange :=
  ⟨(C2_ServerFire_accepts 0 idleWorld 0 shotA exFireMode 0
      (by decide!) (by decide!) (by decide!) (by decide!)).1 (fun _ => by decide),
    (C2_ServerFire_accepts 0 idleWorld 0 default exFireMode 0
      (by decide!) (by decide!) (by decide!) (by decide!)).2 (by decide) (by decide)⟩

/-- C2 as stated fails.  (1) When no callback interface is bound the request
is accepted and broadcast, but no authority-shot callback is invoked.  (2) With
a `FireInterval` that is not positive the request is accepted and no cooldown
timer is armed: the engine arms a timer only for a positive rate.  (3) A request
that holds no vector, to a fire mode whose shot callback reads two, faults: it
is not accepted, nothing is broadcast and no cooldown timer is armed. -/
theorem C2_counterexample :
    getFM unboundWorld 0 = .ok unboundFireMode ∧
      ServerFireDelay unboundWorld 0 unboundFireMode = .ok 0 ∧
      (ServerFire_Implementation 4 0 default unboundWorld).toOption.map (fun w => w.log) =
        some [(0, .MulticastFiredHitscan 0 default)] ∧
      getFM negIntervalWorld 0 = .ok negIntervalFireMode ∧
      ServerFireDelay negIntervalWorld 0 negIntervalFireMode = .ok 0 ∧
      (ServerFire_Implementation 4 0 shotA negIntervalWorld).toOption.map
          (fun w => w.FireModes.map (Option.map (fun f => (f.bIsBusy, f.CooldownTimerHandle)))) =
        some [some (true, none)] ∧
      getFM idleWorld 0 = .ok exFireMode ∧ ServerFireDelay idleWorld 0 exFireMode = .ok 0 ∧
      (default : FSimulatedShotInfo).Vectors = [] ∧
      ServerFire_Implementation callDepth 0 default idleWorld = .error .OutOfRange := by
  decide!

/-! ### C8 -/

/-- C8: when the authority computes `0 < Delay ≤ min(0.2, FireInterval/2)`,
`ServerFire` changes nothing but the delayed-fire timer of the fire mode (busy
flag, ammo, cooldown timer and log are as before), and that timer is armed to
expire exactly `Delay` seconds from now with a callback that re-runs
`ServerFire_Implementation` on the same `SimulatedShotInfo`. -/
theorem C8_ServerFire_reschedules (n m : Nat) (w : World) (i : Nat)
    (info : FSimulatedShotInfo) (fm : FireMode) (d : ℚ)
    (hfm : getFM w i = .ok fm) (hd : ServerFireDelay w i fm = .ok d)
    (hpos : 0 < d) (hle : d ≤ min (1/5) (fm.FireInterval / 2)) :
    ServerFire_Implementation (n + 1) i info w = .ok (setFM w i { fm with
        DelayedFireTimerHandle := some ⟨d, w.now + d, .DelayedServerFire i info⟩ }) ∧
      ∀ w1, runCallback m (.DelayedServerFire i info) w1 =
        ServerFire_Implementation m i info w1 :=
  ⟨ServerFire_resched n w i info fm d hfm hd hpos hle, fun _ => rfl⟩

/-- C8 at a firing weapon 0.1 s before the end of the cooldown. -/
theorem C8_witness :
    ServerFire_Implementation 1 0 default coolingWorld = .ok (setFM coolingWorld 0
        { coolingFireMode with
          DelayedFireTimerHandle := some ⟨1/10, 9/10 + 1/10, .DelayedServerFire 0 default⟩ }) ∧
      ∀ w1, runCallback 7 (.DelayedServerFire 0 default) w1 =
        ServerFire_Implementation 7 0 default w1 :=
  C8_ServerFire_reschedules 0 7 coolingWorld 0 default coolingFireMode (1/10)
    (by decide!) (by decide!) (by decide!) (by decide!)

/-! ### C10 -/

/-- C10: when a fire mode reports a status change while busy, it becomes the
weapon's current fire mode and the weapon state becomes `Firing`. -/
theorem C10_busy_status_makes_current_and_Firing (n : Nat) (w : World) (i : Nat)
    (fm : FireMode) (hfm : getFM w i = .ok fm) (hb : IsBusy fm = true) :
    ∃ w', FireModeChangedStatus_Implementation (n + 2) i w = .ok w' ∧
      w'.CurrentFireMode = some i ∧ w'.WeaponState = .Firing := by
  simp only [FireModeChangedStatus_Implementation, hfm, Run.bind_ok, hb, if_true,
    SetWeaponState_Firing]
  refine ⟨_, rfl, ?_, ?_⟩ <;> split <;> simp_all [emit]

/-- C10 at an idle weapon whose fire mode has just turned busy. -/
theorem C10_witness :
    ∃ w', FireModeChangedStatus_Implementation 2 0
        { idleWorld with FireModes := [some coolingFireMode] } = .ok w' ∧
      w'.CurrentFireMode = some 0 ∧ w'.WeaponState = .Firing :=
  C10_busy_status_makes_current_and_Firing 0
    { idleWorld with FireModes := [some coolingFireMode] } 0 coolingFireMode
    (by decide!) (by decide!)

/-! ### Every call of the cycle respects the frame -/

theorem FireModeFrame_refl (a : Option (Option FireMode)) : FireModeFrame a a := by
  rcases a with _ | _ | fm <;> simp [FireModeFrame]

theorem FireModeFrame_trans {a b c : Option (Option FireMode)}
    (h1 : FireModeFrame a b) (h2 : FireModeFrame b c) : FireModeFrame a c := by
  rcases a with _ | _ | fa <;> rcases b with _ | _ | fb <;> rcases c with _ | _ | fc <;>
    simp_all [FireModeFrame]

theorem AmmoGuarded_of_fms {w w' : World}
    (h : ∀ i : Nat, FireModeFrame (w.FireModes[i]?) (w'.FireModes[i]?)) (hg : AmmoGuarded w) :
    AmmoGuarded w' := by
  intro i fm' hfm' hb
  have hi := h i
  rw [hfm'] at hi
  rcases hw : w.FireModes[i]? with _ | _ | fm
  · simp [hw, FireModeFrame] at hi
  · simp [hw, FireModeFrame] at hi
  · simp only [hw, FireModeFrame] at hi
    have := hg i fm hw (by rw [← hi.2.2.2.2.1]; exact hb)
    rw [hi.2.2.2.1]; exact this

theorem Frame.refl (w : World) : Frame w w :=
  ⟨rfl, rfl, ⟨[], by simp⟩, fun _ => FireModeFrame_refl _, fun _ h => h⟩

theorem Frame.trans {w w1 w2 : World} (h1 : Frame w w1) (h2 : Frame w1 w2) : Frame w w2 := by
  refine ⟨h2.now.trans h1.now, h2.client.trans h1.client, ?_, fun i => FireModeFrame_trans (h1.fms i) (h2.fms i), ?_⟩
  · obtain ⟨r1, e1⟩ := h1.log
    obtain ⟨r2, e2⟩ := h2.log
    exact ⟨r1 ++ r2, by rw [e2, e1, List.append_assoc]⟩
  · intro hg h0
    exact h2.ammo (AmmoGuarded_of_fms h1.fms hg) (h1.ammo hg h0)

/-- A change that touches neither clock, net mode, fire modes nor ammo, and only extends the log. -/
theorem Frame.of_eq {w w' : World} (h1 : w'.now = w.now) (h2 : w'.NetModeClient = w.NetModeClient)
    (h3 : ∃ rest, w'.log = w.log ++ rest) (h4 : w'.FireModes = w.FireModes)
    (h5 : w'.AmmoCount = w.AmmoCount) : Frame w w' :=
  ⟨h1, h2, h3, fun i => by rw [h4]; exact FireModeFrame_refl _, fun _ h => by rw [h5]; exact h⟩

theorem Frame.emit (w : World) (e : Effect) : Frame w (emit w e) :=
  Frame.of_eq rfl rfl ⟨_, rfl⟩ rfl rfl

theorem Frame.setFM {w : World} {i : Nat} {fm fm' : FireMode} (hfm : getFM w i = .ok fm)
    (h1 : fm'.FireInterval = fm.FireInterval) (h2 : fm'.bIsHitscan = fm.bIsHitscan)
    (h3 : fm'.ProjectileClass = fm.ProjectileClass) (h4 : fm'.BaseInterface = fm.BaseInterface)
    (h5 : fm'.BasicInterface = fm.BasicInterface) (h6 : fm.bIsBusy = true → fm'.bIsBusy = true) :
    Frame w (setFM w i fm') := by
  have hfm' := (getFM_eq_ok_iff _ _ _).mp hfm
  refine ⟨rfl, rfl, ⟨[], by simp [OpenTournament.setFM]⟩, ?_, fun _ h => h⟩
  intro j
  by_cases hj : i = j
  · subst hj
    have hlt : i < w.FireModes.length := by
      by_contra hc
      rw [List.getElem?_eq_none (not_lt.mp hc)] at hfm'
      cases hfm'
    simp [OpenTournament.setFM, List.getElem?_set, hlt, hfm', FireModeFrame, h1, h2, h3, h4, h5]
    exact h6
  · simp only [OpenTournament.setFM, List.getElem?_set, hj, if_false]
    exact FireModeFrame_refl _

theorem Frame.upd {w w' : World} (h1 : w'.now = w.now) (h2 : w'.NetModeClient = w.NetModeClient)
    (h3 : w'.log = w.log) (h4 : w'.FireModes = w.FireModes)
    (h5 : w'.AmmoCount = w.AmmoCount) : Frame w w' :=
  Frame.of_eq h1 h2 ⟨[], by simp [h3]⟩ h4 h5

theorem Run.ok_inj {α : Type} {a b : α} (h : (Except.ok a : Run α) = Except.ok b) : a = b :=
  Except.ok.inj h

theorem StopFire_frame (w w' : World) (i : Nat) (h : StopFire w i = .ok w') : Frame w w' := by
  unfold StopFire at h
  cases hx : getFM w i with
  | error e => simp [hx, Run.bind_error] at h
  | ok fm =>
    simp only [hx, Run.bind_ok, Run.pure_eq] at h
    cases Run.ok_inj h
    exact Frame.emit _ _

theorem StopAllFire_frame (w w' : World) (h : StopAllFire w = .ok w') : Frame w w' := by
  unfold StopAllFire at h
  have h0 : Frame w { w with DesiredFireModes := [] } := Frame.upd rfl rfl rfl rfl rfl
  dsimp only at h
  split at h
  · exact h0.trans (StopFire_frame _ _ _ h)
  · cases Run.ok_inj h
    exact h0

theorem SetWeaponState_frame_step (n : Nat) (ih : CycleFrame n) (s : EWeaponState)
    (w w' : World) (h : SetWeaponState (n + 1) s w = .ok w') : Frame w w' := by
  simp only [SetWeaponState] at h
  generalize hw1 : (if s ≠ w.WeaponState then
      emit { w with WeaponState := s } (.OnWeaponStateChanged s) else w) = w1 at h
  have hf1 : Frame w w1 := by
    rw [← hw1]
    split
    · exact Frame.of_eq rfl rfl ⟨_, rfl⟩ rfl rfl
    · exact Frame.refl _
  split at h
  · split at h
    · split at h
      · exact hf1.trans (ih.2.2.2.2.1 _ _ _ h)
      · cases Run.ok_inj h; exact hf1
    · cases Run.ok_inj h; exact hf1
  · split at h
    · refine hf1.trans (Frame.trans ?_ (ih.2.2.2.2.2.1 _ _ h))
      exact Frame.upd rfl rfl rfl rfl rfl
    · split at h
      · exact hf1.trans (ih.2.2.2.1 _ _ _ h)
      · cases Run.ok_inj h; exact hf1
  · exact hf1.trans (StopAllFire_frame _ _ h)
  · exact hf1.trans (StopAllFire_frame _ _ h)
  · cases Run.ok_inj h; exact hf1

theorem PutDownCallback_frame_step (n : Nat) (ih : CycleFrame n)
    (w w' : World) (h : PutDownCallback (n + 1) w = .ok w') : Frame w w' := by
  simp only [PutDownCallback] at h
  split at h
  · exact ih.1 _ _ _ h
  · cases Run.ok_inj h; exact Frame.refl _

theorem PutDown_frame_step (n : Nat) (ih : CycleFrame n) (p : ℚ)
    (w w' : World) (h : PutDown (n + 1) p w = .ok w') : Frame w w' := by
  simp only [PutDown] at h
  cases hx : SetWeaponState n .PutDown { w with SwapAnimTimerHandle := none } with
  | error e => simp [hx, Run.bind_error] at h
  | ok w1 =>
    simp only [hx, Run.bind_ok] at h
    have hf1 : Frame w w1 := by
      refine Frame.trans ?_ (ih.1 _ _ _ hx)
      exact Frame.upd rfl rfl rfl rfl rfl
    split at h
    · cases Run.ok_inj h
      exact hf1.trans (Frame.upd rfl rfl rfl rfl rfl)
    · exact hf1.trans (ih.2.2.1 _ _ h)

theorem TryStartFire_frame_step (n : Nat) (ih : CycleFrame n) (fm : Nat)
    (w w' : World) (h : TryStartFire (n + 1) fm w = .ok w') : Frame w w' := by
  simp only [TryStartFire] at h
  split at h
  · split at h
    · exact ih.2.2.2.2.2.2.2.2.1 _ _ _ h
    · cases Run.ok_inj h
      exact (Frame.emit w .OutOfAmmoSound).trans (Frame.upd rfl rfl rfl rfl rfl)
  · cases Run.ok_inj h; exact Frame.refl _

theorem RequestStartFire_frame_step (n : Nat) (ih : CycleFrame n) (i : Nat)
    (w w' : World) (h : RequestStartFire (n + 1) i w = .ok w') : Frame w w' := by
  simp only [RequestStartFire] at h
  split at h
  · refine Frame.trans ?_ (ih.2.2.2.1 _ _ _ h)
    exact Frame.upd rfl rfl rfl rfl rfl
  · cases Run.ok_inj h; exact Frame.refl _

theorem RequestPutDown_frame_step (n : Nat) (ih : CycleFrame n)
    (w w' : World) (h : RequestPutDown (n + 1) w = .ok w') : Frame w w' := by
  simp only [RequestPutDown] at h
  split at h
  · exact ih.2.1 _ _ _ h
  · exact ih.2.1 _ _ _ h
  · split at h
    · cases h
    · next c hc =>
      cases hx : getFM w c with
      | error e => simp [hx, Run.bind_error] at h
      | ok cur =>
        simp only [hx, Run.bind_ok] at h
        split at h
        · cases Run.ok_inj h; exact Frame.upd rfl rfl rfl rfl rfl
        · exact ih.2.1 _ _ _ h
  · cases Run.ok_inj h; exact Frame.upd rfl rfl rfl rfl rfl
  · cases Run.ok_inj h; exact Frame.refl _

theorem FireModeChangedStatus_frame_step (n : Nat) (ih : CycleFrame n) (i : Nat)
    (w w' : World) (h : FireModeChangedStatus_Implementation (n + 1) i w = .ok w') :
    Frame w w' := by
  simp only [FireModeChangedStatus_Implementation] at h
  cases hx : getFM w i with
  | error e => simp [hx, Run.bind_error] at h
  | ok fm =>
    simp only [hx, Run.bind_ok] at h
    split at h
    · refine Frame.trans ?_ (ih.1 _ _ _ h)
      exact Frame.upd rfl rfl rfl rfl rfl
    · split at h
      · split at h
        · refine Frame.trans ?_ (ih.1 _ _ _ h)
          exact Frame.upd rfl rfl rfl rfl rfl
        · cases Run.ok_inj h; exact Frame.upd rfl rfl rfl rfl rfl
      · cases Run.ok_inj h; exact Frame.refl _

theorem afterSetBusyTrue_frame (w : World) (i : Nat) (fm : FireMode)
    (hfm : getFM w i = .ok fm) : Frame w (afterSetBusyTrue w i fm) := by
  unfold afterSetBusyTrue
  have h1 : Frame w (setFM w i { fm with bIsBusy := true }) :=
    Frame.setFM hfm rfl rfl rfl rfl rfl (fun _ => rfl)
  split
  · exact Frame.refl _
  · split
    · split
      · exact h1.trans (Frame.upd rfl rfl rfl rfl rfl)
      · exact h1.trans (Frame.of_eq rfl rfl ⟨_, rfl⟩ rfl rfl)
    · exact h1

theorem afterSetBusyTrue_ammo (w : World) (i : Nat) (fm : FireMode) :
    (afterSetBusyTrue w i fm).AmmoCount = w.AmmoCount := by
  unfold afterSetBusyTrue; split <;> [rfl; (split <;> [(split <;> rfl); rfl])]

theorem SetBusy_true_frame (n : Nat) (i : Nat) (w w' : World)
    (h : SetBusy n true i w = .ok w') : Frame w w' := by
  cases hx : getFM w i with
  | error e =>
    match n with
    | 0 => simp [SetBusy] at h
    | n + 1 => simp [SetBusy, hx, Run.bind_error] at h
  | ok fm =>
    rw [SetBusy_true_ok n w w' i fm hx h]
    exact afterSetBusyTrue_frame w i fm hx

theorem LocalConfirmFired_frame (w w' : World) (i : Nat)
    (h : LocalConfirmFired w i = .ok w') : Frame w w' := by
  unfold LocalConfirmFired at h
  cases hx : getFM w i with
  | error e => simp [hx, Run.bind_error] at h
  | ok fm =>
    simp only [hx, Run.bind_ok] at h
    split at h
    · split at h
      · cases Run.ok_inj h
        exact Frame.setFM hx rfl rfl rfl rfl rfl (fun hb => hb)
      · cases Run.ok_inj h; exact Frame.refl _
    · cases Run.ok_inj h; exact Frame.refl _

theorem MulticastFired_Implementation_frame (w w' : World) (i : Nat)
    (h : MulticastFired_Implementation w i = .ok w') : Frame w w' := by
  unfold MulticastFired_Implementation at h
  cases hx : getFM w i with
  | error e => simp [hx, Run.bind_error] at h
  | ok fm =>
    simp only [hx, Run.bind_ok] at h
    split at h
    · split at h
      · exact LocalConfirmFired_frame _ _ _ h
      · split at h
        · cases Run.ok_inj h; exact Frame.emit _ _
        · cases Run.ok_inj h; exact Frame.refl _
    · cases Run.ok_inj h; exact Frame.refl _

theorem MulticastFiredHitscan_Implementation_frame (w w' : World) (i : Nat)
    (hi : FHitscanVisualInfo)
    (h : MulticastFiredHitscan_Implementation w i hi = .ok w') : Frame w w' := by
  unfold MulticastFiredHitscan_Implementation at h
  cases hx : getFM w i with
  | error e => simp [hx, Run.bind_error] at h
  | ok fm =>
    simp only [hx, Run.bind_ok] at h
    split at h
    · split at h
      · exact LocalConfirmFired_frame _ _ _ h
      · split at h
        · cases Run.ok_inj h; exact (Frame.emit _ _).trans (Frame.emit _ _)
        · cases Run.ok_inj h; exact Frame.refl _
    · cases Run.ok_inj h; exact Frame.refl _

theorem MulticastFired_frame (w w' : World) (i : Nat)
    (h : MulticastFired w i = .ok w') : Frame w w' :=
  (Frame.emit _ _).trans (MulticastFired_Implementation_frame _ _ _ h)

theorem MulticastFiredHitscan_frame (w w' : World) (i : Nat) (hi : FHitscanVisualInfo)
    (h : MulticastFiredHitscan w i hi = .ok w') : Frame w w' :=
  (Frame.emit _ _).trans (MulticastFiredHitscan_Implementation_frame _ _ _ _ h)

/-- An accepted request of a fire mode that asks its owner finds a round in the weapon. -/
theorem ServerFireDelay_ammo (w : World) (i : Nat) (fm : FireMode) (d : ℚ)
    (hd : ServerFireDelay w i fm = .ok d) (hle : d ≤ 0) (hb : fm.BaseInterface = true) :
    1 ≤ w.AmmoCount := by
  simp only [ServerFireDelay, hb, if_true, TimeUntilReadyToFire_Implementation] at hd
  generalize hD : (match w.WeaponState with
    | .BringUp => pure (GetTimerRemaining w.now w.SwapAnimTimerHandle)
    | .Idle => pure 0
    | .Firing =>
      match w.CurrentFireMode with
      | some c => do
        let cur ← getFM w c
        pure (GetTimeUntilIdle_Implementation w cur)
      | none => .error .NullDeref
    | _ => pure 1 : Run ℚ) = D at hd
  cases D with
  | error e => simp [Run.bind_error] at hd
  | ok D0 =>
    simp only [Run.bind_ok] at hd
    split at hd
    · cases Run.ok_inj hd
      norm_num at hle
    · next hc =>
      cases Run.ok_inj hd
      by_contra hlt
      apply hc
      refine ⟨hle, ?_⟩
      simp [HasEnoughAmmoFor]
      omega

/-- The shot of an accepted request leaves the ammo count non-negative. -/
theorem Frame.consume {w0 w1 : World} (i : Nat) (hf : Frame w0 w1)
    (ha : w1.AmmoCount = w0.AmmoCount) (h1 : AmmoGuarded w0 → 1 ≤ w0.AmmoCount) :
    Frame w0 (ConsumeAmmo w1 i) :=
  ⟨hf.now, hf.client, hf.log, hf.fms, fun hg _ => by
    have := h1 hg
    simp only [ConsumeAmmo, ha]
    omega⟩

theorem ServerFire_Implementation_frame (n : Nat) (i : Nat) (info : FSimulatedShotInfo)
    (w w' : World) (h : ServerFire_Implementation n i info w = .ok w') : Frame w w' := by
  match n with
  | 0 => simp [ServerFire_Implementation] at h
  | n + 1 =>
    simp only [ServerFire_Implementation] at h
    cases hx : getFM w i with
    | error e => simp [hx, Run.bind_error] at h
    | ok fm =>
      simp only [hx, Run.bind_ok] at h
      cases hd : ServerFireDelay w i fm with
      | error e => simp [hd, Run.bind_error] at h
      | ok d =>
        simp only [hd, Run.bind_ok] at h
        by_cases hpos : d > 0
        · simp only [if_pos hpos] at h
          split at h
          · cases Run.ok_inj h; exact Frame.refl _
          · cases Run.ok_inj h
            exact Frame.setFM hx rfl rfl rfl rfl rfl (fun hb => hb)
        · simp only [if_neg hpos] at h
          cases hb : SetBusy n true i w with
          | error e => simp [hb, Run.bind_error] at h
          | ok w1 =>
            simp only [hb, Run.bind_ok] at h
            have hw1 := SetBusy_true_ok n w w1 i fm hx hb
            have hf1 : Frame w w1 := by rw [hw1]; exact afterSetBusyTrue_frame w i fm hx
            have ha1 : w1.AmmoCount = w.AmmoCount := by rw [hw1]; exact afterSetBusyTrue_ammo w i fm
            have hammo : fm.BasicInterface = true → AmmoGuarded w → 1 ≤ w.AmmoCount := fun hbi hg =>
              ServerFireDelay_ammo w i fm d hd (not_lt.mp hpos)
                (hg i fm ((getFM_eq_ok_iff _ _ _).mp hx) hbi)
            generalize hS : (if fm.bIsHitscan = true then do
                let (w, HitscanInfo) ← (if fm.BasicInterface = true then
                    AuthorityHitscanShot_Implementation (emit w1 (.AuthorityHitscanShot i info))
                      i info
                  else pure (w1, default) : Run (World × FHitscanVisualInfo))
                MulticastFiredHitscan w i HitscanInfo
              else do
                let w ← (if fm.BasicInterface = true then
                    AuthorityShot_Implementation (emit w1 (.AuthorityShot i info)) i info
                  else pure w1 : Run World)
                MulticastFired w i : Run World) = S at h
            have hf2 : ∀ w2, S = .ok w2 → Frame w w2 := by
              intro w2 hS2
              rw [← hS] at hS2
              split at hS2
              · by_cases hbi : fm.BasicInterface = true
                · rcases AuthorityHitscanShot_cases (emit w1 (.AuthorityHitscanShot i info)) i info
                    with hc | hc
                  · simp only [hbi, if_true, hc, Run.bind_ok] at hS2
                    refine Frame.trans ?_ (MulticastFiredHitscan_frame _ _ _ _ hS2)
                    exact Frame.consume i (hf1.trans (Frame.emit _ _)) ha1 (hammo hbi)
                  · simp [hbi, hc, Run.bind_error] at hS2
                · simp only [hbi, Bool.false_eq_true, if_false, Run.pure_eq, Run.bind_ok] at hS2
                  exact hf1.trans (MulticastFiredHitscan_frame _ _ _ _ hS2)
              · by_cases hbi : fm.BasicInterface = true
                · cases hg : getFM (emit w1 (.AuthorityShot i info)) i with
                  | error e =>
                    simp [hbi, AuthorityShot_Implementation, hg, Run.bind_error] at hS2
                  | ok fm1 =>
                    rcases AuthorityShot_cases _ i info fm1 hg with hc | hc
                    · simp only [hbi, if_true, hc, Run.bind_ok] at hS2
                      split at hS2
                      · refine Frame.trans ?_ (MulticastFired_frame _ _ _ hS2)
                        exact Frame.consume i (hf1.trans (Frame.emit _ _)) ha1 (hammo hbi)
                      · exact (hf1.trans (Frame.emit _ _)).trans (MulticastFired_frame _ _ _ hS2)
                    · simp [hbi, hc, Run.bind_error] at hS2
                · simp only [hbi, Run.pure_eq, Run.bind_ok] at hS2
                  exact hf1.trans (MulticastFired_frame _ _ _ hS2)
            cases S with
            | error e => simp [Run.bind_error] at h
            | ok w2 =>
              simp only [Run.bind_ok] at h
              cases hg2 : getFM w2 i with
              | error e => simp [hg2, Run.bind_error] at h
              | ok fm2 =>
                simp only [hg2, Run.bind_ok, Run.pure_eq] at h
                cases Run.ok_inj h
                exact (hf2 w2 rfl).trans (Frame.setFM hg2 rfl rfl rfl rfl rfl (fun hb => hb))

theorem ServerFire_frame (n : Nat) (i : Nat) (info : FSimulatedShotInfo)
    (w w' : World) (h : ServerFire n i info w = .ok w') : Frame w w' := by
  match n with
  | 0 => simp [ServerFire] at h
  | n + 1 =>
    simp only [ServerFire] at h
    split at h
    · cases Run.ok_inj h; exact Frame.emit _ _
    · exact ServerFire_Implementation_frame n i info w w' h

theorem Frame.withNextTick {w w1 : World} (l : List Callback) (h : Frame w w1) :
    Frame w { w1 with NextTick := l } :=
  h.trans (Frame.upd rfl rfl rfl rfl rfl)

theorem StartFire_simulate_frame (w : World) (i : Nat) (fm : FireMode) :
    Frame w (StartFire_simulate w i fm).1 := by
  unfold StartFire_simulate
  split
  · split
    · exact ((Frame.emit _ _).trans (Frame.emit _ _)).trans (Frame.emit _ _)
    · exact (Frame.emit _ _).trans (Frame.emit _ _)
  · exact Frame.refl _

theorem StartFire_simulate_getFM (w : World) (i : Nat) (fm : FireMode) :
    getFM (StartFire_simulate w i fm).1 i = getFM w i := by
  unfold StartFire_simulate
  split
  · split <;> rfl
  · rfl

theorem StartFire_localCooldown_frame (w : World) (i : Nat) (fm : FireMode)
    (hfm : getFM w i = .ok fm) : Frame w (StartFire_localCooldown w i fm) := by
  unfold StartFire_localCooldown
  split
  · dsimp only
    split
    · exact Frame.setFM hfm rfl rfl rfl rfl rfl (fun hb => hb)
    · exact Frame.withNextTick _ (Frame.setFM hfm rfl rfl rfl rfl rfl (fun hb => hb))
  · exact Frame.refl _

theorem StartFire_Implementation_frame (n : Nat) (i : Nat)
    (w w' : World) (h : StartFire_Implementation n i w = .ok w') : Frame w w' := by
  match n with
  | 0 => simp [StartFire_Implementation] at h
  | n + 1 =>
    simp only [StartFire_Implementation] at h
    cases hb : SetBusy n true i w with
    | error e => simp [hb, Run.bind_error] at h
    | ok w1 =>
      simp only [hb, Run.bind_ok] at h
      have hf1 := SetBusy_true_frame n i w w1 hb
      cases hx : getFM w1 i with
      | error e => simp [hx, Run.bind_error] at h
      | ok fm =>
        simp only [hx, Run.bind_ok] at h
        have hf2 := StartFire_simulate_frame w1 i fm
        have hg2 : getFM (StartFire_simulate w1 i fm).1 i = .ok fm := by
          rw [StartFire_simulate_getFM]; exact hx
        have hf3 := StartFire_localCooldown_frame _ i fm hg2
        exact (hf1.trans (hf2.trans hf3)).trans (ServerFire_frame _ _ _ _ _ h)

theorem cycleFrame (n : Nat) : CycleFrame n := by
  induction n with
  | zero =>
    refine ⟨?_, ?_, ?_, ?_, ?_, ?_, ?_, ?_, ?_, ?_, ?_⟩ <;> intros <;>
      simp_all [SetWeaponState, PutDown, PutDownCallback, TryStartFire, RequestStartFire,
        RequestPutDown, FireModeChangedStatus_Implementation, SetBusy, StartFire_Implementation,
        ServerFire, ServerFire_Implementation]
  | succ n ih =>
    exact ⟨SetWeaponState_frame_step n ih, PutDown_frame_step n ih,
      PutDownCallback_frame_step n ih, TryStartFire_frame_step n ih,
      RequestStartFire_frame_step n ih, RequestPutDown_frame_step n ih,
      FireModeChangedStatus_frame_step n ih, SetBusy_true_frame (n + 1),
      StartFire_Implementation_frame (n + 1), ServerFire_frame (n + 1),
      ServerFire_Implementation_frame (n + 1)⟩

/-! ### The ammo invariant over events -/

theorem BringUpCallback_frame (n : Nat) (w w' : World)
    (h : BringUpCallback n w = .ok w') : Frame w w' := by
  unfold BringUpCallback at h
  split at h
  · split at h
    · next c hc =>
      cases hx : getFM w c with
      | error e => simp [hx, Run.bind_error] at h
      | ok cur =>
        simp only [hx, Run.bind_ok] at h
        split at h <;> exact (cycleFrame n).1 _ _ _ h
    · exact (cycleFrame n).1 _ _ _ h
  · cases Run.ok_inj h; exact Frame.refl _

theorem BringUp_frame (n : Nat) (p : ℚ) (w w' : World)
    (h : BringUp n p w = .ok w') : Frame w w' := by
  unfold BringUp at h
  cases hx : SetWeaponState n .BringUp { w with SwapAnimTimerHandle := none } with
  | error e => simp [hx, Run.bind_error] at h
  | ok w1 =>
    simp only [hx, Run.bind_ok] at h
    have hf1 : Frame w w1 := by
      refine Frame.trans ?_ ((cycleFrame n).1 _ _ _ hx)
      exact Frame.upd rfl rfl rfl rfl rfl
    split at h
    · cases Run.ok_inj h
      exact hf1.trans (Frame.upd rfl rfl rfl rfl rfl)
    · exact hf1.trans (BringUpCallback_frame _ _ _ h)

theorem RequestBringUp_frame (n : Nat) (w w' : World)
    (h : RequestBringUp n w = .ok w') : Frame w w' := by
  unfold RequestBringUp at h
  dsimp only at h
  split at h
  · refine Frame.trans ?_ (BringUp_frame _ _ _ _ h)
    exact Frame.upd rfl rfl rfl rfl rfl
  · refine Frame.trans ?_ (BringUp_frame _ _ _ _ h)
    exact Frame.upd rfl rfl rfl rfl rfl
  · cases Run.ok_inj h
    exact Frame.upd rfl rfl rfl rfl rfl

theorem RequestStopFire_frame (i : Nat) (w w' : World)
    (h : RequestStopFire i w = .ok w') : Frame w w' := by
  unfold RequestStopFire at h
  split at h
  · dsimp only at h
    split at h
    · refine Frame.trans ?_ (StopFire_frame _ _ _ h)
      exact Frame.upd rfl rfl rfl rfl rfl
    · cases Run.ok_inj h
      exact Frame.upd rfl rfl rfl rfl rfl
  · cases Run.ok_inj h; exact Frame.refl _

theorem RetryStartFire_frame (n : Nat) (fm : Nat) (w w' : World)
    (h : RetryStartFire n fm w = .ok w') : Frame w w' := by
  unfold RetryStartFire at h
  split at h
  · split at h
    · exact (cycleFrame n).2.2.2.1 _ _ _ h
    · cases Run.ok_inj h; exact Frame.refl _
  · cases Run.ok_inj h; exact Frame.refl _

theorem clearHandle_frame (w : World) (h : Handle) : Frame w (clearHandle w h) := by
  cases h with
  | Cooldown i =>
    simp only [clearHandle]
    split
    · next fm hfm =>
      exact Frame.setFM ((getFM_eq_ok_iff _ _ _).mpr hfm) rfl rfl rfl rfl rfl (fun hb => hb)
    · exact Frame.refl _
  | DelayedFire i =>
    simp only [clearHandle]
    split
    · next fm hfm =>
      exact Frame.setFM ((getFM_eq_ok_iff _ _ _).mpr hfm) rfl rfl rfl rfl rfl (fun hb => hb)
    · exact Frame.refl _
  | SwapAnim => exact Frame.upd rfl rfl rfl rfl rfl
  | PutDownDelay => exact Frame.upd rfl rfl rfl rfl rfl
  | RetryStartFire => exact Frame.upd rfl rfl rfl rfl rfl

/-- A timer callback other than a cooldown expiry respects the frame. -/
theorem runCallback_frame (n : Nat) (cb : Callback) (w w' : World)
    (hcb : ∀ j, cb ≠ .CooldownTimer j) (h : runCallback n cb w = .ok w') : Frame w w' := by
  cases cb with
  | CooldownTimer j => exact absurd rfl (hcb j)
  | DelayedServerFire i info => exact ServerFire_Implementation_frame _ _ _ _ _ h
  | BringUpCallback => exact BringUpCallback_frame _ _ _ h
  | PutDownCallback => exact (cycleFrame n).2.2.1 _ _ h
  | RequestPutDown => exact (cycleFrame n).2.2.2.2.2.1 _ _ h
  | RetryStartFire fm => exact RetryStartFire_frame _ _ _ _ h

/-- A cooldown expiry clears the busy flag of its fire mode, if it was set, and
what follows respects the frame. -/
theorem CooldownTimer_cases (n : Nat) (j : Nat) (w w' : World)
    (h : CooldownTimer n j w = .ok w') :
    ∃ fm, getFM w j = .ok fm ∧
      (w' = w ∨ Frame (setFM w j { fm with bIsBusy := false }) w') := by
  unfold CooldownTimer at h
  match n with
  | 0 => simp [SetBusy] at h
  | n + 1 =>
    simp only [SetBusy] at h
    cases hx : getFM w j with
    | error e => simp [hx, Run.bind_error] at h
    | ok fm =>
      simp only [hx, Run.bind_ok] at h
      refine ⟨fm, rfl, ?_⟩
      split at h
      · split at h
        · exact Or.inr ((cycleFrame n).2.2.2.2.2.2.1 _ _ _ h)
        · cases Run.ok_inj h; exact Or.inr (Frame.refl _)
      · cases Run.ok_inj h; exact Or.inl rfl

theorem AmmoInv_of_frame {w w' : World} (hf : Frame w w') (h : AmmoInv w) : AmmoInv w' :=
  ⟨hf.ammo h.2 h.1, AmmoGuarded_of_fms hf.fms h.2⟩

theorem AmmoInv_setFM {w : World} {j : Nat} {fm fm' : FireMode} (hfm : getFM w j = .ok fm)
    (h4 : fm'.BaseInterface = fm.BaseInterface) (h5 : fm'.BasicInterface = fm.BasicInterface)
    (h : AmmoInv w) : AmmoInv (setFM w j fm') := by
  refine ⟨h.1, ?_⟩
  intro i f hf hb
  simp only [setFM, List.getElem?_set] at hf
  split at hf
  · split at hf
    · cases hf
      rw [h4]; rw [h5] at hb
      next hij _ => subst hij; exact h.2 _ fm ((getFM_eq_ok_iff _ _ _).mp hfm) hb
    · cases hf
  · exact h.2 i f hf hb

theorem runCallback_AmmoInv (n : Nat) (cb : Callback) (w w' : World)
    (h : runCallback n cb w = .ok w') (hinv : AmmoInv w) : AmmoInv w' := by
  by_cases hcb : ∀ j, cb ≠ .CooldownTimer j
  · exact AmmoInv_of_frame (runCallback_frame n cb w w' hcb h) hinv
  · push_neg at hcb
    obtain ⟨j, rfl⟩ := hcb
    obtain ⟨fm, hfm, hc⟩ := CooldownTimer_cases n j w w' h
    rcases hc with rfl | hf
    · exact hinv
    · exact AmmoInv_of_frame hf (AmmoInv_setFM hfm rfl rfl hinv)

theorem step_AmmoInv (n : Nat) (e : Event) (w w' : World)
    (h : step n e w = .ok w') (hinv : AmmoInv w) : AmmoInv w' := by
  cases e with
  | RequestStartFire i => exact AmmoInv_of_frame ((cycleFrame n).2.2.2.2.1 _ _ _ h) hinv
  | RequestStopFire i => exact AmmoInv_of_frame (RequestStopFire_frame _ _ _ h) hinv
  | RequestBringUp => exact AmmoInv_of_frame (RequestBringUp_frame _ _ _ h) hinv
  | RequestPutDown => exact AmmoInv_of_frame ((cycleFrame n).2.2.2.2.2.1 _ _ h) hinv
  | StartFire i =>
    simp only [step] at h
    split at h
    · exact AmmoInv_of_frame (StartFire_Implementation_frame _ _ _ _ h) hinv
    · cases Run.ok_inj h; exact hinv
  | ServerFire i info =>
    simp only [step] at h
    split at h
    · exact AmmoInv_of_frame (ServerFire_Implementation_frame _ _ _ _ _ h) hinv
    · cases Run.ok_inj h; exact hinv
  | MulticastFired i =>
    simp only [step] at h
    split at h
    · exact AmmoInv_of_frame (MulticastFired_Implementation_frame _ _ _ h) hinv
    · cases Run.ok_inj h; exact hinv
  | MulticastFiredHitscan i hi =>
    simp only [step] at h
    split at h
    · exact AmmoInv_of_frame (MulticastFiredHitscan_Implementation_frame _ _ _ _ h) hinv
    · cases Run.ok_inj h; exact hinv
  | Advance dt =>
    simp only [step] at h
    split at h <;> cases Run.ok_inj h <;> exact hinv
  | Fire hd =>
    simp only [step] at h
    split at h
    · split at h
      · exact runCallback_AmmoInv _ _ _ _ h (AmmoInv_of_frame (clearHandle_frame w hd) hinv)
      · cases Run.ok_inj h; exact hinv
    · cases Run.ok_inj h; exact hinv
  | Tick =>
    simp only [step] at h
    split at h
    · refine runCallback_AmmoInv _ _ _ _ h ?_
      exact hinv
    · cases Run.ok_inj h; exact hinv

theorem run_AmmoInv (n : Nat) (es : List Event) (w w' : World)
    (h : run n es w = .ok w') (hinv : AmmoInv w) : AmmoInv w' := by
  induction es generalizing w with
  | nil => simp only [run] at h; cases Run.ok_inj h; exact hinv
  | cons e es ih =>
    simp only [run] at h
    cases hx : step n e w with
    | error err => simp [hx, Run.bind_error] at h
    | ok w1 =>
      simp only [hx, Run.bind_ok] at h
      exact ih w1 h (step_AmmoInv n e w w1 hx hinv)

/-! ### The call-depth budget suffices -/

theorem FuelOK.ok {α : Type} (a : α) : FuelOK (Except.ok a : Run α) := by
  intro h; cases h

theorem FuelOK.pure {α : Type} (a : α) : FuelOK (pure a : Run α) := FuelOK.ok a

theorem FuelOK.null {α : Type} : FuelOK (Except.error Fault.NullDeref : Run α) := by
  intro h; cases h

theorem FuelOK.range {α : Type} : FuelOK (Except.error Fault.OutOfRange : Run α) := by
  intro h; cases h

theorem TArrayAt_fuelOK (a : List FVector) (k : Nat) : FuelOK (TArrayAt a k) := by
  unfold TArrayAt; split
  · exact FuelOK.ok _
  · exact FuelOK.range

theorem FuelOK.bind {α β : Type} {x : Run α} {f : α → Run β} (hx : FuelOK x)
    (hf : ∀ a, x = .ok a → FuelOK (f a)) : FuelOK (x >>= f) := by
  cases x with
  | error e =>
    cases e with
    | OutOfFuel => exact absurd rfl hx
    | NullDeref => exact FuelOK.null
    | OutOfRange => exact FuelOK.range
  | ok a => exact hf a rfl

theorem getFM_fuelOK (w : World) (i : Nat) : FuelOK (getFM w i) := by
  unfold getFM; split
  · exact FuelOK.ok _
  · exact FuelOK.null

theorem StopFire_fuelOK (w : World) (i : Nat) : FuelOK (StopFire w i) :=
  FuelOK.bind (getFM_fuelOK _ _) (fun _ _ => FuelOK.pure _)

theorem StopAllFire_fuelOK (w : World) : FuelOK (StopAllFire w) := by
  unfold StopAllFire; dsimp only; split
  · exact StopFire_fuelOK _ _
  · exact FuelOK.pure _

theorem TimeUntilReadyToFire_fuelOK (w : World) (i : Nat) :
    FuelOK (TimeUntilReadyToFire_Implementation w i) := by
  unfold TimeUntilReadyToFire_Implementation
  refine FuelOK.bind ?_ (fun _ _ => ?_)
  · split
    · exact FuelOK.pure _
    · exact FuelOK.pure _
    · split
      · exact FuelOK.bind (getFM_fuelOK _ _) (fun _ _ => FuelOK.pure _)
      · exact FuelOK.null
    · exact FuelOK.pure _
  · split <;> exact FuelOK.pure _

theorem ServerFireDelay_fuelOK (w : World) (i : Nat) (fm : FireMode) :
    FuelOK (ServerFireDelay w i fm) := by
  unfold ServerFireDelay; split
  · exact TimeUntilReadyToFire_fuelOK _ _
  · exact FuelOK.pure _

theorem LocalConfirmFired_fuelOK (w : World) (i : Nat) : FuelOK (LocalConfirmFired w i) := by
  unfold LocalConfirmFired
  refine FuelOK.bind (getFM_fuelOK _ _) (fun _ _ => ?_)
  split
  · dsimp only
    split <;> exact FuelOK.pure _
  · exact FuelOK.pure _

theorem MulticastFired_Implementation_fuelOK (w : World) (i : Nat) :
    FuelOK (MulticastFired_Implementation w i) := by
  unfold MulticastFired_Implementation
  refine FuelOK.bind (getFM_fuelOK _ _) (fun _ _ => ?_)
  split
  · split
    · exact LocalConfirmFired_fuelOK _ _
    · split <;> exact FuelOK.pure _
  · exact FuelOK.pure _

theorem MulticastFiredHitscan_Implementation_fuelOK (w : World) (i : Nat)
    (h : FHitscanVisualInfo) : FuelOK (MulticastFiredHitscan_Implementation w i h) := by
  unfold MulticastFiredHitscan_Implementation
  refine FuelOK.bind (getFM_fuelOK _ _) (fun _ _ => ?_)
  split
  · split
    · exact LocalConfirmFired_fuelOK _ _
    · split <;> exact FuelOK.pure _
  · exact FuelOK.pure _

theorem AuthorityShot_fuelOK (w : World) (i : Nat) (info : FSimulatedShotInfo) :
    FuelOK (AuthorityShot_Implementation w i info) := by
  unfold AuthorityShot_Implementation
  refine FuelOK.bind (getFM_fuelOK _ _) (fun _ _ => ?_)
  split
  · exact FuelOK.bind (TArrayAt_fuelOK _ _) (fun _ _ =>
      FuelOK.bind (TArrayAt_fuelOK _ _) (fun _ _ => FuelOK.pure _))
  · exact FuelOK.pure _

theorem AuthorityHitscanShot_fuelOK (w : World) (i : Nat) (info : FSimulatedShotInfo) :
    FuelOK (AuthorityHitscanShot_Implementation w i info) := by
  unfold AuthorityHitscanShot_Implementation
  exact FuelOK.bind (TArrayAt_fuelOK _ _) (fun _ _ =>
    FuelOK.bind (TArrayAt_fuelOK _ _) (fun _ _ => FuelOK.pure _))

theorem SetBusy_true_fuelOK (n : Nat) (i : Nat) (w : World) :
    FuelOK (SetBusy (n + 3) true i w) := by
  cases hx : getFM w i with
  | error e =>
    simp only [SetBusy, hx, Run.bind_error]
    have := getFM_fuelOK w i
    rw [hx] at this
    cases e with
    | OutOfFuel => exact absurd rfl this
    | NullDeref => exact FuelOK.null
    | OutOfRange => exact FuelOK.range
  | ok fm =>
    rw [SetBusy_true_eq n w i fm hx]
    exact FuelOK.ok _

theorem ServerFire_Implementation_fuelOK (n : Nat) (i : Nat) (info : FSimulatedShotInfo)
    (w : World) : FuelOK (ServerFire_Implementation (n + 4) i info w) := by
  simp only [ServerFire_Implementation]
  refine FuelOK.bind (getFM_fuelOK _ _) (fun fm _ => ?_)
  refine FuelOK.bind (ServerFireDelay_fuelOK _ _ _) (fun d _ => ?_)
  split
  · split <;> exact FuelOK.pure _
  · refine FuelOK.bind (SetBusy_true_fuelOK n i w) (fun w1 _ => ?_)
    refine FuelOK.bind ?_ (fun w2 _ => ?_)
    · split
      · refine FuelOK.bind ?_ (fun p _ => MulticastFiredHitscan_Implementation_fuelOK _ _ _)
        split
        · exact AuthorityHitscanShot_fuelOK _ _ _
        · exact FuelOK.pure _
      · refine FuelOK.bind ?_ (fun w3 _ => MulticastFired_Implementation_fuelOK _ _)
        split
        · exact AuthorityShot_fuelOK _ _ _
        · exact FuelOK.pure _
    · exact FuelOK.bind (getFM_fuelOK _ _) (fun _ _ => FuelOK.pure _)

theorem ServerFire_fuelOK (n : Nat) (i : Nat) (info : FSimulatedShotInfo) (w : World) :
    FuelOK (ServerFire (n + 5) i info w) := by
  simp only [ServerFire]
  split
  · exact FuelOK.pure _
  · exact ServerFire_Implementation_fuelOK n i info w

theorem StartFire_fuelOK (n : Nat) (i : Nat) (w : World) :
    FuelOK (StartFire_Implementation (n + 6) i w) := by
  simp only [StartFire_Implementation]
  refine FuelOK.bind (SetBusy_true_fuelOK (n + 2) i w) (fun w1 _ => ?_)
  refine FuelOK.bind (getFM_fuelOK _ _) (fun fm _ => ?_)
  exact ServerFire_fuelOK n _ _ _

theorem TryStartFire_fuelOK (n : Nat) (i : Nat) (w : World) :
    FuelOK (TryStartFire (n + 7) i w) := by
  simp only [TryStartFire]
  split
  · split
    · exact StartFire_fuelOK n i w
    · exact FuelOK.pure _
  · exact FuelOK.pure _

theorem RequestStartFire_fuelOK (n : Nat) (i : Nat) (w : World) :
    FuelOK (RequestStartFire (n + 8) i w) := by
  simp only [RequestStartFire]
  split
  · exact TryStartFire_fuelOK n i _
  · exact FuelOK.pure _

theorem SetWeaponState_leaf_fuelOK (n : Nat) (s : EWeaponState) (w : World)
    (hs : s ≠ .BringUp ∧ s ≠ .Idle) : FuelOK (SetWeaponState (n + 1) s w) := by
  simp only [SetWeaponState]
  have hst : (if s ≠ w.WeaponState then
      emit { w with WeaponState := s } (.OnWeaponStateChanged s) else w).WeaponState = s := by
    split
    · rfl
    · next h => simp at h; exact h.symm
  generalize (if s ≠ w.WeaponState then
      emit { w with WeaponState := s } (.OnWeaponStateChanged s) else w) = w1 at hst
  split
  · next h => rw [h] at hst; exact absurd hst.symm hs.1
  · next h => rw [h] at hst; exact absurd hst.symm hs.2
  · exact StopAllFire_fuelOK _
  · exact StopAllFire_fuelOK _
  · exact FuelOK.pure _

theorem PutDownCallback_fuelOK (n : Nat) (w : World) : FuelOK (PutDownCallback (n + 2) w) := by
  simp only [PutDownCallback]
  split
  · exact SetWeaponState_leaf_fuelOK n _ _ (by decide)
  · exact FuelOK.pure _

theorem PutDown_fuelOK (n : Nat) (p : ℚ) (w : World) : FuelOK (PutDown (n + 3) p w) := by
  simp only [PutDown]
  refine FuelOK.bind (SetWeaponState_leaf_fuelOK (n + 1) _ _ (by decide)) (fun w1 _ => ?_)
  split
  · exact FuelOK.pure _
  · exact PutDownCallback_fuelOK n w1

theorem RequestPutDown_fuelOK (n : Nat) (w : World) : FuelOK (RequestPutDown (n + 4) w) := by
  simp only [RequestPutDown]
  split
  · exact PutDown_fuelOK n _ _
  · exact PutDown_fuelOK n _ _
  · split
    · exact FuelOK.null
    · refine FuelOK.bind (getFM_fuelOK _ _) (fun cur _ => ?_)
      dsimp only
      split
      · exact FuelOK.pure _
      · exact PutDown_fuelOK n _ _
  · exact FuelOK.pure _
  · exact FuelOK.pure _

theorem SetWeaponState_fuelOK (n : Nat) (s : EWeaponState) (w : World) :
    FuelOK (SetWeaponState (n + 9) s w) := by
  simp only [SetWeaponState]
  generalize (if s ≠ w.WeaponState then
      emit { w with WeaponState := s } (.OnWeaponStateChanged s) else w) = w1
  split
  · split
    · split
      · exact RequestStartFire_fuelOK n _ _
      · exact FuelOK.pure _
    · exact FuelOK.pure _
  · split
    · exact RequestPutDown_fuelOK (n + 4) _
    · split
      · exact TryStartFire_fuelOK (n + 1) _ _
      · exact FuelOK.pure _
  · exact StopAllFire_fuelOK _
  · exact StopAllFire_fuelOK _
  · exact FuelOK.pure _

theorem FireModeChangedStatus_fuelOK (n : Nat) (i : Nat) (w : World) :
    FuelOK (FireModeChangedStatus_Implementation (n + 10) i w) := by
  simp only [FireModeChangedStatus_Implementation]
  refine FuelOK.bind (getFM_fuelOK _ _) (fun fm _ => ?_)
  split
  · exact SetWeaponState_fuelOK n _ _
  · split
    · split
      · exact SetWeaponState_fuelOK n _ _
      · exact FuelOK.pure _
    · exact FuelOK.pure _

theorem SetBusy_fuelOK (n : Nat) (b : Bool) (i : Nat) (w : World) :
    FuelOK (SetBusy (n + 11) b i w) := by
  simp only [SetBusy]
  refine FuelOK.bind (getFM_fuelOK _ _) (fun fm _ => ?_)
  split
  · split
    · exact FireModeChangedStatus_fuelOK n _ _
    · exact FuelOK.pure _
  · exact FuelOK.pure _

theorem BringUpCallback_fuelOK (n : Nat) (w : World) : FuelOK (BringUpCallback (n + 9) w) := by
  unfold BringUpCallback
  split
  · split
    · refine FuelOK.bind (getFM_fuelOK _ _) (fun cur _ => ?_)
      split <;> exact SetWeaponState_fuelOK n _ _
    · exact SetWeaponState_fuelOK n _ _
  · exact FuelOK.pure _

theorem BringUp_fuelOK (n : Nat) (p : ℚ) (w : World) : FuelOK (BringUp (n + 9) p w) := by
  unfold BringUp
  refine FuelOK.bind (SetWeaponState_fuelOK n _ _) (fun w1 _ => ?_)
  dsimp only
  split
  · exact FuelOK.pure _
  · exact BringUpCallback_fuelOK n _

theorem RequestBringUp_fuelOK (n : Nat) (w : World) : FuelOK (RequestBringUp (n + 9) w) := by
  unfold RequestBringUp
  dsimp only
  split
  · exact BringUp_fuelOK n _ _
  · exact BringUp_fuelOK n _ _
  · exact FuelOK.pure _

theorem RequestStopFire_fuelOK (i : Nat) (w : World) : FuelOK (RequestStopFire i w) := by
  unfold RequestStopFire
  split
  · dsimp only
    split
    · exact StopFire_fuelOK _ _
    · exact FuelOK.pure _
  · exact FuelOK.pure _

theorem runCallback_fuelOK (n : Nat) (cb : Callback) (w : World) :
    FuelOK (runCallback (n + 11) cb w) := by
  cases cb with
  | CooldownTimer j => exact SetBusy_fuelOK n false j w
  | DelayedServerFire i info => exact ServerFire_Implementation_fuelOK (n + 7) i info w
  | BringUpCallback => exact BringUpCallback_fuelOK (n + 2) w
  | PutDownCallback => exact PutDownCallback_fuelOK (n + 9) w
  | RequestPutDown => exact RequestPutDown_fuelOK (n + 7) w
  | RetryStartFire fm =>
    simp only [runCallback, RetryStartFire]
    split
    · split
      · exact TryStartFire_fuelOK (n + 4) _ _
      · exact FuelOK.pure _
    · exact FuelOK.pure _

theorem step_fuelOK (n : Nat) (e : Event) (w : World) : FuelOK (step (n + 11) e w) := by
  cases e with
  | RequestStartFire i => exact RequestStartFire_fuelOK (n + 3) i w
  | RequestStopFire i => exact RequestStopFire_fuelOK i w
  | RequestBringUp => exact RequestBringUp_fuelOK (n + 2) w
  | RequestPutDown => exact RequestPutDown_fuelOK (n + 7) w
  | StartFire i =>
    simp only [step]; split
    · exact StartFire_fuelOK (n + 5) i w
    · exact FuelOK.pure _
  | ServerFire i info =>
    simp only [step]; split
    · exact ServerFire_Implementation_fuelOK (n + 7) i info w
    · exact FuelOK.pure _
  | MulticastFired i =>
    simp only [step]; split
    · exact MulticastFired_Implementation_fuelOK _ _
    · exact FuelOK.pure _
  | MulticastFiredHitscan i hi =>
    simp only [step]; split
    · exact MulticastFiredHitscan_Implementation_fuelOK _ _ _
    · exact FuelOK.pure _
  | Advance dt => simp only [step]; split <;> exact FuelOK.pure _
  | Fire hd =>
    simp only [step]; split
    · split
      · exact runCallback_fuelOK n _ _
      · exact FuelOK.pure _
    · exact FuelOK.pure _
  | Tick =>
    simp only [step]; split
    · exact runCallback_fuelOK n _ _
    · exact FuelOK.pure _

theorem run_fuelOK (n : Nat) (es : List Event) (w : World) : FuelOK (run (n + 11) es w) := by
  induction es generalizing w with
  | nil => exact FuelOK.pure _
  | cons e es ih =>
    simp only [run]
    exact FuelOK.bind (step_fuelOK n e w) (fun w1 _ => ih w1)

/-! ### A busy fire mode stays busy until its cooldown expires -/

theorem BusyAt_of_frame {w w' : World} {i : Nat} (hf : Frame w w') (h : BusyAt w i) :
    BusyAt w' i := by
  obtain ⟨fm, hfm, hb⟩ := h
  have hi := hf.fms i
  rw [(getFM_eq_ok_iff _ _ _).mp hfm] at hi
  rcases hw : w'.FireModes[i]? with _ | _ | fm'
  · simp [hw, FireModeFrame] at hi
  · simp [hw, FireModeFrame] at hi
  · simp only [hw, FireModeFrame] at hi
    exact ⟨fm', (getFM_eq_ok_iff _ _ _).mpr hw, hi.2.2.2.2.2 hb⟩

theorem BusyAt_setFM_other {w : World} {i j : Nat} (fm' : FireMode) (hij : j ≠ i)
    (h : BusyAt w i) : BusyAt (setFM w j fm') i := by
  obtain ⟨fm, hfm, hb⟩ := h
  refine ⟨fm, ?_, hb⟩
  rw [getFM_eq_ok_iff] at hfm ⊢
  simpa [setFM, List.getElem?_set, hij] using hfm

theorem runCallback_BusyAt (n : Nat) (cb : Callback) (w w' : World) (i : Nat)
    (h : runCallback n cb w = .ok w') (hcb : cb ≠ .CooldownTimer i) (hbusy : BusyAt w i) :
    BusyAt w' i := by
  by_cases hall : ∀ j, cb ≠ .CooldownTimer j
  · exact BusyAt_of_frame (runCallback_frame n cb w w' hall h) hbusy
  · push_neg at hall
    obtain ⟨j, rfl⟩ := hall
    have hij : j ≠ i := fun e => hcb (by rw [e])
    obtain ⟨fm, hfm, hc⟩ := CooldownTimer_cases n j w w' h
    rcases hc with rfl | hf
    · exact hbusy
    · exact BusyAt_of_frame hf (BusyAt_setFM_other _ hij hbusy)

/-- An event that does not run the cooldown expiry of a busy fire mode leaves
it busy. -/
theorem step_BusyAt (n : Nat) (e : Event) (w w' : World) (i : Nat)
    (h : step n e w = .ok w') (hbusy : BusyAt w i) (hno : ¬ runsCooldown w e i) :
    BusyAt w' i := by
  cases e with
  | RequestStartFire j => exact BusyAt_of_frame ((cycleFrame n).2.2.2.2.1 _ _ _ h) hbusy
  | RequestStopFire j => exact BusyAt_of_frame (RequestStopFire_frame _ _ _ h) hbusy
  | RequestBringUp => exact BusyAt_of_frame (RequestBringUp_frame _ _ _ h) hbusy
  | RequestPutDown => exact BusyAt_of_frame ((cycleFrame n).2.2.2.2.2.1 _ _ h) hbusy
  | StartFire j =>
    simp only [step] at h
    split at h
    · exact BusyAt_of_frame (StartFire_Implementation_frame _ _ _ _ h) hbusy
    · cases Run.ok_inj h; exact hbusy
  | ServerFire j info =>
    simp only [step] at h
    split at h
    · exact BusyAt_of_frame (ServerFire_Implementation_frame _ _ _ _ _ h) hbusy
    · cases Run.ok_inj h; exact hbusy
  | MulticastFired j =>
    simp only [step] at h
    split at h
    · exact BusyAt_of_frame (MulticastFired_Implementation_frame _ _ _ h) hbusy
    · cases Run.ok_inj h; exact hbusy
  | MulticastFiredHitscan j hi =>
    simp only [step] at h
    split at h
    · exact BusyAt_of_frame (MulticastFiredHitscan_Implementation_frame _ _ _ _ h) hbusy
    · cases Run.ok_inj h; exact hbusy
  | Advance dt =>
    simp only [step] at h
    split at h <;> cases Run.ok_inj h <;> exact hbusy
  | Fire hd =>
    simp only [step] at h
    split at h
    · next t ht =>
      split at h
      · refine runCallback_BusyAt _ _ _ _ i h ?_ (BusyAt_of_frame (clearHandle_frame w hd) hbusy)
        intro hc
        exact hno ⟨t, ht, hc⟩
      · cases Run.ok_inj h; exact hbusy
    · cases Run.ok_inj h; exact hbusy
  | Tick =>
    simp only [step] at h
    split at h
    · next cb rest hnt =>
      refine runCallback_BusyAt _ _ _ _ i h ?_ ?_
      · intro hc
        apply hno
        simp [runsCooldown, hnt, hc]
      · exact hbusy
    · cases Run.ok_inj h; exact hbusy

theorem StartFire_BusyAt (n : Nat) (i : Nat) (w w' : World)
    (h : StartFire_Implementation n i w = .ok w') : BusyAt w' i := by
  match n with
  | 0 => simp [StartFire_Implementation] at h
  | n + 1 =>
    simp only [StartFire_Implementation] at h
    cases hb : SetBusy n true i w with
    | error e => simp [hb, Run.bind_error] at h
    | ok w1 =>
      simp only [hb, Run.bind_ok] at h
      cases hx : getFM w i with
      | error e =>
        match n with
        | 0 => simp [SetBusy] at hb
        | n + 1 => simp [SetBusy, hx, Run.bind_error] at hb
      | ok fm0 =>
        have hw1 := SetBusy_true_ok n w w1 i fm0 hx hb
        have hg1 : getFM w1 i = .ok { fm0 with bIsBusy := true } := by
          rw [hw1]; exact getFM_afterSetBusyTrue w i fm0 hx
        simp only [hg1, Run.bind_ok] at h
        have hb1 : BusyAt w1 i := ⟨_, hg1, rfl⟩
        have hf2 := StartFire_simulate_frame w1 i { fm0 with bIsBusy := true }
        have hg2 : getFM (StartFire_simulate w1 i { fm0 with bIsBusy := true }).1 i =
            .ok { fm0 with bIsBusy := true } := by
          rw [StartFire_simulate_getFM]; exact hg1
        have hf3 := StartFire_localCooldown_frame _ i _ hg2
        exact BusyAt_of_frame ((hf2.trans hf3).trans (ServerFire_frame _ _ _ _ _ h)) hb1

/-! ### StartFire returns -/

theorem AmmoGuarded_BindFireModes (w : World) : AmmoGuarded (BindFireModes w) := by
  intro i fm h _
  simp only [BindFireModes, List.getElem?_map] at h
  rcases hw : w.FireModes[i]? with _ | _ | f
  · simp [hw] at h
  · simp [hw] at h
  · simp only [hw, Option.map_some'] at h
    cases h
    rfl

theorem StartFire_simulate_current (w : World) (i : Nat) (fm : FireMode) :
    (StartFire_simulate w i fm).1.CurrentFireMode = w.CurrentFireMode := by
  unfold StartFire_simulate
  split
  · split <;> rfl
  · rfl

/-- The delay of a request is defined unless the owner is `Firing` without a
current fire mode. -/
theorem ServerFireDelay_defined (w : World) (i : Nat) (fm : FireMode)
    (h : fm.BaseInterface = true → w.WeaponState ≠ .Firing ∨
      ∃ c cur, w.CurrentFireMode = some c ∧ getFM w c = .ok cur) :
    ∃ d, ServerFireDelay w i fm = .ok d := by
  unfold ServerFireDelay
  split
  · next hbi =>
    unfold TimeUntilReadyToFire_Implementation
    rcases h hbi with hs | ⟨c, cur, hc, hcur⟩
    · cases hw : w.WeaponState <;> simp [hw] at hs <;>
        simp only [Run.pure_eq, Run.bind_ok] <;> split <;> exact ⟨_, rfl⟩
    · cases hw : w.WeaponState <;>
        simp only [hc, hcur, Run.pure_eq, Run.bind_ok] <;> split <;> exact ⟨_, rfl⟩
  · exact ⟨_, rfl⟩

/-- The authority answers a request for which a delay is defined. -/
theorem ServerFire_Implementation_returns (n : Nat) (w : World) (i : Nat)
    (info : FSimulatedShotInfo) (fm : FireMode) (d : ℚ) (hfm : getFM w i = .ok fm)
    (hd : ServerFireDelay w i fm = .ok d) (hauth : w.NetModeClient = false)
    (hv : ReadsVectors fm = true → 2 ≤ info.Vectors.length) :
    ∃ w', ServerFire_Implementation (n + 4) i info w = .ok w' := by
  by_cases hpos : 0 < d
  · by_cases hgt : d > min (1/5) (fm.FireInterval / 2)
    · exact ⟨_, ServerFire_drop (n + 3) w i info fm d hfm hd hpos hgt⟩
    · exact ⟨_, ServerFire_resched (n + 3) w i info fm d hfm hd hpos (not_lt.mp hgt)⟩
  · exact ⟨_, ServerFire_accept n w i info fm d hfm hd (not_lt.mp hpos) hauth hv⟩

/-- The shot that `StartFire()` simulates holds the two vectors that the
authoritative shot reads. -/
theorem StartFire_simulate_vectors (w : World) (i : Nat) (fm : FireMode)
    (h : ReadsVectors fm = true) : 2 ≤ (StartFire_simulate w i fm).2.Vectors.length := by
  simp only [ReadsVectors, Bool.and_eq_true] at h
  unfold StartFire_simulate
  rw [if_pos h.1]
  dsimp only
  split <;> exact SimulatedShot_length _ _

/-- A call of `StartFire()` on an idle fire mode returns. -/
theorem StartFire_returns (n : Nat) (w : World) (i : Nat) (fm : FireMode)
    (hfm : getFM w i = .ok fm) (hidle : fm.bIsBusy = false) :
    ∃ w', StartFire_Implementation (n + 6) i w = .ok w' := by
  have hb := SetBusy_true_eq (n + 2) w i fm hfm
  have hg1 := getFM_afterSetBusyTrue w i fm hfm
  simp only [StartFire_Implementation, hb, Run.bind_ok, hg1]
  have hg2 : getFM (StartFire_simulate (afterSetBusyTrue w i fm) i { fm with bIsBusy := true }).1 i
      = .ok { fm with bIsBusy := true } := by
    rw [StartFire_simulate_getFM]; exact hg1
  simp only [ServerFire]
  split
  · exact ⟨_, rfl⟩
  · next hcl =>
    have hcl' : (StartFire_simulate (afterSetBusyTrue w i fm) i { fm with bIsBusy := true }).1.NetModeClient
        = false := by
      revert hcl
      unfold StartFire_localCooldown
      split
      · next hc => intro hcl; exfalso; apply hcl; dsimp only; split <;> exact hc
      · next hc => intro _; simpa using hc
    have hlc : StartFire_localCooldown
        (StartFire_simulate (afterSetBusyTrue w i fm) i { fm with bIsBusy := true }).1 i
        { fm with bIsBusy := true } =
        (StartFire_simulate (afterSetBusyTrue w i fm) i { fm with bIsBusy := true }).1 := by
      unfold StartFire_localCooldown
      rw [if_neg (by simp [hcl'])]
    rw [hlc]
    have hdel : ∃ d, ServerFireDelay
        (StartFire_simulate (afterSetBusyTrue w i fm) i { fm with bIsBusy := true }).1 i
        { fm with bIsBusy := true } = .ok d := by
      apply ServerFireDelay_defined
      intro hbi
      refine Or.inr ⟨i, _, ?_, hg2⟩
      rw [StartFire_simulate_current]
      unfold afterSetBusyTrue
      simp only [hidle, Bool.false_eq_true, if_false]
      have hbi' : fm.BaseInterface = true := hbi
      simp only [hbi', if_true]
      split <;> rfl
    obtain ⟨d, hd⟩ := hdel
    exact ServerFire_Implementation_returns n _ i _ _ d hg2 hd hcl'
      (fun hr => StartFire_simulate_vectors _ i _ hr)

/-! ### The cooldown expiry ends the busy state -/

theorem StopAllFire_quiet (w : World) (hcur : w.CurrentFireMode = none) :
    StopAllFire w = .ok { w with DesiredFireModes := [] } := by
  simp [StopAllFire, hcur, Run.pure_eq]

/-- Entering `PutDown` or `Inactive` without a current fire mode touches no fire mode. -/
theorem SetWeaponState_down_quiet (n : Nat) (s : EWeaponState) (w : World)
    (hs : s = .PutDown ∨ s = .Inactive) (hcur : w.CurrentFireMode = none) :
    ∃ w', SetWeaponState (n + 1) s w = .ok w' ∧ w'.FireModes = w.FireModes ∧
      w'.CurrentFireMode = none ∧ w'.WeaponState = s := by
  by_cases h : s = w.WeaponState
  · rcases hs with rfl | rfl <;>
      simp [SetWeaponState, ← h, StopAllFire, hcur, Run.pure_eq]
  · rcases hs with rfl | rfl <;>
      simp [SetWeaponState, h, StopAllFire, hcur, Run.pure_eq, emit]

theorem PutDownCallback_quiet (n : Nat) (w : World) (hcur : w.CurrentFireMode = none) :
    ∃ w', PutDownCallback (n + 2) w = .ok w' ∧ w'.FireModes = w.FireModes := by
  simp only [PutDownCallback]
  split
  · obtain ⟨w', h, hf, _⟩ := SetWeaponState_down_quiet n .Inactive w (Or.inr rfl) hcur
    exact ⟨w', h, hf⟩
  · exact ⟨w, rfl, rfl⟩

theorem PutDown_quiet (n : Nat) (p : ℚ) (w : World) (hcur : w.CurrentFireMode = none) :
    ∃ w', PutDown (n + 3) p w = .ok w' ∧ w'.FireModes = w.FireModes := by
  obtain ⟨w1, h1, hf1, hc1, _⟩ := SetWeaponState_down_quiet (n + 1) .PutDown
    { w with SwapAnimTimerHandle := none } (Or.inl rfl) hcur
  simp only [PutDown, h1, Run.bind_ok]
  split
  · exact ⟨_, rfl, hf1⟩
  · obtain ⟨w2, h2, hf2⟩ := PutDownCallback_quiet n w1 hc1
    exact ⟨w2, h2, hf2.trans hf1⟩

/-- Entering `Idle` with nothing desired and no current fire mode touches no fire mode. -/
theorem SetWeaponState_Idle_quiet (n : Nat) (w : World) (hdes : w.DesiredFireModes = [])
    (hcur : w.CurrentFireMode = none) :
    ∃ w', SetWeaponState (n + 5) .Idle w = .ok w' ∧ w'.FireModes = w.FireModes := by
  simp only [SetWeaponState]
  have hst : (if EWeaponState.Idle ≠ w.WeaponState then
      emit { w with WeaponState := .Idle } (.OnWeaponStateChanged .Idle) else w).WeaponState
      = .Idle := by
    split
    · rfl
    · next h => simp at h; exact h.symm
  have hfm : (if EWeaponState.Idle ≠ w.WeaponState then
      emit { w with WeaponState := .Idle } (.OnWeaponStateChanged .Idle) else w).FireModes
      = w.FireModes := by split <;> rfl
  have hd : (if EWeaponState.Idle ≠ w.WeaponState then
      emit { w with WeaponState := .Idle } (.OnWeaponStateChanged .Idle) else w).DesiredFireModes
      = [] := by split <;> [exact hdes; exact hdes]
  have hc : (if EWeaponState.Idle ≠ w.WeaponState then
      emit { w with WeaponState := .Idle } (.OnWeaponStateChanged .Idle) else w).CurrentFireMode
      = none := by split <;> [exact hcur; exact hcur]
  generalize (if EWeaponState.Idle ≠ w.WeaponState then
      emit { w with WeaponState := .Idle } (.OnWeaponStateChanged .Idle) else w) = w1
    at hst hfm hd hc
  simp only [hst]
  split
  · simp only [RequestPutDown, hst]
    obtain ⟨w2, h2, hf2⟩ := PutDown_quiet n 1
      { w1 with WeaponState := .Idle, PutDownDelayTimerHandle := none } hc
    exact ⟨w2, h2, hf2.trans hfm⟩
  · simp only [hd]
    exact ⟨w1, rfl, hfm⟩

/-- The cooldown expiry of a busy fire mode leaves it idle when no fire mode is desired. -/
theorem CooldownTimer_clears (n : Nat) (w : World) (i : Nat) (fm : FireMode)
    (hfm : getFM w i = .ok fm) (hb : fm.bIsBusy = true) (hdes : w.DesiredFireModes = []) :
    ∃ w', CooldownTimer (n + 7) i w = .ok w' ∧
      getFM w' i = .ok { fm with bIsBusy := false } := by
  have hg1 := getFM_setFM_same w i fm { fm with bIsBusy := false } hfm
  have hne : false ≠ fm.bIsBusy := by rw [hb]; decide
  simp only [CooldownTimer, SetBusy, hfm, Run.bind_ok, if_pos hne]
  split
  · simp only [FireModeChangedStatus_Implementation, hg1, Run.bind_ok, IsBusy,
      Bool.false_eq_true, if_false]
    split
    · split
      · obtain ⟨w2, h2, hf2⟩ := SetWeaponState_Idle_quiet n
          { setFM w i { fm with bIsBusy := false } with CurrentFireMode := none } hdes rfl
        refine ⟨w2, h2, ?_⟩
        rw [getFM_eq_ok_iff] at hg1 ⊢
        rw [hf2]; exact hg1
      · exact ⟨_, rfl, hg1⟩
    · exact ⟨_, rfl, hg1⟩
  · exact ⟨_, rfl, hg1⟩

/-! ### C4, C5 -/

/-- C4: starting from a weapon with `AmmoCount ≥ 0` whose fire modes were bound
by `PostInitializeComponents`, no sequence of events (the four requests of the
owner, `StartFire` calls, `ServerFire` requests, broadcasts, the passing of time,
timer and next-tick callbacks) reaches a world with a negative `AmmoCount`; a
call-depth budget of 11 or more is never used up. -/
theorem C4_ammo_never_negative (n : Nat) (es : List Event) (w0 : World)
    (h0 : 0 ≤ w0.AmmoCount) :
    FuelOK (run (n + 11) es (BindFireModes w0)) ∧
      ∀ m w', run m es (BindFireModes w0) = .ok w' → 0 ≤ w'.AmmoCount :=
  ⟨run_fuelOK n es _, fun m w' h =>
    (run_AmmoInv m es _ w' h ⟨h0, AmmoGuarded_BindFireModes w0⟩).1⟩

/-- C4 at a weapon with one round: the first request consumes it, the second,
a cooldown later, is refused, and the count ends at zero. -/
theorem C4_witness :
    (run callDepth twoRequests lastRoundWorld).toOption.map (fun w => w.AmmoCount) = some 0 ∧
      FuelOK (run (5 + 11) twoRequests lastRoundWorld) ∧
      ∀ m w', run m twoRequests lastRoundWorld = .ok w' → 0 ≤ w'.AmmoCount :=
  ⟨by decide!, C4_ammo_never_negative 5 twoRequests { idleWorld with AmmoCount := 1 }
    (by decide)⟩

/-- C5: (1) `StartFire()` on an idle fire mode returns, and whenever
`StartFire()` returns the fire mode is busy; (2) an event that does not run the
`CooldownTimer` of a busy fire mode leaves it busy; (3) the `CooldownTimer` of a
busy fire mode clears the flag, and the fire mode is idle when the expiry
returns if no fire mode is desired (the owner restarts nothing). -/
theorem C5_busy_from_StartFire_until_cooldown_expiry (n : Nat) (w : World) (i : Nat)
    (fm : FireMode) (hfm : getFM w i = .ok fm) :
    (fm.bIsBusy = false → ∃ w', StartFire_Implementation (n + 6) i w = .ok w') ∧
      (∀ m w', StartFire_Implementation m i w = .ok w' → BusyAt w' i) ∧
      (∀ m e w', step m e w = .ok w' → BusyAt w i → ¬ runsCooldown w e i → BusyAt w' i) ∧
      (fm.bIsBusy = true → w.DesiredFireModes = [] →
        ∃ w', CooldownTimer (n + 7) i w = .ok w' ∧
          getFM w' i = .ok { fm with bIsBusy := false }) :=
  ⟨StartFire_returns n w i fm hfm,
    fun m w' h => StartFire_BusyAt m i w w' h,
    fun m e w' h hb hno => step_BusyAt m e w w' i h hb hno,
    CooldownTimer_clears n w i fm hfm⟩

/-- C5 at the idle example weapon: `StartFire()` returns with the fire mode busy. -/
theorem C5_witness :
    ∃ w', StartFire_Implementation 6 0 idleWorld = .ok w' ∧ BusyAt w' 0 := by
  have h := C5_busy_from_StartFire_until_cooldown_expiry 0 idleWorld 0 exFireMode (by decide!)
  obtain ⟨w', hw'⟩ := h.1 rfl
  exact ⟨w', hw', h.2.1 6 w' hw'⟩

/-- A call of `StartFire()` on a busy fire mode of a client, in closed form. -/
theorem StartFire_busy_client (n : Nat) (w : World) (i : Nat) (fm : FireMode)
    (hfm : getFM w i = .ok fm) (hb : fm.bIsBusy = true) (hcl : w.NetModeClient = true) :
    StartFire_Implementation (n + 2) i w =
      .ok (emit (StartFire_localCooldown (StartFire_simulate w i fm).1 i fm)
        (.ServerFireRequest i (StartFire_simulate w i fm).2)) := by
  have hsb : SetBusy (n + 1) true i w = .ok w := by
    simp [SetBusy, hfm, Run.bind_ok, hb, Run.pure_eq]
  have hc1 : (StartFire_simulate w i fm).1.NetModeClient = true := by
    unfold StartFire_simulate; split <;> [(split <;> exact hcl); exact hcl]
  have hc2 : (StartFire_localCooldown (StartFire_simulate w i fm).1 i fm).NetModeClient
      = true := by
    unfold StartFire_localCooldown
    rw [if_pos hc1]
    dsimp only
    split <;> exact hc1
  simp only [StartFire_Implementation, hsb, Run.bind_ok, hfm, ServerFire, hc2, if_true,
    Run.pure_eq]

/-! ### C6 -/

/-- C6, as amended: on a client, `StartFire()` on a busy fire mode leaves the
busy flag set and the weapon alone (state, current fire mode, ammo), but it is
not a no-op: `LocalFireTime` becomes the current time, the cooldown timer is
re-armed for `FireInterval` (when positive), the bound callbacks replay the
fire effect and simulate the shot, and a fire request is sent to the
authority. -/
theorem C6_StartFire_while_busy (n : Nat) (w : World) (i : Nat) (fm : FireMode)
    (hfm : getFM w i = .ok fm) (hb : fm.bIsBusy = true) (hcl : w.NetModeClient = true) :
    ∃ w' fm', StartFire_Implementation (n + 2) i w = .ok w' ∧
      getFM w' i = .ok fm' ∧ fm'.bIsBusy = true ∧
      w'.WeaponState = w.WeaponState ∧ w'.CurrentFireMode = w.CurrentFireMode ∧
      w'.AmmoCount = w.AmmoCount ∧ fm'.LocalFireTime = w.now ∧
      (0 < fm.FireInterval → fm'.CooldownTimerHandle =
        some ⟨fm.FireInterval, w.now + fm.FireInterval, .CooldownTimer i⟩) ∧
      ∃ pre info, w'.log = w.log ++ pre ++ [(w.now, Effect.ServerFireRequest i info)] ∧
        (fm.BasicInterface = true → (w.now, Effect.PlayFireEffects i) ∈ pre) := by
  have hlt : i < w.FireModes.length := by
    have h := (getFM_eq_ok_iff _ _ _).mp hfm
    by_contra hc
    rw [List.getElem?_eq_none (not_lt.mp hc)] at h
    cases h
  have hcf := StartFire_busy_client n w i fm hfm hb hcl
  obtain ⟨busy, I, hs, pc, lft, ct, dt, bi, bsi⟩ := fm
  simp only at hb; subst hb
  refine ⟨_, (⟨true, I, hs, pc, w.now,
    if I > 0 then SetTimer w.now (.CooldownTimer i) I else ct, dt, bi, bsi⟩ : FireMode),
    hcf, ?_, rfl, ?_, ?_, ?_, rfl, ?_, ?_⟩
  · rw [getFM_eq_ok_iff]
    cases bsi <;> cases hs <;> by_cases hI : I > 0 <;>
      simp [StartFire_simulate, StartFire_localCooldown, emit, setFM, hcl, hI, hlt]
  · cases bsi <;> cases hs <;> by_cases hI : I > 0 <;>
      simp [StartFire_simulate, StartFire_localCooldown, emit, setFM, hcl, hI]
  · cases bsi <;> cases hs <;> by_cases hI : I > 0 <;>
      simp [StartFire_simulate, StartFire_localCooldown, emit, setFM, hcl, hI]
  · cases bsi <;> cases hs <;> by_cases hI : I > 0 <;>
      simp [StartFire_simulate, StartFire_localCooldown, emit, setFM, hcl, hI]
  · intro hI
    have hI' : I > 0 := hI
    simp [hI', SetTimer]
  · refine ⟨(if bsi then
        (if hs then
          [(w.now, Effect.PlayFireEffects i), (w.now, Effect.SimulateHitscanShot i),
            (w.now, Effect.PlayHitscanEffects i w.EngineHitscanTrace)]
        else [(w.now, Effect.PlayFireEffects i), (w.now, Effect.SimulateShot i)])
      else []), (StartFire_simulate w i ⟨true, I, hs, pc, lft, ct, dt, bi, bsi⟩).2, ?_, ?_⟩
    · cases bsi <;> cases hs <;> by_cases hI : I > 0 <;>
        simp [StartFire_simulate, StartFire_localCooldown, emit, setFM, hcl, hI]
    · intro hbi
      simp only at hbi
      subst hbi
      cases hs <;> simp

/-- C6 on the client 0.3 s into the cooldown. -/
theorem C6_witness :
    ∃ w' fm', StartFire_Implementation 2 0 predictedWorld = .ok w' ∧
      getFM w' 0 = .ok fm' ∧ fm'.bIsBusy = true ∧
      w'.WeaponState = .Firing ∧ w'.CurrentFireMode = some 0 ∧
      w'.AmmoCount = 5 ∧ fm'.LocalFireTime = 9/10 ∧
      ((0 : ℚ) < 1 → fm'.CooldownTimerHandle = some ⟨1, 9/10 + 1, .CooldownTimer 0⟩) ∧
      ∃ pre info, w'.log = [] ++ pre ++ [(9/10, Effect.ServerFireRequest 0 info)] ∧
        (true = true → ((9/10 : ℚ), Effect.PlayFireEffects 0) ∈ pre) :=
  C6_StartFire_while_busy 0 predictedWorld 0 predictedFireMode (by decide!) (by decide!)
    (by decide!)

/-- C6 as stated fails: on the client, `StartFire()` on the busy fire mode
overwrites `LocalFireTime`, re-arms the cooldown timer to expire 0.3 s later
than it would have, replays the effects and sends a fire request. -/
theorem C6_counterexample :
    getFM predictedWorld 0 = .ok predictedFireMode ∧ predictedFireMode.bIsBusy = true ∧
      (StartFire_Implementation 2 0 predictedWorld).toOption.map
          (fun w => (w.FireModes.map (Option.map (fun f =>
            (f.LocalFireTime, f.CooldownTimerHandle))), w.log)) =
        some ([some (9/10, some ⟨1, 19/10, .CooldownTimer 0⟩)],
          [(9/10, .PlayFireEffects 0), (9/10, .SimulateHitscanShot 0),
           (9/10, .PlayHitscanEffects 0 default),
           (9/10, .ServerFireRequest 0 ⟨[(0, 0, 0), (0, 0, 0)]⟩)]) := by
  decide!

/-! ### C9 -/

theorem SetWeaponState_BringUp_spec (n : Nat) (w : World) :
    ∃ w', SetWeaponState (n + 3) .BringUp w = .ok w' ∧ w'.WeaponState = .BringUp ∧
      w'.now = w.now ∧ w'.BringUpTime = w.BringUpTime := by
  simp only [SetWeaponState]
  have hst : (if EWeaponState.BringUp ≠ w.WeaponState then
      emit { w with WeaponState := .BringUp } (.OnWeaponStateChanged .BringUp) else w).WeaponState
      = .BringUp := by
    split
    · rfl
    · next h => simp at h; exact h.symm
  have hnow : (if EWeaponState.BringUp ≠ w.WeaponState then
      emit { w with WeaponState := .BringUp } (.OnWeaponStateChanged .BringUp) else w).now
      = w.now := by split <;> rfl
  have hbt : (if EWeaponState.BringUp ≠ w.WeaponState then
      emit { w with WeaponState := .BringUp } (.OnWeaponStateChanged .BringUp)
      else w).BringUpTime = w.BringUpTime := by split <;> rfl
  generalize (if EWeaponState.BringUp ≠ w.WeaponState then
      emit { w with WeaponState := .BringUp } (.OnWeaponStateChanged .BringUp) else w) = w1
    at hst hnow hbt
  simp only [hst]
  split
  · split
    · simp only [RequestStartFire]
      split
      · simp only [TryStartFire]
        rw [if_neg (by rw [hst]; decide)]
        exact ⟨_, rfl, hst, hnow, hbt⟩
      · exact ⟨_, rfl, hst, hnow, hbt⟩
    · exact ⟨_, rfl, hst, hnow, hbt⟩
  · exact ⟨_, rfl, hst, hnow, hbt⟩

theorem RequestBringUp_Inactive (n : Nat) (w : World) (hs : w.WeaponState = .Inactive)
    (hb : 0 < w.BringUpTime) :
    ∃ w', RequestBringUp (n + 3) w = .ok w' ∧ w'.WeaponState = .BringUp ∧
      w'.SwapAnimTimerHandle = some ⟨w.BringUpTime, w.now + w.BringUpTime, .BringUpCallback⟩ := by
  obtain ⟨w1, h1, hst, hnow, hbt⟩ := SetWeaponState_BringUp_spec n
    { w with PutDownDelayTimerHandle := none, SwapAnimTimerHandle := none }
  have hpos : (1 - 0) * w1.BringUpTime > 0 := by
    rw [hbt]; simpa using hb
  unfold RequestBringUp
  dsimp only
  split
  · unfold BringUp
    dsimp only
    rw [h1]
    simp only [Run.bind_ok, if_pos hpos, Run.pure_eq]
    refine ⟨_, rfl, hst, ?_⟩
    dsimp only at hnow hbt
    simp only [SetTimer, if_pos hpos, hnow, hbt]
    simp
    exact hb
  · next h => rw [hs] at h; cases h
  · next h1 _ => exact absurd hs h1

theorem BringUpCallback_Firing (n : Nat) (w : World) (hs : w.WeaponState = .BringUp)
    (c : Nat) (cur : FireMode) (hc : w.CurrentFireMode = some c) (hg : getFM w c = .ok cur)
    (hb : IsBusy cur = true) :
    ∃ w', BringUpCallback (n + 1) w = .ok w' ∧ w'.WeaponState = .Firing := by
  simp only [BringUpCallback, hs, if_true, hc, hg, Run.bind_ok, hb, SetWeaponState_Firing]
  refine ⟨_, rfl, ?_⟩
  split
  · next h => cases h
  · rfl

/-- Without a busy current fire mode, `BringUpCallback` is `SetWeaponState(Idle)`. -/
theorem BringUpCallback_Idle (m : Nat) (w : World) (hs : w.WeaponState = .BringUp)
    (hc : w.CurrentFireMode = none ∨
      ∃ c cur, w.CurrentFireMode = some c ∧ getFM w c = .ok cur ∧ IsBusy cur = false) :
    BringUpCallback m w = SetWeaponState m .Idle w := by
  rcases hc with hc | ⟨c, cur, hc, hg, hb⟩
  · simp only [BringUpCallback, hs, if_true, hc]
  · simp only [BringUpCallback, hs, if_true, hc, hg, Run.bind_ok, hb, Bool.false_eq_true, if_false]

theorem SetWeaponState_Idle_log (m : Nat) (w w' : World) (hs : w.WeaponState ≠ .Idle)
    (h : SetWeaponState m .Idle w = .ok w') :
    ∃ rest, w'.log = w.log ++ (w.now, Effect.OnWeaponStateChanged .Idle) :: rest := by
  match m with
  | 0 => simp [SetWeaponState] at h
  | m + 1 =>
    have hne : EWeaponState.Idle ≠ w.WeaponState := fun e => hs e.symm
    simp only [SetWeaponState, if_pos hne] at h
    have hst : (emit { w with WeaponState := .Idle } (.OnWeaponStateChanged .Idle)).WeaponState
        = .Idle := rfl
    simp only [hst] at h
    have hfr : Frame (emit { w with WeaponState := .Idle } (.OnWeaponStateChanged .Idle)) w' := by
      split at h
      · refine Frame.trans ?_ ((cycleFrame m).2.2.2.2.2.1 _ _ h)
        exact Frame.upd rfl rfl rfl rfl rfl
      · split at h
        · exact (cycleFrame m).2.2.2.1 _ _ _ h
        · cases Run.ok_inj h; exact Frame.refl _
    obtain ⟨rest, hr⟩ := hfr.log
    exact ⟨rest, by rw [hr]; simp [emit]⟩

theorem SetWeaponState_Idle_rest (n : Nat) (w : World) (hs : w.WeaponState ≠ .Idle)
    (hp : w.PutDownDelayTimerHandle = none) (hd : w.DesiredFireModes = []) :
    ∃ w', SetWeaponState (n + 1) .Idle w = .ok w' ∧ w'.WeaponState = .Idle := by
  have hne : EWeaponState.Idle ≠ w.WeaponState := fun e => hs e.symm
  simp [SetWeaponState, hne, emit, hp, hd, IsTimerActive, Run.pure_eq]

/-- C9: (1) from `Inactive` with `BringUpTime > 0`, `RequestBringUp()` sets the
state to `BringUp` and arms the swap timer to run `BringUpCallback` exactly
`BringUpTime` seconds later; (2) when that callback runs in state `BringUp` and
the current fire mode exists and is busy, the state becomes `Firing`;
(3) otherwise the weapon enters `Idle` : the callback is `SetWeaponState(Idle)`,
the change to `Idle` is the first thing it broadcasts, and the state is `Idle`
when it returns unless the entry to `Idle` moves on (a pending put-down, or a
desired fire mode to start). -/
theorem C9_bring_up_then_Firing_or_Idle (n : Nat) (w : World) :
    (w.WeaponState = .Inactive → 0 < w.BringUpTime →
      ∃ w', RequestBringUp (n + 3) w = .ok w' ∧ w'.WeaponState = .BringUp ∧
        w'.SwapAnimTimerHandle =
          some ⟨w.BringUpTime, w.now + w.BringUpTime, .BringUpCallback⟩) ∧
    (w.WeaponState = .BringUp → ∀ c cur, w.CurrentFireMode = some c →
      getFM w c = .ok cur → IsBusy cur = true →
      ∃ w', BringUpCallback (n + 1) w = .ok w' ∧ w'.WeaponState = .Firing) ∧
    (w.WeaponState = .BringUp →
      (w.CurrentFireMode = none ∨
        ∃ c cur, w.CurrentFireMode = some c ∧ getFM w c = .ok cur ∧ IsBusy cur = false) →
      (∀ m, BringUpCallback m w = SetWeaponState m .Idle w) ∧
      (∀ m w', BringUpCallback m w = .ok w' →
        ∃ rest, w'.log = w.log ++ (w.now, Effect.OnWeaponStateChanged .Idle) :: rest) ∧
      (w.PutDownDelayTimerHandle = none → w.DesiredFireModes = [] →
        ∃ w', BringUpCallback (n + 1) w = .ok w' ∧ w'.WeaponState = .Idle)) := by
  refine ⟨RequestBringUp_Inactive n w, fun hs c cur hc hg hb =>
    BringUpCallback_Firing n w hs c cur hc hg hb, fun hs hc => ⟨fun m =>
      BringUpCallback_Idle m w hs hc, fun m w' h => ?_, fun hp hd => ?_⟩⟩
  · rw [BringUpCallback_Idle m w hs hc] at h
    exact SetWeaponState_Idle_log m w w' (by rw [hs]; decide) h
  · rw [BringUpCallback_Idle (n + 1) w hs hc]
    exact SetWeaponState_Idle_rest n w (by rw [hs]; decide) hp hd

/-- C9 on the example weapon, `BringUpTime = 0.3` : `RequestBringUp()` from
`Inactive` gives `BringUp` with the completion due at 0.3 s, and the completion
gives `Idle`. -/
theorem C9_witness :
    (∃ w', RequestBringUp 3 exWorld = .ok w' ∧ w'.WeaponState = .BringUp ∧
        w'.SwapAnimTimerHandle = some ⟨3/10, 0 + 3/10, .BringUpCallback⟩) ∧
      run 3 [.RequestBringUp, .Advance (3/10)] exWorld = .ok bringUpWorld ∧
      ∃ w', BringUpCallback 1 bringUpWorld = .ok w' ∧ w'.WeaponState = .Idle :=
  ⟨(C9_bring_up_then_Firing_or_Idle 0 exWorld).1 (by decide) (by decide!), by decide!,
    ((C9_bring_up_then_Firing_or_Idle 0 bringUpWorld).2.2 (by decide)
      (Or.inl (by decide))).2.2 (by decide) (by decide)⟩

/-! ### What a call of a fire mode leaves alone -/

theorem SameStock_refl (w : World) : SameStock w w := ⟨rfl, rfl⟩

theorem SameStock_trans {w w1 w2 : World} (h1 : SameStock w w1) (h2 : SameStock w1 w2) :
    SameStock w w2 := ⟨h2.1.trans h1.1, h2.2.trans h1.2⟩

theorem SameStock.oneRound {w w' : World} (h : SameStock w w') : OneRound w w' :=
  ⟨h.1, le_of_eq h.2, by rw [h.2]; omega⟩

theorem OneRound.after {w w1 w2 : World} (h1 : OneRound w w1) (h2 : SameStock w1 w2) :
    OneRound w w2 := ⟨h2.1.trans h1.1, by rw [h2.2]; exact h1.2.1, by rw [h2.2]; exact h1.2.2⟩

theorem SameStock.before {w w1 w2 : World} (h1 : SameStock w w1) (h2 : OneRound w1 w2) :
    OneRound w w2 := ⟨h2.1.trans h1.1, by rw [← h1.2]; exact h2.2.1, by rw [← h1.2]; exact h2.2.2⟩

theorem afterSetBusyTrue_sameStock (w : World) (i : Nat) (fm : FireMode) :
    SameStock w (afterSetBusyTrue w i fm) := by
  unfold afterSetBusyTrue
  split
  · exact SameStock_refl _
  · dsimp only
    split
    · split <;> exact ⟨rfl, rfl⟩
    · exact ⟨rfl, rfl⟩

theorem LocalConfirmFired_sameStock (w w' : World) (i : Nat)
    (h : LocalConfirmFired w i = .ok w') : SameStock w w' := by
  unfold LocalConfirmFired at h
  cases hx : getFM w i with
  | error e => simp [hx, Run.bind_error] at h
  | ok fm =>
    simp only [hx, Run.bind_ok] at h
    split at h
    · split at h <;> cases Run.ok_inj h <;> exact ⟨rfl, rfl⟩
    · cases Run.ok_inj h; exact ⟨rfl, rfl⟩

theorem MulticastFired_Implementation_sameStock (w w' : World) (i : Nat)
    (h : MulticastFired_Implementation w i = .ok w') : SameStock w w' := by
  unfold MulticastFired_Implementation at h
  cases hx : getFM w i with
  | error e => simp [hx, Run.bind_error] at h
  | ok fm =>
    simp only [hx, Run.bind_ok] at h
    split at h
    · split at h
      · exact LocalConfirmFired_sameStock w w' i h
      · split at h <;> cases Run.ok_inj h <;> exact ⟨rfl, rfl⟩
    · cases Run.ok_inj h; exact ⟨rfl, rfl⟩

theorem MulticastFiredHitscan_Implementation_sameStock (w w' : World) (i : Nat)
    (hi : FHitscanVisualInfo)
    (h : MulticastFiredHitscan_Implementation w i hi = .ok w') : SameStock w w' := by
  unfold MulticastFiredHitscan_Implementation at h
  cases hx : getFM w i with
  | error e => simp [hx, Run.bind_error] at h
  | ok fm =>
    simp only [hx, Run.bind_ok] at h
    split at h
    · split at h
      · exact LocalConfirmFired_sameStock w w' i h
      · split at h <;> cases Run.ok_inj h <;> exact ⟨rfl, rfl⟩
    · cases Run.ok_inj h; exact ⟨rfl, rfl⟩

theorem MulticastFired_sameStock (w w' : World) (i : Nat)
    (h : MulticastFired w i = .ok w') : SameStock w w' :=
  SameStock_trans ⟨rfl, rfl⟩
    (MulticastFired_Implementation_sameStock (emit w (.MulticastFired i)) w' i h)

theorem MulticastFiredHitscan_sameStock (w w' : World) (i : Nat) (hi : FHitscanVisualInfo)
    (h : MulticastFiredHitscan w i hi = .ok w') : SameStock w w' :=
  SameStock_trans ⟨rfl, rfl⟩
    (MulticastFiredHitscan_Implementation_sameStock (emit w (.MulticastFiredHitscan i hi)) w' i
      hi h)

/-- The shot of an accepted request: at most one round is consumed. -/
theorem ServerFire_Implementation_oneRound (n : Nat) (i : Nat) (info : FSimulatedShotInfo)
    (w w' : World) (h : ServerFire_Implementation n i info w = .ok w') : OneRound w w' := by
  match n with
  | 0 => simp [ServerFire_Implementation] at h
  | n + 1 =>
    simp only [ServerFire_Implementation] at h
    cases hx : getFM w i with
    | error e => simp [hx, Run.bind_error] at h
    | ok fm =>
      simp only [hx, Run.bind_ok] at h
      cases hd : ServerFireDelay w i fm with
      | error e => simp [hd, Run.bind_error] at h
      | ok d =>
        simp only [hd, Run.bind_ok] at h
        by_cases hpos : d > 0
        · simp only [if_pos hpos] at h
          split at h
          · cases Run.ok_inj h; exact (SameStock_refl _).oneRound
          · cases Run.ok_inj h; exact SameStock.oneRound ⟨rfl, rfl⟩
        · simp only [if_neg hpos] at h
          cases hb : SetBusy n true i w with
          | error e => simp [hb, Run.bind_error] at h
          | ok w1 =>
            simp only [hb, Run.bind_ok] at h
            have hw1 := SetBusy_true_ok n w w1 i fm hx hb
            have hf1 : SameStock w w1 := by rw [hw1]; exact afterSetBusyTrue_sameStock w i fm
            generalize hS : (if fm.bIsHitscan = true then do
                let (w, HitscanInfo) ← (if fm.BasicInterface = true then
                    AuthorityHitscanShot_Implementation (emit w1 (.AuthorityHitscanShot i info))
                      i info
                  else pure (w1, default) : Run (World × FHitscanVisualInfo))
                MulticastFiredHitscan w i HitscanInfo
              else do
                let w ← (if fm.BasicInterface = true then
                    AuthorityShot_Implementation (emit w1 (.AuthorityShot i info)) i info
                  else pure w1 : Run World)
                MulticastFired w i : Run World) = S at h
            have hcons : OneRound w1 (ConsumeAmmo (emit w1 (.AuthorityHitscanShot i info)) i) :=
              ⟨rfl, by simp [ConsumeAmmo, emit], by simp [ConsumeAmmo, emit]⟩
            have hcons' : OneRound w1 (ConsumeAmmo (emit w1 (.AuthorityShot i info)) i) :=
              ⟨rfl, by simp [ConsumeAmmo, emit], by simp [ConsumeAmmo, emit]⟩
            have hf2 : ∀ w2, S = .ok w2 → OneRound w1 w2 := by
              intro w2 hS2
              rw [← hS] at hS2
              split at hS2
              · by_cases hbi : fm.BasicInterface = true
                · rcases AuthorityHitscanShot_cases (emit w1 (.AuthorityHitscanShot i info)) i info
                    with hc | hc
                  · simp only [hbi, if_true, hc, Run.bind_ok] at hS2
                    exact hcons.after (MulticastFiredHitscan_sameStock _ _ _ _ hS2)
                  · simp [hbi, hc, Run.bind_error] at hS2
                · simp only [hbi, Bool.false_eq_true, if_false, Run.pure_eq, Run.bind_ok] at hS2
                  exact (MulticastFiredHitscan_sameStock _ _ _ _ hS2).oneRound
              · by_cases hbi : fm.BasicInterface = true
                · cases hg : getFM (emit w1 (.AuthorityShot i info)) i with
                  | error e =>
                    simp [hbi, AuthorityShot_Implementation, hg, Run.bind_error] at hS2
                  | ok fm1 =>
                    rcases AuthorityShot_cases _ i info fm1 hg with hc | hc
                    · simp only [hbi, if_true, hc, Run.bind_ok] at hS2
                      split at hS2
                      · exact hcons'.after (MulticastFired_sameStock _ _ _ hS2)
                      · exact (SameStock_trans ⟨rfl, rfl⟩
                          (MulticastFired_sameStock _ _ _ hS2)).oneRound
                    · simp [hbi, hc, Run.bind_error] at hS2
                · simp only [hbi, Run.pure_eq, Run.bind_ok] at hS2
                  exact (MulticastFired_sameStock _ _ _ hS2).oneRound
            cases S with
            | error e => simp [Run.bind_error] at h
            | ok w2 =>
              simp only [Run.bind_ok] at h
              cases hg2 : getFM w2 i with
              | error e => simp [hg2, Run.bind_error] at h
              | ok fm2 =>
                simp only [hg2, Run.bind_ok, Run.pure_eq] at h
                cases Run.ok_inj h
                exact (hf1.before (hf2 w2 rfl)).after ⟨rfl, rfl⟩

theorem StartFire_simulate_sameStock (w : World) (i : Nat) (fm : FireMode) :
    SameStock w (StartFire_simulate w i fm).1 := by
  unfold StartFire_simulate
  split
  · split <;> exact ⟨rfl, rfl⟩
  · exact ⟨rfl, rfl⟩

theorem StartFire_localCooldown_sameStock (w : World) (i : Nat) (fm : FireMode) :
    SameStock w (StartFire_localCooldown w i fm) := by
  unfold StartFire_localCooldown
  split
  · dsimp only
    split <;> exact ⟨rfl, rfl⟩
  · exact ⟨rfl, rfl⟩

theorem StartFire_localCooldown_client (w : World) (i : Nat) (fm : FireMode) :
    (StartFire_localCooldown w i fm).NetModeClient = w.NetModeClient := by
  unfold StartFire_localCooldown
  split
  · dsimp only
    split <;> rfl
  · rfl

theorem StartFire_simulate_client (w : World) (i : Nat) (fm : FireMode) :
    (StartFire_simulate w i fm).1.NetModeClient = w.NetModeClient := by
  unfold StartFire_simulate
  split
  · split <;> rfl
  · rfl

/-- A call of `StartFire()` leaves the desired list alone and consumes at most
one round; on a client it consumes none. -/
theorem StartFire_Implementation_oneRound (n : Nat) (i : Nat) (w w' : World)
    (h : StartFire_Implementation n i w = .ok w') :
    OneRound w w' ∧ (w.NetModeClient = true → w'.AmmoCount = w.AmmoCount) := by
  match n with
  | 0 => simp [StartFire_Implementation] at h
  | n + 1 =>
    simp only [StartFire_Implementation] at h
    cases hb : SetBusy n true i w with
    | error e => simp [hb, Run.bind_error] at h
    | ok w1 =>
      simp only [hb, Run.bind_ok] at h
      cases hx0 : getFM w i with
      | error e =>
        exfalso
        match n with
        | 0 => simp [SetBusy] at hb
        | n + 1 => simp [SetBusy, hx0, Run.bind_error] at hb
      | ok fm0 =>
        have hw1 := SetBusy_true_ok n w w1 i fm0 hx0 hb
        have hf1 : SameStock w w1 := by rw [hw1]; exact afterSetBusyTrue_sameStock w i fm0
        have hc1 : w1.NetModeClient = w.NetModeClient := by
          rw [hw1]; exact afterSetBusyTrue_client w i fm0
        cases hx : getFM w1 i with
        | error e => simp [hx, Run.bind_error] at h
        | ok fm =>
          simp only [hx, Run.bind_ok] at h
          have hf2 := StartFire_simulate_sameStock w1 i fm
          have hf3 := StartFire_localCooldown_sameStock (StartFire_simulate w1 i fm).1 i fm
          have hf := SameStock_trans hf1 (SameStock_trans hf2 hf3)
          have hc : (StartFire_localCooldown (StartFire_simulate w1 i fm).1 i fm).NetModeClient
              = w.NetModeClient := by
            rw [StartFire_localCooldown_client, StartFire_simulate_client, hc1]
          match n with
          | 0 => simp [SetBusy] at hb
          | n + 1 =>
            simp only [ServerFire] at h
            split at h
            · cases Run.ok_inj h
              exact ⟨(SameStock_trans hf ⟨rfl, rfl⟩).oneRound, fun _ => hf.2⟩
            · next hncl =>
              refine ⟨hf.before (ServerFire_Implementation_oneRound _ _ _ _ _ h), fun hcl => ?_⟩
              rw [hc] at hncl
              exact absurd hcl hncl

/-! ### C11, C12, C14, C17 -/

/-- C11: a fire mode reports a status change while not busy.  (1) If it is
not the current fire mode, nothing changes.  (2) If it is the current fire
mode and the weapon is not `Firing`, only the current-fire-mode reference
changes: it is cleared.  (3) If it is the current fire mode and the weapon is
`Firing`, the reference is cleared and the weapon enters `Idle` : the call is
`SetWeaponState(Idle)` on the weapon without current fire mode, the change to
`Idle` is the first thing it broadcasts, and the weapon is `Idle` without
current fire mode on return unless the entry to `Idle` moves on (a pending
put-down, or a desired fire mode to start). -/
theorem C11_idle_status_clears_current (n : Nat) (w : World) (i : Nat) (fm : FireMode)
    (hfm : getFM w i = .ok fm) (hb : IsBusy fm = false) :
    (some i ≠ w.CurrentFireMode → FireModeChangedStatus_Implementation (n + 1) i w = .ok w) ∧
    (some i = w.CurrentFireMode → w.WeaponState ≠ .Firing →
      FireModeChangedStatus_Implementation (n + 1) i w =
        .ok { w with CurrentFireMode := none }) ∧
    (some i = w.CurrentFireMode → w.WeaponState = .Firing →
      (∀ m, FireModeChangedStatus_Implementation (m + 1) i w =
        SetWeaponState m .Idle { w with CurrentFireMode := none }) ∧
      (∀ m w', FireModeChangedStatus_Implementation m i w = .ok w' →
        ∃ rest, w'.log = w.log ++ (w.now, Effect.OnWeaponStateChanged .Idle) :: rest) ∧
      (w.PutDownDelayTimerHandle = none → w.DesiredFireModes = [] →
        FireModeChangedStatus_Implementation (n + 2) i w =
          .ok (emit { w with CurrentFireMode := none, WeaponState := .Idle }
            (.OnWeaponStateChanged .Idle)))) := by
  have hcall : some i = w.CurrentFireMode → w.WeaponState = .Firing →
      ∀ m, FireModeChangedStatus_Implementation (m + 1) i w =
        SetWeaponState m .Idle { w with CurrentFireMode := none } := by
    intro hc hs m
    simp only [FireModeChangedStatus_Implementation, hfm, Run.bind_ok, hb, Bool.false_eq_true,
      if_false, if_pos hc, hs, if_true]
  refine ⟨fun hc => ?_, fun hc hs => ?_, fun hc hs => ⟨hcall hc hs, fun m w' h => ?_,
    fun hp hd => ?_⟩⟩
  · simp only [FireModeChangedStatus_Implementation, hfm, Run.bind_ok, hb, Bool.false_eq_true,
      if_false, if_neg hc, Run.pure_eq]
  · simp only [FireModeChangedStatus_Implementation, hfm, Run.bind_ok, hb, Bool.false_eq_true,
      if_false, if_pos hc, if_neg hs, Run.pure_eq]
  · match m with
    | 0 => simp [FireModeChangedStatus_Implementation] at h
    | m + 1 =>
      rw [hcall hc hs m] at h
      exact SetWeaponState_Idle_log m { w with CurrentFireMode := none } w'
        (by show w.WeaponState ≠ .Idle; rw [hs]; decide) h
  · rw [hcall hc hs (n + 1)]
    have hne : EWeaponState.Idle ≠ w.WeaponState := by rw [hs]; decide
    simp [SetWeaponState, hne, emit, hp, hd, IsTimerActive, Run.pure_eq]

/-- C11 on the firing example weapon whose current fire mode has just turned
idle: the weapon ends `Idle` without current fire mode. -/
theorem C11_witness :
    FireModeChangedStatus_Implementation 2 0
        { coolingWorld with FireModes := [some exFireMode] } =
      .ok (emit { coolingWorld with FireModes := [some exFireMode], CurrentFireMode := none,
                                    WeaponState := .Idle } (.OnWeaponStateChanged .Idle)) :=
  (C11_idle_status_clears_current 0 { coolingWorld with FireModes := [some exFireMode] } 0
    exFireMode (by decide!) (by decide)).2.2 (by decide) (by decide) |>.2.2 (by decide) (by decide)

/-- C12: in a weapon state other than `Idle`, `RequestStartFire(i)` for a valid
index only queues the fire mode at the front of the desired list: the fire
modes (busy flags, timers), the weapon state, the retry timer and the log are
as before, so `StartFire` was not called and no retry was armed. -/
theorem C12_RequestStartFire_not_Idle_only_queues (n : Nat) (w : World) (i : Nat)
    (hs : w.WeaponState ≠ .Idle) (hv : validFM w i = true) :
    ∃ w', RequestStartFire (n + 2) i w = .ok w' ∧
      w' = { w with DesiredFireModes := i :: w.DesiredFireModes.filter (fun j => j ≠ i) } ∧
      w'.DesiredFireModes.head? = some i ∧ w'.FireModes = w.FireModes ∧
      w'.WeaponState = w.WeaponState ∧ w'.CurrentFireMode = w.CurrentFireMode ∧
      w'.RetryStartFireTimerHandle = w.RetryStartFireTimerHandle ∧ w'.log = w.log := by
  refine ⟨_, ?_, rfl, rfl, rfl, rfl, rfl, rfl, rfl⟩
  unfold validFM at hv
  split at hv
  · next fm hfm =>
    simp only [RequestStartFire, hfm, TryStartFire, if_neg hs, Run.pure_eq]
  · cases hv

/-- C12 on the firing example weapon. -/
theorem C12_witness :
    ∃ w', RequestStartFire 2 0 coolingWorld = .ok w' ∧
      w' = { coolingWorld with DesiredFireModes := [0] } ∧
      w'.DesiredFireModes.head? = some 0 ∧ w'.FireModes = coolingWorld.FireModes ∧
      w'.WeaponState = .Firing ∧ w'.CurrentFireMode = some 0 ∧
      w'.RetryStartFireTimerHandle = none ∧ w'.log = [] :=
  C12_RequestStartFire_not_Idle_only_queues 0 coolingWorld 0 (by decide) (by decide)

/-- C14: for an index that is out of range or whose slot holds no fire mode,
`RequestStartFire` and `RequestStopFire` return the world as it was. -/
theorem C14_invalid_index_is_noop (n : Nat) (w : World) (i : Nat)
    (hv : validFM w i = false) :
    RequestStartFire (n + 1) i w = .ok w ∧ RequestStopFire i w = .ok w := by
  unfold validFM at hv
  split at hv
  · cases hv
  · next hno =>
    constructor
    · unfold RequestStartFire
      split
      · next fm hfm => exact absurd hfm (hno fm)
      · rfl
    · unfold RequestStopFire
      split
      · next fm hfm => exact absurd hfm (hno fm)
      · rfl

/-- C14 on the example weapon: index 3 is out of range, and slot 0 of a weapon
with an empty slot holds no fire mode. -/
theorem C14_witness :
    (RequestStartFire 1 3 idleWorld = .ok idleWorld ∧ RequestStopFire 3 idleWorld = .ok idleWorld) ∧
      (RequestStartFire 1 0 { idleWorld with FireModes := [none] } =
          .ok { idleWorld with FireModes := [none] } ∧
        RequestStopFire 0 { idleWorld with FireModes := [none] } =
          .ok { idleWorld with FireModes := [none] }) :=
  ⟨C14_invalid_index_is_noop 0 idleWorld 3 (by decide),
    C14_invalid_index_is_noop 0 { idleWorld with FireModes := [none] } 0 (by decide)⟩

/-- C17: on a client, for a fire mode that recorded `LocalFireTime > 0` and is
still busy, with `FireInterval - ping/2 > 0` where `ping = now - LocalFireTime`,
handling either broadcast replaces the cooldown timer by one that expires
exactly `FireInterval - ping/2` seconds from now; the busy flag stays set and
nothing else changes, in particular no effect is recorded. -/
theorem C17_issuer_rearms_cooldown (w : World) (i : Nat) (fm : FireMode)
    (h : FHitscanVisualInfo) (hfm : getFM w i = .ok fm) (hcl : w.NetModeClient = true)
    (hl : fm.LocalFireTime > 0) (hb : fm.bIsBusy = true)
    (hd : fm.FireInterval - (w.now - fm.LocalFireTime) / 2 > 0) :
    MulticastFired_Implementation w i = .ok (setFM w i { fm with
        CooldownTimerHandle := some ⟨fm.FireInterval - (w.now - fm.LocalFireTime) / 2,
          w.now + (fm.FireInterval - (w.now - fm.LocalFireTime) / 2), .CooldownTimer i⟩ }) ∧
      MulticastFiredHitscan_Implementation w i h = MulticastFired_Implementation w i := by
  have hlc : LocalConfirmFired w i = .ok (setFM w i { fm with
        CooldownTimerHandle := some ⟨fm.FireInterval - (w.now - fm.LocalFireTime) / 2,
          w.now + (fm.FireInterval - (w.now - fm.LocalFireTime) / 2), .CooldownTimer i⟩ }) := by
    simp only [LocalConfirmFired, hfm, Run.bind_ok, hb, if_true, TimeSince, if_pos hd, SetTimer,
      Run.pure_eq]
  constructor
  · simp only [MulticastFired_Implementation, hfm, Run.bind_ok, hcl, if_true, if_pos hl, hlc]
  · simp only [MulticastFired_Implementation, MulticastFiredHitscan_Implementation, hfm,
      Run.bind_ok, hcl, if_true, if_pos hl]

/-- C17 on the issuing client with a ping of 0.2 s: the cooldown, armed to
expire at 2.0 s, is re-armed to expire 0.9 s from now, at 2.1 s. -/
theorem C17_witness :
    MulticastFired_Implementation issuerWorld 0 = .ok (setFM issuerWorld 0
        { issuerFireMode with
          CooldownTimerHandle := some ⟨1 - (6/5 - 1) / 2, 6/5 + (1 - (6/5 - 1) / 2),
            .CooldownTimer 0⟩ }) ∧
      MulticastFiredHitscan_Implementation issuerWorld 0 default =
        MulticastFired_Implementation issuerWorld 0 :=
  C17_issuer_rearms_cooldown issuerWorld 0 issuerFireMode default (by decide!) (by decide)
    (by decide!) (by decide) (by decide!)

/-! ### C13 -/

theorem StartFire_simulate_state (w : World) (i : Nat) (fm : FireMode) :
    (StartFire_simulate w i fm).1.WeaponState = w.WeaponState ∧
      (StartFire_simulate w i fm).1.FireModes = w.FireModes := by
  unfold StartFire_simulate
  split
  · split <;> exact ⟨rfl, rfl⟩
  · exact ⟨rfl, rfl⟩

/-- A call of `StartFire()` returns when the owner can answer the request: the
fire mode was idle, or the weapon is not `Firing`. -/
theorem StartFire_returns_of (n : Nat) (w : World) (i : Nat) (fm : FireMode)
    (hfm : getFM w i = .ok fm) (hok : fm.bIsBusy = false ∨ w.WeaponState ≠ .Firing) :
    ∃ w', StartFire_Implementation (n + 6) i w = .ok w' := by
  rcases Bool.eq_false_or_eq_true fm.bIsBusy with hbusy | hidle
  swap
  · exact StartFire_returns n w i fm hfm hidle
  have hs : w.WeaponState ≠ .Firing := by
    rcases hok with h | h
    · rw [hbusy] at h; cases h
    · exact h
  have hw1 : afterSetBusyTrue w i fm = w := by
    unfold afterSetBusyTrue; rw [if_pos hbusy]
  have hb := SetBusy_true_eq (n + 2) w i fm hfm
  rw [hw1] at hb
  simp only [StartFire_Implementation, hb, Run.bind_ok, hfm]
  have hg2 : getFM (StartFire_simulate w i fm).1 i = .ok fm := by
    rw [StartFire_simulate_getFM]; exact hfm
  simp only [ServerFire]
  split
  · exact ⟨_, rfl⟩
  · next hcl =>
    have hcl0 : (StartFire_simulate w i fm).1.NetModeClient = false := by
      rw [StartFire_localCooldown_client] at hcl
      simpa using hcl
    have hlc : StartFire_localCooldown (StartFire_simulate w i fm).1 i fm =
        (StartFire_simulate w i fm).1 := by
      unfold StartFire_localCooldown
      rw [if_neg (by simp [hcl0])]
    rw [hlc]
    have hdel : ∃ d, ServerFireDelay (StartFire_simulate w i fm).1 i fm = .ok d := by
      apply ServerFireDelay_defined
      intro _
      left
      rw [(StartFire_simulate_state w i fm).1]
      exact hs
    obtain ⟨d, hd⟩ := hdel
    exact ServerFire_Implementation_returns n _ i _ _ d hg2 hd hcl0
      (fun hr => StartFire_simulate_vectors _ i _ hr)

/-- The source function `TryStartFire` leaves the desired list alone. -/
theorem TryStartFire_desired (m : Nat) (i : Nat) (w w' : World)
    (h : TryStartFire m i w = .ok w') : w'.DesiredFireModes = w.DesiredFireModes := by
  match m with
  | 0 => simp [TryStartFire] at h
  | m + 1 =>
    simp only [TryStartFire] at h
    split at h
    · split at h
      · exact (StartFire_Implementation_oneRound m i w w' h).1.1
      · cases Run.ok_inj h; rfl
    · cases Run.ok_inj h; rfl

/-- The source function `TryStartFire` returns for a fire mode that exists. -/
theorem TryStartFire_returns (n : Nat) (w : World) (i : Nat) (fm : FireMode)
    (hfm : getFM w i = .ok fm) : ∃ w', TryStartFire (n + 7) i w = .ok w' := by
  simp only [TryStartFire]
  split
  · next hs =>
    split
    · exact StartFire_returns_of n w i fm hfm (Or.inr (by rw [hs]; decide))
    · exact ⟨_, rfl⟩
  · exact ⟨_, rfl⟩

/-- C13: for a weapon whose desired list has no duplicates and a valid index
`i`.  `RequestStartFire(i)` returns, and then the desired list is `i` followed
by the entries it held before other than `i`, in their order: `i` is at
position 0, occurs exactly once, and the list has no duplicates.
`RequestStopFire(i)` returns, and then the desired list is the entries it held
before other than `i`, in their order, and does not contain `i`. -/
theorem C13_desired_list_after_start_and_stop (n : Nat) (w : World) (i : Nat)
    (hnd : w.DesiredFireModes.Nodup) (hv : validFM w i = true) :
    (∃ w', RequestStartFire (n + 8) i w = .ok w') ∧
    (∀ m w', RequestStartFire m i w = .ok w' →
      w'.DesiredFireModes = i :: w.DesiredFireModes.filter (fun j => j ≠ i) ∧
      w'.DesiredFireModes.head? = some i ∧ w'.DesiredFireModes.count i = 1 ∧
      w'.DesiredFireModes.Nodup ∧
      w'.DesiredFireModes.filter (fun j => j ≠ i) =
        w.DesiredFireModes.filter (fun j => j ≠ i)) ∧
    (∃ w', RequestStopFire i w = .ok w' ∧
      w'.DesiredFireModes = w.DesiredFireModes.filter (fun j => j ≠ i) ∧
      i ∉ w'.DesiredFireModes ∧ w'.DesiredFireModes.Nodup) := by
  unfold validFM at hv
  split at hv
  swap
  · cases hv
  next fm hfm =>
  have hg : getFM w i = .ok fm := (getFM_eq_ok_iff _ _ _).mpr hfm
  have hni : i ∉ w.DesiredFireModes.filter (fun j => j ≠ i) := by
    simp [List.mem_filter]
  have hndf : (w.DesiredFireModes.filter (fun j => j ≠ i)).Nodup := hnd.filter _
  refine ⟨?_, fun m w' h => ?_, ?_⟩
  · simp only [RequestStartFire, hfm]
    exact TryStartFire_returns n _ i fm hg
  · match m with
    | 0 => simp [RequestStartFire] at h
    | m + 1 =>
      simp only [RequestStartFire, hfm] at h
      have hd := TryStartFire_desired m i _ w' h
      dsimp only at hd
      rw [hd]
      refine ⟨rfl, rfl, ?_, ?_, ?_⟩
      · rw [List.count_cons_self, List.count_eq_zero_of_not_mem hni]
      · exact List.nodup_cons.mpr ⟨hni, hndf⟩
      · simp
  · simp only [RequestStopFire, hfm]
    split
    · exact ⟨emit { w with
          DesiredFireModes := w.DesiredFireModes.filter (fun j => j ≠ i) } (.StopFire i),
        by simp only [StopFire, getFM, hfm, Run.bind_ok, Run.pure_eq], rfl, hni, hndf⟩
    · exact ⟨_, rfl, rfl, hni, hndf⟩

/-- C13 on a weapon with three fire modes of which 2 and 1 are desired, in
that order: requesting 1 gives `[1, 2]`, stopping 2 gives `[1]`. -/
theorem C13_witness :
    (∃ w', RequestStartFire 8 1 threeModeWorld = .ok w' ∧ w'.DesiredFireModes = [1, 2]) ∧
      (∃ w', RequestStopFire 2 threeModeWorld = .ok w' ∧ w'.DesiredFireModes = [1]) := by
  have h := C13_desired_list_after_start_and_stop 0 threeModeWorld 1 (by decide) (by decide)
  have h2 := C13_desired_list_after_start_and_stop 0 threeModeWorld 2 (by decide) (by decide)
  obtain ⟨w', hw'⟩ := h.1
  obtain ⟨w2, hw2, hd2, _⟩ := h2.2.2
  exact ⟨⟨w', hw', (h.2.1 8 w' hw').1⟩, ⟨w2, hw2, hd2⟩⟩

/-! ### C15 -/

/-- The put-down delay of a firing weapon whose current fire mode is in a
cooldown that started in the past: the put-down may start once the share
`CooldownDelaysPutDownByPercent` of the whole cooldown has elapsed. -/
theorem FiringPutDownDelay_running (w : World) (cur : FireMode) (t : FTimerData)
    (hb : cur.bIsBusy = true) (ht : cur.CooldownTimerHandle = some t)
    (hrem : w.now < t.ExpireTime) (hstart : t.ExpireTime - t.Rate ≤ w.now)
    (hP : 0 < w.CooldownDelaysPutDownByPercent) :
    FiringPutDownDelay w cur =
      (t.ExpireTime - t.Rate) + (t.Rate * w.CooldownDelaysPutDownByPercent -
        (if w.bReducePutDownDelayByPutDownTime then w.PutDownTime else 0)) - w.now := by
  have h1 : ¬ (w.now - (w.now - (t.Rate - (t.ExpireTime - w.now))) < 0) := by
    intro h; linarith
  have h2 : t.ExpireTime - w.now > 0 ∧ w.CooldownDelaysPutDownByPercent > 0 :=
    ⟨by linarith, hP⟩
  simp only [FiringPutDownDelay, GetCooldownStartTime_Implementation,
    GetTimeUntilIdle_Implementation, TimerExists, ht, Option.isSome_some, if_true, hb,
    GetTimerElapsed, GetTimerRemaining, TimeSince, if_neg h1, if_pos h2]
  split <;> ring

/-- C15, as amended: with the weapon `Firing`, the cooldown of the current
fire mode running (begun in the past, total `T`, not yet expired) and
`P = CooldownDelaysPutDownByPercent > 0`, `RequestPutDown()` computes
`Delay = (cooldown start) + P * T - now`, less `PutDownTime` when
`bReducePutDownDelayByPutDownTime`.  If `Delay > 0` the weapon stays as it is
but for `PutDownDelayTimerHandle`, armed to re-run `RequestPutDown` after
`Delay`; otherwise the call is `PutDown(1)` at once.  At the very start of the
cooldown, without the reduction, `Delay` is `P` times the remaining cooldown. -/
theorem C15_put_down_delay_while_Firing (n : Nat) (w : World) (c : Nat) (cur : FireMode)
    (t : FTimerData) (hs : w.WeaponState = .Firing) (hc : w.CurrentFireMode = some c)
    (hcur : getFM w c = .ok cur) (hb : cur.bIsBusy = true)
    (ht : cur.CooldownTimerHandle = some t) (hrem : w.now < t.ExpireTime)
    (hstart : t.ExpireTime - t.Rate ≤ w.now) (hP : 0 < w.CooldownDelaysPutDownByPercent) :
    ∃ Delay : ℚ,
      Delay = (t.ExpireTime - t.Rate) + (t.Rate * w.CooldownDelaysPutDownByPercent -
        (if w.bReducePutDownDelayByPutDownTime then w.PutDownTime else 0)) - w.now ∧
      (0 < Delay → RequestPutDown (n + 1) w = .ok { w with
        PutDownDelayTimerHandle := some ⟨Delay, w.now + Delay, .RequestPutDown⟩ }) ∧
      (Delay ≤ 0 → RequestPutDown (n + 1) w = PutDown n 1 w) ∧
      (t.ExpireTime - t.Rate = w.now → w.bReducePutDownDelayByPutDownTime = false →
        Delay = w.CooldownDelaysPutDownByPercent * (t.ExpireTime - w.now)) := by
  have hD := FiringPutDownDelay_running w cur t hb ht hrem hstart hP
  refine ⟨_, rfl, fun hpos => ?_, fun hle => ?_, fun h0 hr => ?_⟩
  · rw [← hD] at hpos ⊢
    have hpos' : FiringPutDownDelay w cur > 0 := hpos
    simp only [RequestPutDown, hs, hc, hcur, Run.bind_ok, if_pos hpos', SetTimer, Run.pure_eq]
  · rw [← hD] at hle
    have hle' : ¬ FiringPutDownDelay w cur > 0 := not_lt.mpr hle
    simp only [RequestPutDown, hs, hc, hcur, Run.bind_ok, if_neg hle']
  · rw [hr]
    simp only [Bool.false_eq_true, if_false]
    have : t.Rate = t.ExpireTime - w.now := by linarith
    rw [this]; ring

/-- C15 at the start of a cooldown of 0.4 s with
`CooldownDelaysPutDownByPercent = 0.5` : the put-down is put off by 0.2 s, the
weapon stays `Firing`, and the re-run of `RequestPutDown` 0.2 s later puts the
weapon down. -/
theorem C15_witness :
    RequestPutDown 1 shortCooldownWorld = .ok { shortCooldownWorld with
        PutDownDelayTimerHandle := some ⟨1/5, 1 + 1/5, .RequestPutDown⟩ } ∧
      (run callDepth [.RequestPutDown, .Advance (1/5), .Fire .PutDownDelay]
          shortCooldownWorld).toOption.map (fun w => (w.WeaponState, w.log)) =
        some (.PutDown, [(6/5, .OnWeaponStateChanged .PutDown), (6/5, .StopFire 0)]) := by
  obtain ⟨D, hD, h1, _, h3⟩ := C15_put_down_delay_while_Firing 0 shortCooldownWorld 0
    shortCooldownFireMode ⟨2/5, 1 + 2/5, .CooldownTimer 0⟩ (by decide) (by decide) (by decide!)
    (by decide) rfl (by decide!) (by decide!) (by decide!)
  have hval : D = 1/5 := by
    rw [h3 (by decide!) (by decide)]; decide!
  subst hval
  exact ⟨h1 (by decide!), by decide!⟩

/-- C15 as stated fails: 0.6 s into a cooldown of one second, with 0.4 s
remaining and `CooldownDelaysPutDownByPercent = 0.5`, half of the cooldown has
elapsed and `RequestPutDown()` puts the weapon down at once: no put-down is
scheduled and the state is `PutDown`, not `Firing`. -/
theorem C15_counterexample :
    lateCooldownWorld.WeaponState = .Firing ∧
      lateCooldownWorld.CooldownDelaysPutDownByPercent = 1/2 ∧
      GetTimeUntilIdle_Implementation lateCooldownWorld lateCooldownFireMode = 2/5 ∧
      (RequestPutDown callDepth lateCooldownWorld).toOption.map
          (fun w => (w.WeaponState, w.PutDownDelayTimerHandle, w.SwapAnimTimerHandle, w.log)) =
        some (.PutDown, none, some ⟨3/10, 8/5 + 3/10, .PutDownCallback⟩,
          [(8/5, .OnWeaponStateChanged .PutDown), (8/5, .StopFire 0)]) := by
  decide!

/-! ### C16 -/

theorem TryStartFire_outOfAmmo (n : Nat) (w : World) (i : Nat) (hs : w.WeaponState = .Idle)
    (ha : w.AmmoCount ≤ 0) : TryStartFire (n + 1) i w = .ok (afterOutOfAmmo w i) := by
  have hno : ¬ (HasEnoughAmmoFor w i = true) := by
    simp [HasEnoughAmmoFor]; omega
  simp only [TryStartFire, hs, if_true, if_neg hno, emit, SetTimer, Run.pure_eq, afterOutOfAmmo]
  norm_num

theorem holdFire_outOfAmmo (n : Nat) (i : Nat) (k : Nat) :
    ∀ w : World, w.WeaponState = .Idle → w.AmmoCount ≤ 0 → validFM w i = true →
      ∃ w', run (n + 2) (holdFire i k) w = .ok w' ∧ w'.FireModes = w.FireModes ∧
        w'.WeaponState = .Idle ∧ w'.AmmoCount = w.AmmoCount ∧ w'.now = w.now + k / 10 ∧
        w'.log = w.log ++ (List.range k).map
          (fun (j : Nat) => (w.now + (j : ℚ) / 10, Effect.OutOfAmmoSound)) := by
  induction k with
  | zero =>
    intro w hs _ _
    exact ⟨w, rfl, rfl, hs, rfl, by simp, by simp⟩
  | succ k ih =>
    intro w hs ha hv
    have hfm : ∃ fm, w.FireModes[i]? = some (some fm) := by
      unfold validFM at hv
      split at hv
      · next fm h => exact ⟨fm, h⟩
      · cases hv
    obtain ⟨fm, hfm⟩ := hfm
    have h1 : RequestStartFire (n + 2) i w = .ok (afterOutOfAmmo { w with
        DesiredFireModes := i :: w.DesiredFireModes.filter (fun j => j ≠ i) } i) := by
      simp only [RequestStartFire, hfm]
      exact TryStartFire_outOfAmmo n _ i hs ha
    obtain ⟨w', hrun, hf, hs', ha', hnow, hlog⟩ := ih
      { afterOutOfAmmo { w with
          DesiredFireModes := i :: w.DesiredFireModes.filter (fun j => j ≠ i) } i with
        now := w.now + 1/10 } hs ha hv
    refine ⟨w', ?_, hf, hs', ha', ?_, ?_⟩
    · have hge : (1/10 : ℚ) ≥ 0 := by norm_num
      have hnd : ¬ (w.now + 1/2 ≤ w.now + 1/10) := by
        intro h; linarith
      simp only [holdFire, run, step, h1, Run.bind_ok, if_pos hge, Run.pure_eq, readHandle,
        afterOutOfAmmo, if_neg hnd]
      exact hrun
    · rw [hnow]; push_cast; ring
    · rw [hlog, List.range_succ_eq_map, List.map_cons, List.map_map]
      simp only [afterOutOfAmmo, List.append_assoc, List.singleton_append, Nat.cast_zero,
        zero_div, add_zero]
      congr 2
      apply List.map_congr_left
      intro j _
      simp only [Function.comp, Nat.cast_succ]
      congr 1
      ring

/-- C16, as amended: with the weapon `Idle` and no ammo.  (1) Every
`RequestStartFire(i)` for a valid index is itself an out-of-ammo start attempt:
it queues the fire mode, plays the cue and arms the retry timer for 0.5 s; no
fire mode is touched.  (2) The retry lambda, run while the fire mode heads the
desired list, is such an attempt too: the timer-driven retries are 0.5 s apart.
(3) With requests every 0.1 s the fire mode is never started, the cue is played
at every request, 0.1 s apart, and the retry timer, re-armed before it is due,
never runs. -/
theorem C16_out_of_ammo_attempts (n : Nat) (w : World) (i : Nat)
    (hs : w.WeaponState = .Idle) (ha : w.AmmoCount ≤ 0) (hv : validFM w i = true) :
    RequestStartFire (n + 2) i w = .ok (afterOutOfAmmo { w with
        DesiredFireModes := i :: w.DesiredFireModes.filter (fun j => j ≠ i) } i) ∧
    (w.DesiredFireModes.head? = some i →
      RetryStartFire (n + 1) i w = .ok (afterOutOfAmmo w i)) ∧
    (∀ k, ∃ w', run (n + 2) (holdFire i k) w = .ok w' ∧ w'.FireModes = w.FireModes ∧
      w'.WeaponState = .Idle ∧ w'.AmmoCount = w.AmmoCount ∧ w'.now = w.now + k / 10 ∧
      w'.log = w.log ++ (List.range k).map
        (fun (j : Nat) => (w.now + (j : ℚ) / 10, Effect.OutOfAmmoSound))) := by
  refine ⟨?_, fun hh => ?_, fun k => holdFire_outOfAmmo n i k w hs ha hv⟩
  · unfold validFM at hv
    split at hv
    · next fm hfm =>
      simp only [RequestStartFire, hfm]
      exact TryStartFire_outOfAmmo n _ i hs ha
    · cases hv
  · unfold RetryStartFire
    cases hd : w.DesiredFireModes with
    | nil => rw [hd] at hh; cases hh
    | cons d rest =>
      rw [hd] at hh
      simp only [List.head?_cons, Option.some.injEq] at hh
      simp only [hh, if_true]
      exact TryStartFire_outOfAmmo n w i hs ha

/-- C16 on the idle example weapon without ammo: the first request plays the
cue and arms the retry for 0.5 s. -/
theorem C16_witness :
    RequestStartFire 2 0 outOfAmmoWorld = .ok { outOfAmmoWorld with
      DesiredFireModes := [0]
      log := [(0, .OutOfAmmoSound)]
      RetryStartFireTimerHandle := some ⟨1/2, 0 + 1/2, .RetryStartFire 0⟩ } :=
  (C16_out_of_ammo_attempts 0 outOfAmmoWorld 0 (by decide) (by decide) (by decide)).1

/-- C16 as stated fails: with `RequestStartFire(0)` every 0.1 s on the idle
weapon without ammo, the out-of-ammo cue is played six times within 0.5 s, at
every request, and the fire mode is never busy. -/
theorem C16_counterexample :
    (run callDepth (holdFire 0 6) outOfAmmoWorld).toOption.map
        (fun w => (w.log, w.FireModes.map (Option.map FireMode.bIsBusy))) =
      some ([(0, .OutOfAmmoSound), (1/10, .OutOfAmmoSound), (1/5, .OutOfAmmoSound),
          (3/10, .OutOfAmmoSound), (2/5, .OutOfAmmoSound), (1/2, .OutOfAmmoSound)],
        [some false]) := by
  decide!

/-! ### C19 -/

/-- C19: the ammo changes only by an accepted authoritative shot, and then by
one round at most.  (1) Whatever `ServerFire_Implementation` returns, the ammo
is the ammo before or one less.  (2) On the authority an accepted request
(`Delay ≤ 0`) that holds the vectors its shot callback reads returns, with one
round less when `BasicInterface` is bound and the fire mode is hitscan or has a
projectile class, and with the ammo as it was otherwise; an accepted request
that holds fewer vectors than its shot callback reads faults at the index,
before `ConsumeAmmo`.  (3) A request that is dropped or rescheduled
(`Delay > 0`) leaves the ammo as it was.  (4) `StartFire()` on a client and
(5) the handling of either broadcast leave the ammo as it was. -/
theorem C19_ammo_consumed_once_per_accepted_shot (n : Nat) (w : World) (i : Nat)
    (fm : FireMode) (d : ℚ) (hfm : getFM w i = .ok fm) (hd : ServerFireDelay w i fm = .ok d) :
    (∀ m info w', ServerFire_Implementation m i info w = .ok w' →
      w'.AmmoCount = w.AmmoCount ∨ w'.AmmoCount = w.AmmoCount - 1) ∧
    (d ≤ 0 → w.NetModeClient = false → ∀ info,
      ((ReadsVectors fm = true → 2 ≤ info.Vectors.length) →
        ∃ w', ServerFire_Implementation (n + 4) i info w = .ok w' ∧
          w'.AmmoCount = w.AmmoCount -
            (if fm.BasicInterface = true ∧ (fm.bIsHitscan = true ∨ fm.ProjectileClass = true)
              then 1 else 0)) ∧
      (ReadsVectors fm = true → info.Vectors.length < 2 →
        ServerFire_Implementation (n + 4) i info w = .error .OutOfRange)) ∧
    (0 < d → ∀ info, ∃ w', ServerFire_Implementation (n + 1) i info w = .ok w' ∧
      w'.AmmoCount = w.AmmoCount) ∧
    (w.NetModeClient = true → ∀ m w', StartFire_Implementation m i w = .ok w' →
      w'.AmmoCount = w.AmmoCount) ∧
    (∀ w', MulticastFired_Implementation w i = .ok w' → w'.AmmoCount = w.AmmoCount) ∧
    (∀ h w', MulticastFiredHitscan_Implementation w i h = .ok w' →
      w'.AmmoCount = w.AmmoCount) := by
  refine ⟨fun m info w' h => ?_, fun hle hauth info => ?_, fun hpos info => ?_,
    fun hcl m w' h => ?_, fun w' h => ?_, fun hi w' h => ?_⟩
  · obtain ⟨_, h1, h2⟩ := ServerFire_Implementation_oneRound m i info w w' h
    omega
  · refine ⟨fun hv => ⟨_, ServerFire_accept n w i info fm d hfm hd hle hauth hv, ?_⟩,
      fun hr hs => ServerFire_short n w i info fm d hfm hd hle hr hs⟩
    have ha := afterSetBusyTrue_ammo w i fm
    cases fm.bIsHitscan <;> cases fm.BasicInterface <;> cases fm.ProjectileClass <;>
      simp [setFM, emit, ConsumeAmmo, ha]
  · by_cases hgt : d > min (1/5) (fm.FireInterval / 2)
    · exact ⟨_, ServerFire_drop n w i info fm d hfm hd hpos hgt, rfl⟩
    · exact ⟨_, ServerFire_resched n w i info fm d hfm hd hpos (not_lt.mp hgt), rfl⟩
  · exact (StartFire_Implementation_oneRound m i w w' h).2 hcl
  · exact (MulticastFired_Implementation_sameStock w w' i h).2
  · exact (MulticastFiredHitscan_Implementation_sameStock w w' i hi h).2

/-- C19 on the idle example weapon with five rounds: the accepted hitscan shot
leaves four. -/
theorem C19_witness :
    ∃ w', ServerFire_Implementation 4 0 shotA idleWorld = .ok w' ∧ w'.AmmoCount = 5 - 1 := by
  obtain ⟨w', hw', ha⟩ := ((C19_ammo_consumed_once_per_accepted_shot 0 idleWorld 0 exFireMode 0
    (by decide!) (by decide!)).2.1 (by decide!) (by decide) shotA).1 (fun _ => by decide)
  exact ⟨w', hw', by rw [ha]; decide⟩

/-! ### What a call of a fire mode leaves related -/

theorem LocalConfirmFired_stable {R : World → World → Prop} (hR : FireStable R)
    (w w' : World) (i : Nat) (h : LocalConfirmFired w i = .ok w') : R w w' := by
  unfold LocalConfirmFired at h
  cases hx : getFM w i with
  | error e => simp [hx, Run.bind_error] at h
  | ok fm =>
    simp only [hx, Run.bind_ok] at h
    split at h
    · split at h
      · cases Run.ok_inj h; exact hR.onSetFM _ _ _
      · cases Run.ok_inj h; exact hR.same _
    · cases Run.ok_inj h; exact hR.same _

theorem MulticastFired_Implementation_stable {R : World → World → Prop} (hR : FireStable R)
    (w w' : World) (i : Nat) (h : MulticastFired_Implementation w i = .ok w') : R w w' := by
  unfold MulticastFired_Implementation at h
  cases hx : getFM w i with
  | error e => simp [hx, Run.bind_error] at h
  | ok fm =>
    simp only [hx, Run.bind_ok] at h
    split at h
    · split at h
      · exact LocalConfirmFired_stable hR w w' i h
      · split at h
        · cases Run.ok_inj h; exact hR.onEmit _ _
        · cases Run.ok_inj h; exact hR.same _
    · cases Run.ok_inj h; exact hR.same _

theorem MulticastFiredHitscan_Implementation_stable {R : World → World → Prop}
    (hR : FireStable R) (w w' : World) (i : Nat) (hi : FHitscanVisualInfo)
    (h : MulticastFiredHitscan_Implementation w i hi = .ok w') : R w w' := by
  unfold MulticastFiredHitscan_Implementation at h
  cases hx : getFM w i with
  | error e => simp [hx, Run.bind_error] at h
  | ok fm =>
    simp only [hx, Run.bind_ok] at h
    split at h
    · split at h
      · exact LocalConfirmFired_stable hR w w' i h
      · split at h
        · cases Run.ok_inj h
          exact hR.chain _ _ _ (hR.onEmit _ _) (hR.onEmit _ _)
        · cases Run.ok_inj h; exact hR.same _
    · cases Run.ok_inj h; exact hR.same _

theorem MulticastFired_stable {R : World → World → Prop} (hR : FireStable R)
    (w w' : World) (i : Nat) (h : MulticastFired w i = .ok w') : R w w' :=
  hR.chain _ _ _ (hR.onEmit w (.MulticastFired i))
    (MulticastFired_Implementation_stable hR (emit w (.MulticastFired i)) w' i h)

theorem MulticastFiredHitscan_stable {R : World → World → Prop} (hR : FireStable R)
    (w w' : World) (i : Nat) (hi : FHitscanVisualInfo)
    (h : MulticastFiredHitscan w i hi = .ok w') : R w w' :=
  hR.chain _ _ _ (hR.onEmit w (.MulticastFiredHitscan i hi))
    (MulticastFiredHitscan_Implementation_stable hR (emit w (.MulticastFiredHitscan i hi)) w' i
      hi h)

/-- Whatever `ServerFire_Implementation` returns is related to the world it
was called in. -/
theorem ServerFire_Implementation_stable {R : World → World → Prop} (hR : FireStable R)
    (n : Nat) (i : Nat) (info : FSimulatedShotInfo)
    (w w' : World) (h : ServerFire_Implementation n i info w = .ok w') : R w w' := by
  match n with
  | 0 => simp [ServerFire_Implementation] at h
  | n + 1 =>
    simp only [ServerFire_Implementation] at h
    cases hx : getFM w i with
    | error e => simp [hx, Run.bind_error] at h
    | ok fm =>
      simp only [hx, Run.bind_ok] at h
      cases hd : ServerFireDelay w i fm with
      | error e => simp [hd, Run.bind_error] at h
      | ok d =>
        simp only [hd, Run.bind_ok] at h
        by_cases hpos : d > 0
        · simp only [if_pos hpos] at h
          split at h
          · cases Run.ok_inj h; exact hR.same _
          · cases Run.ok_inj h; exact hR.onSetFM _ _ _
        · simp only [if_neg hpos] at h
          cases hb : SetBusy n true i w with
          | error e => simp [hb, Run.bind_error] at h
          | ok w1 =>
            simp only [hb, Run.bind_ok] at h
            have hw1 := SetBusy_true_ok n w w1 i fm hx hb
            have hf1 : R w w1 := by rw [hw1]; exact hR.onBusy w i fm
            generalize hS : (if fm.bIsHitscan = true then do
                let (w, HitscanInfo) ← (if fm.BasicInterface = true then
                    AuthorityHitscanShot_Implementation (emit w1 (.AuthorityHitscanShot i info))
                      i info
                  else pure (w1, default) : Run (World × FHitscanVisualInfo))
                MulticastFiredHitscan w i HitscanInfo
              else do
                let w ← (if fm.BasicInterface = true then
                    AuthorityShot_Implementation (emit w1 (.AuthorityShot i info)) i info
                  else pure w1 : Run World)
                MulticastFired w i : Run World) = S at h
            have hf2 : ∀ w2, S = .ok w2 → R w1 w2 := by
              intro w2 hS2
              rw [← hS] at hS2
              split at hS2
              · by_cases hbi : fm.BasicInterface = true
                · rcases AuthorityHitscanShot_cases (emit w1 (.AuthorityHitscanShot i info)) i info
                    with hc | hc
                  · simp only [hbi, if_true, hc, Run.bind_ok] at hS2
                    exact hR.chain _ _ _ (hR.chain _ _ _ (hR.onEmit _ _) (hR.onConsume _ _))
                      (MulticastFiredHitscan_stable hR _ _ _ _ hS2)
                  · simp [hbi, hc, Run.bind_error] at hS2
                · simp only [hbi, Bool.false_eq_true, if_false, Run.pure_eq, Run.bind_ok] at hS2
                  exact MulticastFiredHitscan_stable hR _ _ _ _ hS2
              · by_cases hbi : fm.BasicInterface = true
                · cases hg : getFM (emit w1 (.AuthorityShot i info)) i with
                  | error e =>
                    simp [hbi, AuthorityShot_Implementation, hg, Run.bind_error] at hS2
                  | ok fm1 =>
                    rcases AuthorityShot_cases _ i info fm1 hg with hc | hc
                    · simp only [hbi, if_true, hc, Run.bind_ok] at hS2
                      split at hS2
                      · exact hR.chain _ _ _ (hR.chain _ _ _ (hR.onEmit _ _) (hR.onConsume _ _))
                          (MulticastFired_stable hR _ _ _ hS2)
                      · exact hR.chain _ _ _ (hR.onEmit _ _) (MulticastFired_stable hR _ _ _ hS2)
                    · simp [hbi, hc, Run.bind_error] at hS2
                · simp only [hbi, Run.pure_eq, Run.bind_ok] at hS2
                  exact MulticastFired_stable hR _ _ _ hS2
            cases S with
            | error e => simp [Run.bind_error] at h
            | ok w2 =>
              simp only [Run.bind_ok] at h
              cases hg2 : getFM w2 i with
              | error e => simp [hg2, Run.bind_error] at h
              | ok fm2 =>
                simp only [hg2, Run.bind_ok, Run.pure_eq] at h
                cases Run.ok_inj h
                exact hR.chain _ _ _ (hR.chain _ _ _ hf1 (hf2 w2 rfl)) (hR.onSetFM _ _ _)

theorem StartFire_simulate_stable {R : World → World → Prop} (hR : FireStable R)
    (w : World) (i : Nat) (fm : FireMode) : R w (StartFire_simulate w i fm).1 := by
  unfold StartFire_simulate
  split
  · split
    · exact hR.chain _ _ _ (hR.chain _ _ _ (hR.onEmit _ _) (hR.onEmit _ _)) (hR.onEmit _ _)
    · exact hR.chain _ _ _ (hR.onEmit _ _) (hR.onEmit _ _)
  · exact hR.same _

theorem StartFire_localCooldown_stable {R : World → World → Prop} (hR : FireStable R)
    (w : World) (i : Nat) (fm : FireMode) : R w (StartFire_localCooldown w i fm) := by
  unfold StartFire_localCooldown
  split
  · dsimp only
    split
    · exact hR.onSetFM _ _ _
    · exact hR.chain _ _ _ (hR.onSetFM w i _) (hR.onTick _ _)
  · exact hR.same _

/-- Whatever `StartFire_Implementation` returns is related to the world it was
called in. -/
theorem StartFire_Implementation_stable {R : World → World → Prop} (hR : FireStable R)
    (n : Nat) (i : Nat) (w w' : World)
    (h : StartFire_Implementation n i w = .ok w') : R w w' := by
  match n with
  | 0 => simp [StartFire_Implementation] at h
  | n + 1 =>
    simp only [StartFire_Implementation] at h
    cases hb : SetBusy n true i w with
    | error e => simp [hb, Run.bind_error] at h
    | ok w1 =>
      simp only [hb, Run.bind_ok] at h
      cases hx0 : getFM w i with
      | error e =>
        exfalso
        match n with
        | 0 => simp [SetBusy] at hb
        | n + 1 => simp [SetBusy, hx0, Run.bind_error] at hb
      | ok fm0 =>
        have hw1 := SetBusy_true_ok n w w1 i fm0 hx0 hb
        have hf1 : R w w1 := by rw [hw1]; exact hR.onBusy w i fm0
        cases hx : getFM w1 i with
        | error e => simp [hx, Run.bind_error] at h
        | ok fm =>
          simp only [hx, Run.bind_ok] at h
          have hf2 := StartFire_simulate_stable hR w1 i fm
          have hf3 := StartFire_localCooldown_stable hR (StartFire_simulate w1 i fm).1 i fm
          have hf := hR.chain _ _ _ hf1 (hR.chain _ _ _ hf2 hf3)
          match n with
          | 0 => simp [SetBusy] at hb
          | n + 1 =>
            simp only [ServerFire] at h
            split at h
            · cases Run.ok_inj h
              exact hR.chain _ _ _ hf (hR.onEmit _ _)
            · exact hR.chain _ _ _ hf (ServerFire_Implementation_stable hR _ _ _ _ _ h)

theorem SamePutDownDelay_stable : FireStable SamePutDownDelay where
  same := fun _ => rfl
  chain := fun _ _ _ h1 h2 => Eq.trans h2 h1
  onEmit := fun _ _ => rfl
  onSetFM := fun _ _ _ => rfl
  onConsume := fun _ _ => rfl
  onBusy := fun w i fm => by
    unfold SamePutDownDelay afterSetBusyTrue
    split
    · rfl
    · dsimp only
      split
      · split <;> rfl
      · rfl
  onTick := fun _ _ => rfl

/-! ### Put-down and bring-up in closed form -/

theorem validFM_iff (w : World) (i : Nat) :
    validFM w i = true ↔ ∃ fm, getFM w i = .ok fm := by
  simp only [getFM_eq_ok_iff]
  unfold validFM
  split
  · next fm h => simp [h]
  · next h =>
    constructor
    · intro h'; cases h'
    · rintro ⟨fm, hfm⟩
      exact absurd hfm (h fm)

theorem afterEnter_state (s : EWeaponState) (w : World) : (afterEnter s w).WeaponState = s := by
  unfold afterEnter
  split
  · rfl
  · next h => simp at h; exact h.symm

theorem afterEnter_keeps (s : EWeaponState) (w : World) :
    (afterEnter s w).now = w.now ∧ (afterEnter s w).FireModes = w.FireModes ∧
      (afterEnter s w).CurrentFireMode = w.CurrentFireMode ∧
      (afterEnter s w).DesiredFireModes = w.DesiredFireModes ∧
      (afterEnter s w).BringUpTime = w.BringUpTime ∧
      (afterEnter s w).PutDownTime = w.PutDownTime ∧
      (afterEnter s w).SwapAnimTimerHandle = w.SwapAnimTimerHandle ∧
      (afterEnter s w).PutDownDelayTimerHandle = w.PutDownDelayTimerHandle := by
  unfold afterEnter
  split <;> exact ⟨rfl, rfl, rfl, rfl, rfl, rfl, rfl, rfl⟩

theorem afterStopAllFire_keeps (w : World) :
    (afterStopAllFire w).now = w.now ∧ (afterStopAllFire w).FireModes = w.FireModes ∧
      (afterStopAllFire w).CurrentFireMode = w.CurrentFireMode ∧
      (afterStopAllFire w).DesiredFireModes = [] ∧
      (afterStopAllFire w).BringUpTime = w.BringUpTime ∧
      (afterStopAllFire w).PutDownTime = w.PutDownTime ∧
      (afterStopAllFire w).SwapAnimTimerHandle = w.SwapAnimTimerHandle ∧
      (afterStopAllFire w).PutDownDelayTimerHandle = w.PutDownDelayTimerHandle ∧
      (afterStopAllFire w).WeaponState = w.WeaponState := by
  unfold afterStopAllFire
  split <;> exact ⟨rfl, rfl, rfl, rfl, rfl, rfl, rfl, rfl, rfl⟩

theorem StopAllFire_eq (w : World) (hcur : CurrentValid w) :
    StopAllFire w = .ok (afterStopAllFire w) := by
  unfold StopAllFire afterStopAllFire
  dsimp only
  split
  · next c hc =>
    have hc' : w.CurrentFireMode = some c := hc
    obtain ⟨fm, hfm⟩ := (validFM_iff w c).mp (hcur c hc')
    have hg := (getFM_eq_ok_iff w c fm).mp hfm
    simp only [StopFire, getFM, hg, Run.bind_ok, Run.pure_eq, hc']
  · next hc =>
    have hc' : w.CurrentFireMode = none := hc
    simp only [hc', Run.pure_eq]

theorem CurrentValid_afterEnter (s : EWeaponState) (w : World) (h : CurrentValid w) :
    CurrentValid (afterEnter s w) := by
  unfold afterEnter
  split
  · exact h
  · exact h

theorem CurrentValid_afterStopAllFire (w : World) (h : CurrentValid w) :
    CurrentValid (afterStopAllFire w) := by
  unfold afterStopAllFire
  split
  · exact h
  · exact h

/-- The source function `SetWeaponState` with the state assignment folded. -/
theorem SetWeaponState_eq (n : Nat) (s : EWeaponState) (w : World) :
    SetWeaponState (n + 1) s w =
      (match s with
      | .BringUp =>
        if (afterEnter s w).bLocallyControlled then
          match (afterEnter s w).OwnerDesiredFireModeNum with
          | d :: _ => RequestStartFire n d (afterEnter s w)
          | [] => pure (afterEnter s w)
        else pure (afterEnter s w)
      | .Idle =>
        if IsTimerActive (afterEnter s w).PutDownDelayTimerHandle then
          RequestPutDown n { afterEnter s w with PutDownDelayTimerHandle := none }
        else
          match (afterEnter s w).DesiredFireModes with
          | fm :: _ => TryStartFire n fm (afterEnter s w)
          | [] => pure (afterEnter s w)
      | .PutDown => StopAllFire (afterEnter s w)
      | .Inactive => StopAllFire (afterEnter s w)
      | _ => pure (afterEnter s w)) := by
  have hst := afterEnter_state s w
  unfold afterEnter at hst ⊢
  simp only [SetWeaponState]
  cases s <;> simp only [hst]

/-- Entering `PutDown` or `Inactive` is the state assignment followed by
`StopAllFire()`. -/
theorem SetWeaponState_down_eq (n : Nat) (s : EWeaponState) (w : World)
    (hs : s = .PutDown ∨ s = .Inactive) (hcur : CurrentValid w) :
    SetWeaponState (n + 1) s w = .ok (afterStopAllFire (afterEnter s w)) := by
  have h1 := StopAllFire_eq (afterEnter s w) (CurrentValid_afterEnter s w hcur)
  rw [SetWeaponState_eq]
  rcases hs with hs | hs <;> subst hs <;> exact h1

theorem PutDown_eq (n : Nat) (p : ℚ) (w : World) (hcur : CurrentValid w) :
    PutDown (n + 3) p w = .ok (afterPutDown p w) := by
  have hcur0 : CurrentValid { w with SwapAnimTimerHandle := none } := hcur
  have h1 := SetWeaponState_down_eq (n + 1) .PutDown _ (Or.inl rfl) hcur0
  have hc1 := CurrentValid_afterStopAllFire _ (CurrentValid_afterEnter .PutDown _ hcur0)
  have hs1 : (afterStopAllFire (afterEnter .PutDown
      { w with SwapAnimTimerHandle := none })).WeaponState = .PutDown := by
    rw [(afterStopAllFire_keeps _).2.2.2.2.2.2.2.2, afterEnter_state]
  simp only [PutDown, h1, Run.bind_ok, afterPutDown]
  split
  · rfl
  · simp only [PutDownCallback, hs1, if_true]
    exact SetWeaponState_down_eq n .Inactive _ (Or.inr rfl) hc1

theorem RequestStartFire_invalid (n : Nat) (w : World) (i : Nat) (hv : validFM w i = false) :
    RequestStartFire (n + 1) i w = .ok w := by
  unfold validFM at hv
  split at hv
  · cases hv
  · next hno =>
    unfold RequestStartFire
    split
    · next fm hfm => exact absurd hfm (hno fm)
    · rfl

/-- Entering `BringUp`, in closed form. -/
theorem SetWeaponState_BringUp_eq (n : Nat) (w : World) :
    SetWeaponState (n + 3) .BringUp w = .ok (afterBringUpEntry w) := by
  have hst := afterEnter_state .BringUp w
  rw [SetWeaponState_eq]
  unfold afterBringUpEntry
  dsimp only
  generalize afterEnter .BringUp w = w1 at hst
  split
  · split
    · next d rest hd =>
      have hni : ¬ (w1.WeaponState = .Idle) := by rw [hst]; decide
      by_cases hv : validFM w1 d = true
      · obtain ⟨fm, hfm⟩ := (validFM_iff w1 d).mp hv
        rw [getFM_eq_ok_iff] at hfm
        rw [if_pos hv]
        simp only [RequestStartFire, hfm, TryStartFire]
        rw [if_neg hni]
        rfl
      · rw [if_neg hv]
        exact (RequestStartFire_invalid (n + 1) w1 d (by simpa using hv))
    · rfl
  · rfl

theorem afterBringUpEntry_keeps (w : World) :
    (afterBringUpEntry w).WeaponState = .BringUp ∧ (afterBringUpEntry w).now = w.now ∧
      (afterBringUpEntry w).BringUpTime = w.BringUpTime ∧
      (afterBringUpEntry w).PutDownTime = w.PutDownTime ∧
      (afterBringUpEntry w).SwapAnimTimerHandle = w.SwapAnimTimerHandle ∧
      (afterBringUpEntry w).PutDownDelayTimerHandle = w.PutDownDelayTimerHandle ∧
      (afterBringUpEntry w).FireModes = w.FireModes ∧
      (afterBringUpEntry w).CurrentFireMode = w.CurrentFireMode := by
  have hst := afterEnter_state .BringUp w
  obtain ⟨h1, h2, h3, _, h5, h6, h7, h8⟩ := afterEnter_keeps .BringUp w
  unfold afterBringUpEntry
  dsimp only
  split
  · split
    · split
      · exact ⟨hst, h1, h5, h6, h7, h8, h2, h3⟩
      · exact ⟨hst, h1, h5, h6, h7, h8, h2, h3⟩
    · exact ⟨hst, h1, h5, h6, h7, h8, h2, h3⟩
  · exact ⟨hst, h1, h5, h6, h7, h8, h2, h3⟩

/-- The source function `BringUp` from a position that leaves time to run: the
weapon enters `BringUp` and the completion is armed for the rest of the
bring-up time. -/
theorem BringUp_eq (n : Nat) (p : ℚ) (w : World) (hpos : 0 < (1 - p) * w.BringUpTime) :
    BringUp (n + 3) p w = .ok { afterBringUpEntry { w with SwapAnimTimerHandle := none } with
      SwapAnimTimerHandle := some ⟨(1 - p) * w.BringUpTime, w.now + (1 - p) * w.BringUpTime,
        .BringUpCallback⟩ } := by
  have hAn : (afterBringUpEntry { w with SwapAnimTimerHandle := none }).now = w.now :=
    (afterBringUpEntry_keeps _).2.1
  have hAb : (afterBringUpEntry { w with SwapAnimTimerHandle := none }).BringUpTime
      = w.BringUpTime := (afterBringUpEntry_keeps _).2.2.1
  have hpos' : (1 - p) * w.BringUpTime > 0 := hpos
  simp only [BringUp, SetWeaponState_BringUp_eq, Run.bind_ok]
  generalize afterBringUpEntry { w with SwapAnimTimerHandle := none } = A at hAn hAb ⊢
  rw [hAb, hAn, if_pos hpos']
  simp only [SetTimer, if_pos hpos', Run.pure_eq]

/-- The source function `BringUp` from a position that leaves no time to run:
the completion is called at once. -/
theorem BringUp_at_once (n : Nat) (p : ℚ) (w : World) (hpos : (1 - p) * w.BringUpTime ≤ 0) :
    BringUp (n + 3) p w =
      BringUpCallback (n + 3) (afterBringUpEntry { w with SwapAnimTimerHandle := none }) := by
  have hAb : (afterBringUpEntry { w with SwapAnimTimerHandle := none }).BringUpTime
      = w.BringUpTime := (afterBringUpEntry_keeps _).2.2.1
  have hpos' : ¬ ((1 - p) * w.BringUpTime > 0) := not_lt.mpr hpos
  simp only [BringUp, SetWeaponState_BringUp_eq, Run.bind_ok]
  generalize afterBringUpEntry { w with SwapAnimTimerHandle := none } = A at hAb ⊢
  rw [hAb, if_neg hpos']

/-! ### A cancelled put-down delay stays cancelled -/

theorem TryStartFire_samePutDownDelay (m : Nat) (i : Nat) (w w' : World)
    (h : TryStartFire m i w = .ok w') : SamePutDownDelay w w' := by
  match m with
  | 0 => simp [TryStartFire] at h
  | m + 1 =>
    simp only [TryStartFire] at h
    split at h
    · split at h
      · exact StartFire_Implementation_stable SamePutDownDelay_stable m i w w' h
      · cases Run.ok_inj h; rfl
    · cases Run.ok_inj h; rfl

theorem RequestStartFire_samePutDownDelay (m : Nat) (i : Nat) (w w' : World)
    (h : RequestStartFire m i w = .ok w') : SamePutDownDelay w w' := by
  match m with
  | 0 => simp [RequestStartFire] at h
  | m + 1 =>
    simp only [RequestStartFire] at h
    split at h
    · have h1 := TryStartFire_samePutDownDelay m i _ w' h
      exact h1
    · cases Run.ok_inj h; rfl

theorem StopAllFire_samePutDownDelay (w w' : World) (h : StopAllFire w = .ok w') :
    SamePutDownDelay w w' := by
  unfold StopAllFire at h
  dsimp only at h
  split at h
  · next c hc =>
    unfold StopFire at h
    cases hx : getFM { w with DesiredFireModes := [] } c with
    | error e => simp [hx, Run.bind_error] at h
    | ok fm =>
      simp only [hx, Run.bind_ok] at h
      cases Run.ok_inj h; rfl
  · cases Run.ok_inj h; rfl

/-- Without a pending put-down delay, `SetWeaponState` arms none. -/
theorem SetWeaponState_noPutDownDelay (m : Nat) (s : EWeaponState) (w w' : World)
    (hp : w.PutDownDelayTimerHandle = none) (h : SetWeaponState m s w = .ok w') :
    w'.PutDownDelayTimerHandle = none := by
  match m with
  | 0 => simp [SetWeaponState] at h
  | m + 1 =>
    rw [SetWeaponState_eq] at h
    have hp1 : (afterEnter s w).PutDownDelayTimerHandle = none := by
      rw [(afterEnter_keeps s w).2.2.2.2.2.2.2]; exact hp
    cases s with
    | BringUp =>
      dsimp only at h
      split at h
      · split at h
        · exact (RequestStartFire_samePutDownDelay m _ _ w' h).trans hp1
        · cases Run.ok_inj h; exact hp1
      · cases Run.ok_inj h; exact hp1
    | Idle =>
      dsimp only at h
      rw [hp1] at h
      simp only [IsTimerActive, Option.isSome_none, Bool.false_eq_true, if_false] at h
      split at h
      · exact (TryStartFire_samePutDownDelay m _ _ w' h).trans hp1
      · cases Run.ok_inj h; exact hp1
    | PutDown => exact (StopAllFire_samePutDownDelay _ w' h).trans hp1
    | Inactive => exact (StopAllFire_samePutDownDelay _ w' h).trans hp1
    | Firing => cases Run.ok_inj h; exact hp1
    | Busy => cases Run.ok_inj h; exact hp1

theorem BringUpCallback_noPutDownDelay (m : Nat) (w w' : World)
    (hp : w.PutDownDelayTimerHandle = none) (h : BringUpCallback m w = .ok w') :
    w'.PutDownDelayTimerHandle = none := by
  unfold BringUpCallback at h
  split at h
  · split at h
    · next c hc =>
      cases hx : getFM w c with
      | error e => simp [hx, Run.bind_error] at h
      | ok cur =>
        simp only [hx, Run.bind_ok] at h
        split at h <;> exact SetWeaponState_noPutDownDelay m _ w w' hp h
    · exact SetWeaponState_noPutDownDelay m _ w w' hp h
  · cases Run.ok_inj h; exact hp

theorem BringUp_noPutDownDelay (m : Nat) (p : ℚ) (w w' : World)
    (hp : w.PutDownDelayTimerHandle = none) (h : BringUp m p w = .ok w') :
    w'.PutDownDelayTimerHandle = none := by
  unfold BringUp at h
  cases hx : SetWeaponState m .BringUp { w with SwapAnimTimerHandle := none } with
  | error e => simp [hx, Run.bind_error] at h
  | ok w1 =>
    simp only [hx, Run.bind_ok] at h
    have h1 := SetWeaponState_noPutDownDelay m .BringUp { w with SwapAnimTimerHandle := none }
      w1 hp hx
    split at h
    · cases Run.ok_inj h; exact h1
    · exact BringUpCallback_noPutDownDelay m w1 w' h1 h

/-! ### C22, C23 -/

theorem afterPutDown_keeps (p : ℚ) (w : World) :
    (afterPutDown p w).now = w.now ∧ (afterPutDown p w).FireModes = w.FireModes ∧
      (afterPutDown p w).CurrentFireMode = w.CurrentFireMode ∧
      (afterPutDown p w).DesiredFireModes = [] ∧
      (afterPutDown p w).BringUpTime = w.BringUpTime ∧
      (afterPutDown p w).PutDownTime = w.PutDownTime ∧
      (afterPutDown p w).PutDownDelayTimerHandle = w.PutDownDelayTimerHandle := by
  obtain ⟨a1, a2, a3, _, a5, a6, _, a8⟩ :=
    afterEnter_keeps .PutDown { w with SwapAnimTimerHandle := none }
  obtain ⟨b1, b2, b3, b4, b5, b6, _, b8, _⟩ :=
    afterStopAllFire_keeps (afterEnter .PutDown { w with SwapAnimTimerHandle := none })
  unfold afterPutDown
  dsimp only
  split
  · exact ⟨b1.trans a1, b2.trans a2, b3.trans a3, b4, b5.trans a5, b6.trans a6, b8.trans a8⟩
  · obtain ⟨c1, c2, c3, _, c5, c6, _, c8⟩ := afterEnter_keeps .Inactive
      (afterStopAllFire (afterEnter .PutDown { w with SwapAnimTimerHandle := none }))
    obtain ⟨d1, d2, d3, d4, d5, d6, _, d8, _⟩ := afterStopAllFire_keeps (afterEnter .Inactive
      (afterStopAllFire (afterEnter .PutDown { w with SwapAnimTimerHandle := none })))
    exact ⟨d1.trans (c1.trans (b1.trans a1)), d2.trans (c2.trans (b2.trans a2)),
      d3.trans (c3.trans (b3.trans a3)), d4, d5.trans (c5.trans (b5.trans a5)),
      d6.trans (c6.trans (b6.trans a6)), d8.trans (c8.trans (b8.trans a8))⟩

/-- A put-down that takes time leaves the weapon in `PutDown` with the
completion armed; one that takes none leaves it `Inactive`. -/
theorem afterPutDown_state (p : ℚ) (w : World) :
    (0 < p * w.PutDownTime → (afterPutDown p w).WeaponState = .PutDown ∧
      (afterPutDown p w).SwapAnimTimerHandle =
        some ⟨p * w.PutDownTime, w.now + p * w.PutDownTime, .PutDownCallback⟩) ∧
    (p * w.PutDownTime ≤ 0 → (afterPutDown p w).WeaponState = .Inactive ∧
      (afterPutDown p w).SwapAnimTimerHandle = none) := by
  obtain ⟨a1, _, _, _, _, a6, a7, _⟩ :=
    afterEnter_keeps .PutDown { w with SwapAnimTimerHandle := none }
  obtain ⟨b1, _, _, _, _, b6, b7, _, b9⟩ :=
    afterStopAllFire_keeps (afterEnter .PutDown { w with SwapAnimTimerHandle := none })
  have hs := afterEnter_state .PutDown { w with SwapAnimTimerHandle := none }
  have hpt : (afterStopAllFire (afterEnter .PutDown
      { w with SwapAnimTimerHandle := none })).PutDownTime = w.PutDownTime := b6.trans a6
  have hnow : (afterStopAllFire (afterEnter .PutDown
      { w with SwapAnimTimerHandle := none })).now = w.now := b1.trans a1
  constructor
  · intro hpos
    have hpos' : p * w.PutDownTime > 0 := hpos
    unfold afterPutDown
    dsimp only
    rw [hpt, hnow, if_pos hpos']
    exact ⟨b9.trans hs, by simp only [SetTimer, if_pos hpos']⟩
  · intro hle
    have hle' : ¬ (p * w.PutDownTime > 0) := not_lt.mpr hle
    unfold afterPutDown
    dsimp only
    rw [hpt, if_neg hle']
    obtain ⟨_, _, _, _, _, _, c7, _⟩ := afterEnter_keeps .Inactive
      (afterStopAllFire (afterEnter .PutDown { w with SwapAnimTimerHandle := none }))
    obtain ⟨_, _, _, _, _, _, d7, _, d9⟩ := afterStopAllFire_keeps (afterEnter .Inactive
      (afterStopAllFire (afterEnter .PutDown { w with SwapAnimTimerHandle := none })))
    exact ⟨d9.trans (afterEnter_state _ _), d7.trans (c7.trans (b7.trans a7))⟩

/-- C22: in state `Firing`, with `e` the time since the cooldown start of the
current fire mode, `r` its remaining cooldown and
`p = CooldownDelaysPutDownByPercent`.  (1) For `e ≥ 0`, `r > 0`, `p > 0` the
delay that `RequestPutDown()` computes is `p * (e + r) - e`, less `PutDownTime`
when `bReducePutDownDelayByPutDownTime` is set; (2) for `e ≥ 0` and `r ≤ 0` or
`p ≤ 0` it is `0`.  (3) A delay `> 0` leaves the weapon as it is, in `Firing`,
but for the put-down-delay timer, armed to run `RequestPutDown` after the
delay.  (4) A delay `≤ 0` is `PutDown(1)` at once, which, the current fire mode
being in place, enters `PutDown` and arms the completion for `PutDownTime`, or
ends `Inactive` when `PutDownTime ≤ 0`. -/
theorem C22_put_down_delay_formula (n : Nat) (w : World) (c : Nat) (cur : FireMode)
    (hs : w.WeaponState = .Firing) (hc : w.CurrentFireMode = some c)
    (hcur : getFM w c = .ok cur)
    (he : 0 ≤ TimeSince w (GetCooldownStartTime_Implementation w cur)) :
    (0 < GetTimeUntilIdle_Implementation w cur → 0 < w.CooldownDelaysPutDownByPercent →
      FiringPutDownDelay w cur =
        w.CooldownDelaysPutDownByPercent *
            (TimeSince w (GetCooldownStartTime_Implementation w cur) +
              GetTimeUntilIdle_Implementation w cur) -
          TimeSince w (GetCooldownStartTime_Implementation w cur) -
          (if w.bReducePutDownDelayByPutDownTime then w.PutDownTime else 0)) ∧
    (GetTimeUntilIdle_Implementation w cur ≤ 0 ∨ w.CooldownDelaysPutDownByPercent ≤ 0 →
      FiringPutDownDelay w cur = 0) ∧
    (0 < FiringPutDownDelay w cur →
      RequestPutDown (n + 1) w = .ok { w with
        PutDownDelayTimerHandle := some ⟨FiringPutDownDelay w cur,
          w.now + FiringPutDownDelay w cur, .RequestPutDown⟩ }) ∧
    (FiringPutDownDelay w cur ≤ 0 →
      RequestPutDown (n + 4) w = .ok (afterPutDown 1 w) ∧
      (0 < w.PutDownTime → (afterPutDown 1 w).WeaponState = .PutDown ∧
        (afterPutDown 1 w).SwapAnimTimerHandle =
          some ⟨w.PutDownTime, w.now + w.PutDownTime, .PutDownCallback⟩) ∧
      (w.PutDownTime ≤ 0 → (afterPutDown 1 w).WeaponState = .Inactive)) := by
  have he' : ¬ (TimeSince w (GetCooldownStartTime_Implementation w cur) < 0) := not_lt.mpr he
  refine ⟨fun hr hp => ?_, fun h => ?_, fun hpos => ?_, fun hle => ⟨?_, fun hP => ?_, fun hP => ?_⟩⟩
  · have h2 : GetTimeUntilIdle_Implementation w cur > 0 ∧ w.CooldownDelaysPutDownByPercent > 0 :=
      ⟨hr, hp⟩
    simp only [FiringPutDownDelay, if_neg he', if_pos h2]
    unfold TimeSince
    split <;> ring
  · have h2 : ¬ (GetTimeUntilIdle_Implementation w cur > 0 ∧
        w.CooldownDelaysPutDownByPercent > 0) := by
      rintro ⟨h1, h2⟩
      rcases h with h | h <;> linarith
    simp only [FiringPutDownDelay, if_neg he', if_neg h2]
  · have hpos' : FiringPutDownDelay w cur > 0 := hpos
    simp only [RequestPutDown, hs, hc, hcur, Run.bind_ok, if_pos hpos', SetTimer, Run.pure_eq]
  · have hle' : ¬ FiringPutDownDelay w cur > 0 := not_lt.mpr hle
    have hv : CurrentValid w := by
      intro c' hc'
      rw [hc] at hc'
      cases hc'
      exact (validFM_iff w c).mpr ⟨cur, hcur⟩
    simp only [RequestPutDown, hs, hc, hcur, Run.bind_ok, if_neg hle']
    exact PutDown_eq n 1 w hv
  · have := (afterPutDown_state 1 w).1 (by simpa using hP)
    simpa using this
  · exact ((afterPutDown_state 1 w).2 (by simpa using hP)).1

/-- C22 at the start of a cooldown of 0.4 s with
`CooldownDelaysPutDownByPercent = 0.5` : the delay is `0.5 * (0 + 0.4) - 0`. -/
theorem C22_witness :
    FiringPutDownDelay shortCooldownWorld shortCooldownFireMode = 1/2 * (0 + 2/5) - 0 - 0 ∧
      RequestPutDown 1 shortCooldownWorld = .ok { shortCooldownWorld with
        PutDownDelayTimerHandle := some ⟨1/5, 1 + 1/5, .RequestPutDown⟩ } := by
  have h := C22_put_down_delay_formula 0 shortCooldownWorld 0 shortCooldownFireMode
    (by decide) (by decide) (by decide!) (by decide!)
  have h1 := h.1 (by decide!) (by decide!)
  have hv : FiringPutDownDelay shortCooldownWorld shortCooldownFireMode = 1/5 := by decide!
  have h3 := h.2.2.1 (by rw [hv]; norm_num)
  rw [hv] at h3
  exact ⟨by rw [hv]; norm_num, h3⟩

/-- C23: on every entry to `Idle`, with `w1` the weapon after the state
assignment.  (1) If the put-down-delay timer is armed, it is cleared and the
call is `PutDown(1)`; with the current fire mode in place the weapon ends in
`PutDown` with the completion armed for `PutDownTime`, or `Inactive` when
`PutDownTime ≤ 0`, no fire mode is touched and the desired list is empty.
(2) Otherwise, if the desired list is `fm :: _`, the call is `TryStartFire(fm)`.
(3) Otherwise the call returns `w1`. -/
theorem C23_Idle_entry_actions (n : Nat) (w : World) :
    (IsTimerActive w.PutDownDelayTimerHandle = true →
      (∀ m, SetWeaponState (m + 2) .Idle w =
        PutDown m 1 { afterEnter .Idle w with PutDownDelayTimerHandle := none }) ∧
      (CurrentValid w →
        ∃ w', SetWeaponState (n + 5) .Idle w = .ok w' ∧
          w'.PutDownDelayTimerHandle = none ∧ w'.FireModes = w.FireModes ∧
          w'.DesiredFireModes = [] ∧
          (0 < w.PutDownTime → w'.WeaponState = .PutDown ∧ w'.SwapAnimTimerHandle =
            some ⟨w.PutDownTime, w.now + w.PutDownTime, .PutDownCallback⟩) ∧
          (w.PutDownTime ≤ 0 → w'.WeaponState = .Inactive))) ∧
    (IsTimerActive w.PutDownDelayTimerHandle = false →
      ∀ fm rest, w.DesiredFireModes = fm :: rest →
        ∀ m, SetWeaponState (m + 1) .Idle w = TryStartFire m fm (afterEnter .Idle w)) ∧
    (IsTimerActive w.PutDownDelayTimerHandle = false → w.DesiredFireModes = [] →
      ∀ m, SetWeaponState (m + 1) .Idle w = .ok (afterEnter .Idle w)) := by
  obtain ⟨k1, k2, k3, k4, _, k6, _, k8⟩ := afterEnter_keeps .Idle w
  have hst := afterEnter_state .Idle w
  have hcall : IsTimerActive w.PutDownDelayTimerHandle = true →
      ∀ m, SetWeaponState (m + 2) .Idle w =
        PutDown m 1 { afterEnter .Idle w with PutDownDelayTimerHandle := none } := by
    intro ha m
    rw [SetWeaponState_eq]
    dsimp only
    rw [k8, if_pos ha]
    simp only [RequestPutDown, hst]
  refine ⟨fun ha => ⟨hcall ha, fun hv => ?_⟩, fun ha fm rest hd m => ?_, fun ha hd m => ?_⟩
  · have hv1 : CurrentValid { afterEnter .Idle w with PutDownDelayTimerHandle := none } :=
      CurrentValid_afterEnter .Idle w hv
    obtain ⟨p1, p2, _, p4, _, _, p7⟩ :=
      afterPutDown_keeps 1 { afterEnter .Idle w with PutDownDelayTimerHandle := none }
    have hstate := afterPutDown_state 1 { afterEnter .Idle w with PutDownDelayTimerHandle := none }
    refine ⟨_, (hcall ha (n + 3)).trans (PutDown_eq n 1 _ hv1), p7, p2.trans k2, p4,
      fun hP => ?_, fun hP => ?_⟩
    · have hP1 : 0 < 1 * (afterEnter .Idle w).PutDownTime := by
        rw [k6]; simpa using hP
      have := hstate.1 hP1
      have hnow : ({ afterEnter .Idle w with PutDownDelayTimerHandle := none } : World).now
          = w.now := k1
      have hpt : ({ afterEnter .Idle w with PutDownDelayTimerHandle := none } : World).PutDownTime
          = w.PutDownTime := k6
      rw [hnow, hpt] at this
      simpa using this
    · have hP1 : 1 * (afterEnter .Idle w).PutDownTime ≤ 0 := by
        rw [k6]; simpa using hP
      exact (hstate.2 hP1).1
  · have ha' : ¬ (IsTimerActive w.PutDownDelayTimerHandle = true) := by simp [ha]
    rw [SetWeaponState_eq]
    dsimp only
    rw [k8, if_neg ha', k4, hd]
  · have ha' : ¬ (IsTimerActive w.PutDownDelayTimerHandle = true) := by simp [ha]
    rw [SetWeaponState_eq]
    dsimp only
    rw [k8, if_neg ha', k4, hd]
    rfl

/-- C23 at a firing weapon that turns idle with a put-down pending and a fire
mode desired: the put-down is executed, the fire mode is not started. -/
theorem C23_witness :
    ∃ w', SetWeaponState 5 .Idle idleEntryWorld = .ok w' ∧
      w'.PutDownDelayTimerHandle = none ∧ w'.FireModes = [some exFireMode] ∧
      w'.DesiredFireModes = [] ∧ w'.WeaponState = .PutDown ∧
      w'.SwapAnimTimerHandle = some ⟨3/10, 9/10 + 3/10, .PutDownCallback⟩ := by
  obtain ⟨w', h1, h2, h3, h4, h5, _⟩ :=
    (C23_Idle_entry_actions 0 idleEntryWorld).1 (by decide) |>.2 (by
      intro c hc; cases hc)
  obtain ⟨h6, h7⟩ := h5 (by decide!)
  exact ⟨w', h1, h2, h3, h4, h6, h7⟩

/-! ### C24, C25 -/

/-- C24: in state `Idle` without enough ammo for the fire mode.
(1) `TryStartFire` plays the cue and arms the retry timer for 0.5 s; the fire
modes are as before.  (2) When the retry timer is due, the timer manager
invalidates the handle and runs the retry lambda.  (3) The lambda is
`TryStartFire` when the desired list starts with that fire mode, and
(4) returns the world as it is otherwise: no fire mode is started and, the
handle being invalidated, no further retry is armed. -/
theorem C24_out_of_ammo_retry_loop (n : Nat) (w : World) (i : Nat)
    (hs : w.WeaponState = .Idle) (ha : HasEnoughAmmoFor w i = false) :
    TryStartFire (n + 1) i w = .ok (afterOutOfAmmo w i) ∧
    (afterOutOfAmmo w i).FireModes = w.FireModes ∧
    (∀ m w1 t, w1.RetryStartFireTimerHandle = some t → t.cb = .RetryStartFire i →
      t.ExpireTime ≤ w1.now →
      step m (.Fire .RetryStartFire) w1 =
        RetryStartFire m i { w1 with RetryStartFireTimerHandle := none }) ∧
    (∀ m w1, w1.DesiredFireModes.head? = some i →
      RetryStartFire m i w1 = TryStartFire m i w1) ∧
    (∀ m w1, w1.DesiredFireModes.head? ≠ some i → RetryStartFire m i w1 = .ok w1) := by
  have ha' : w.AmmoCount ≤ 0 := by
    simp only [HasEnoughAmmoFor, decide_eq_false_iff_not, ge_iff_le, not_le] at ha
    omega
  refine ⟨TryStartFire_outOfAmmo n w i hs ha', rfl, fun m w1 t ht hcb hdue => ?_,
    fun m w1 hh => ?_, fun m w1 hh => ?_⟩
  · simp only [step, readHandle, ht, if_pos hdue, hcb, runCallback, clearHandle]
  · unfold RetryStartFire
    cases hd : w1.DesiredFireModes with
    | nil => rw [hd] at hh; cases hh
    | cons d rest =>
      rw [hd] at hh
      simp only [List.head?_cons, Option.some.injEq] at hh
      simp only [hh, if_true]
  · unfold RetryStartFire
    cases hd : w1.DesiredFireModes with
    | nil => rfl
    | cons d rest =>
      rw [hd] at hh
      simp only [List.head?_cons, ne_eq, Option.some.injEq] at hh
      simp only [if_neg hh, Run.pure_eq]

/-- C24 on the idle example weapon without ammo: the attempt plays the cue and
arms the retry for 0.5 s; the retry, run after the desired list was emptied,
ends the loop. -/
theorem C24_witness :
    TryStartFire 1 0 outOfAmmoWorld = .ok (afterOutOfAmmo outOfAmmoWorld 0) ∧
      step 1 (.Fire .RetryStartFire) { afterOutOfAmmo outOfAmmoWorld 0 with now := 1/2 } =
        .ok { afterOutOfAmmo outOfAmmoWorld 0 with
          now := 1/2
          RetryStartFireTimerHandle := none } := by
  have h := C24_out_of_ammo_retry_loop 0 outOfAmmoWorld 0 (by decide) (by decide)
  refine ⟨h.1, ?_⟩
  rw [h.2.2.1 1 { afterOutOfAmmo outOfAmmoWorld 0 with now := 1/2 }
    ⟨1/2, 0 + 1/2, .RetryStartFire 0⟩ rfl rfl (by decide!)]
  exact h.2.2.2.2 1 _ (by decide)

/-- C25: for `BringUpTime > 0` and `PutDownTime > 0`, `e ≥ 0` seconds into a
bring-up that started from position 0 (`e ≤ BringUpTime` is covered by the two
cases of (2)).
(1) `RequestPutDown()` returns; for `e > 0` the weapon is in `PutDown` with the
completion armed for `(e / BringUpTime) * PutDownTime`, and for `e = 0` the
put-down is complete at once, the weapon `Inactive`.  (2) A `RequestBringUp()`
right after it, for `e < BringUpTime`, puts the weapon in `BringUp` with the
completion armed for exactly `BringUpTime - e`; for `e = BringUpTime` it calls
the bring-up completion at once. -/
theorem C25_bring_up_put_down_symmetric (n : Nat) (w : World) (e : ℚ)
    (hs : w.WeaponState = .BringUp) (hB : 0 < w.BringUpTime) (hP : 0 < w.PutDownTime)
    (hsw : w.SwapAnimTimerHandle =
      some ⟨w.BringUpTime, w.now - e + w.BringUpTime, .BringUpCallback⟩)
    (he0 : 0 ≤ e) (hv : CurrentValid w) :
    RequestPutDown (n + 4) w = .ok (afterPutDown (e / w.BringUpTime) w) ∧
    (0 < e → (afterPutDown (e / w.BringUpTime) w).WeaponState = .PutDown ∧
      (afterPutDown (e / w.BringUpTime) w).SwapAnimTimerHandle =
        some ⟨e / w.BringUpTime * w.PutDownTime, w.now + e / w.BringUpTime * w.PutDownTime,
          .PutDownCallback⟩) ∧
    (e = 0 → (afterPutDown (e / w.BringUpTime) w).WeaponState = .Inactive ∧
      (afterPutDown (e / w.BringUpTime) w).SwapAnimTimerHandle = none) ∧
    (e < w.BringUpTime →
      ∃ w2, RequestBringUp (n + 3) (afterPutDown (e / w.BringUpTime) w) = .ok w2 ∧
        w2.WeaponState = .BringUp ∧
        w2.SwapAnimTimerHandle =
          some ⟨w.BringUpTime - e, w.now + (w.BringUpTime - e), .BringUpCallback⟩) ∧
    (e = w.BringUpTime →
      RequestBringUp (n + 3) (afterPutDown (e / w.BringUpTime) w) =
        BringUpCallback (n + 3) (afterBringUpEntry
          { afterPutDown (e / w.BringUpTime) w with
            PutDownDelayTimerHandle := none
            SwapAnimTimerHandle := none })) := by
  have hBne : w.BringUpTime ≠ 0 := ne_of_gt hB
  have hPne : w.PutDownTime ≠ 0 := ne_of_gt hP
  have hel : GetTimerElapsed w.now w.SwapAnimTimerHandle = e := by
    rw [hsw]; simp only [GetTimerElapsed]; ring
  obtain ⟨kn, _, _, _, kb, kp, _⟩ := afterPutDown_keeps (e / w.BringUpTime) w
  have hdown := afterPutDown_state (e / w.BringUpTime) w
  have hpos : 0 < e → 0 < e / w.BringUpTime * w.PutDownTime := fun h =>
    mul_pos (div_pos h hB) hP
  have hA1 := fun h => hdown.1 (hpos h)
  have hA0 : e = 0 → (afterPutDown (e / w.BringUpTime) w).WeaponState = .Inactive ∧
      (afterPutDown (e / w.BringUpTime) w).SwapAnimTimerHandle = none := fun h =>
    hdown.2 (by rw [h]; simp)
  refine ⟨?_, hA1, hA0, fun hlt => ?_, fun heq => ?_⟩
  · simp only [RequestPutDown, hs, hel]
    exact PutDown_eq n _ w hv
  · generalize afterPutDown (e / w.BringUpTime) w = A at kn kb kp hA1 hA0
    have hlt' : 0 < w.BringUpTime - e := by linarith
    rcases lt_or_eq_of_le he0 with hpe | hpe
    · obtain ⟨hst, hswA⟩ := hA1 hpe
      have hrem : GetTimerRemaining A.now A.SwapAnimTimerHandle / A.PutDownTime
          = e / w.BringUpTime := by
        rw [hswA, kn, kp]; simp only [GetTimerRemaining]; field_simp; ring
      have hD : (1 - e / w.BringUpTime) * w.BringUpTime = w.BringUpTime - e := by
        field_simp
      have hcall : RequestBringUp (n + 3) A =
          BringUp (n + 3) (e / w.BringUpTime) { A with PutDownDelayTimerHandle := none } := by
        simp only [RequestBringUp, hst, hrem]
      have hgo := BringUp_eq n (e / w.BringUpTime) { A with PutDownDelayTimerHandle := none }
        (by show 0 < (1 - e / w.BringUpTime) * A.BringUpTime; rw [kb, hD]; exact hlt')
      refine ⟨_, hcall.trans hgo, (afterBringUpEntry_keeps _).1, ?_⟩
      show some (FTimerData.mk ((1 - e / w.BringUpTime) * A.BringUpTime)
        (A.now + (1 - e / w.BringUpTime) * A.BringUpTime) .BringUpCallback) = _
      rw [kb, kn, hD]
    · obtain ⟨hst, _⟩ := hA0 hpe.symm
      have hcall : RequestBringUp (n + 3) A =
          BringUp (n + 3) 0 { A with PutDownDelayTimerHandle := none } := by
        simp only [RequestBringUp, hst]
      have hgo := BringUp_eq n 0 { A with PutDownDelayTimerHandle := none }
        (by show 0 < (1 - 0) * A.BringUpTime; rw [kb]; simpa using hB)
      refine ⟨_, hcall.trans hgo, (afterBringUpEntry_keeps _).1, ?_⟩
      show some (FTimerData.mk ((1 - 0) * A.BringUpTime)
        (A.now + (1 - 0) * A.BringUpTime) .BringUpCallback) = _
      rw [kb, kn, ← hpe]; simp
  · have hpe : 0 < e := by rw [heq]; exact hB
    generalize afterPutDown (e / w.BringUpTime) w = A at kn kb kp hA1 hA0 ⊢
    obtain ⟨hst, hswA⟩ := hA1 hpe
    have hrem : GetTimerRemaining A.now A.SwapAnimTimerHandle / A.PutDownTime
        = e / w.BringUpTime := by
      rw [hswA, kn, kp]; simp only [GetTimerRemaining]; field_simp; ring
    have hcall : RequestBringUp (n + 3) A =
        BringUp (n + 3) (e / w.BringUpTime) { A with PutDownDelayTimerHandle := none } := by
      simp only [RequestBringUp, hst, hrem]
    rw [hcall]
    exact BringUp_at_once n _ _ (by
      show (1 - e / w.BringUpTime) * A.BringUpTime ≤ 0
      rw [kb, heq]; field_simp)

/-- C25 on the example weapon 0.1 s into a bring-up of 0.3 s: the put-down is
armed for `(0.1 / 0.3) * 0.3` s, and the bring-up requested right after it for
`0.3 - 0.1` s. -/
theorem C25_witness :
    RequestPutDown 4 thirdUpWorld = .ok (afterPutDown (1/10 / (3/10)) thirdUpWorld) ∧
      (afterPutDown (1/10 / (3/10)) thirdUpWorld).SwapAnimTimerHandle =
        some ⟨1/10 / (3/10) * (3/10), 1/10 + 1/10 / (3/10) * (3/10), .PutDownCallback⟩ ∧
      ∃ w2, RequestBringUp 3 (afterPutDown (1/10 / (3/10)) thirdUpWorld) = .ok w2 ∧
        w2.WeaponState = .BringUp ∧
        w2.SwapAnimTimerHandle = some ⟨3/10 - 1/10, 1/10 + (3/10 - 1/10), .BringUpCallback⟩ := by
  have h := C25_bring_up_put_down_symmetric 0 thirdUpWorld (1/10) (by decide) (by decide!)
    (by decide!) rfl (by decide!) (by intro c hc; cases hc)
  exact ⟨h.1, (h.2.1 (by decide!)).2, h.2.2.2.1 (by decide!)⟩

/-! ### References to fire modes: the invariant -/

theorem Safe_ok {α : Type} {S : Bool} {P : α → Prop} {a : α} (h : P a) :
    Safe S P (Except.ok a : Run α) := h

theorem Safe_pure {α : Type} {S : Bool} {P : α → Prop} {a : α} (h : P a) :
    Safe S P (pure a : Run α) := h

theorem Safe_fuel {α : Type} {S : Bool} {P : α → Prop} :
    Safe S P (Except.error .OutOfFuel : Run α) := trivial

theorem Safe_bind {α β : Type} {S : Bool} {P : α → Prop} {Q : β → Prop} {x : Run α}
    {f : α → Run β} (hx : Safe S P x) (hf : ∀ a, P a → Safe S Q (f a)) : Safe S Q (x >>= f) := by
  cases x with
  | ok a => exact hf a hx
  | error e => cases e <;> exact hx

theorem Safe_mono {α : Type} {S : Bool} {P Q : α → Prop} {x : Run α} (hx : Safe S P x)
    (h : ∀ a, P a → Q a) : Safe S Q x := by
  cases x with
  | ok a => exact h a hx
  | error e => cases e <;> exact hx

/-- A call that is safe, also of indexing past the end, returns when its budget
is enough. -/
theorem Safe_returns {α : Type} {P : α → Prop} {x : Run α} (hx : Safe true P x)
    (hf : FuelOK x) : ∃ a, x = .ok a ∧ P a := by
  cases x with
  | ok a => exact ⟨a, rfl, hx⟩
  | error e =>
    cases e with
    | OutOfFuel => exact absurd rfl hf
    | NullDeref => exact absurd hx id
    | OutOfRange => cases hx

/-- A safe call does not dereference a missing fire mode. -/
theorem Safe_noNull {α : Type} {S : Bool} {P : α → Prop} {x : Run α} (hx : Safe S P x) :
    x ≠ .error .NullDeref := by
  intro h
  rw [h] at hx
  exact hx

theorem Safe_of_ok {α : Type} {S : Bool} {P : α → Prop} {x : Run α} {a : α} (hx : Safe S P x)
    (h : x = .ok a) : P a := by
  rw [h] at hx
  exact hx

theorem handleOn_none (V : Marks) : handleOn V none := by
  intro t ht; cases ht

theorem handleOn_SetTimer (V : Marks) (now : ℚ) (cb : Callback) (r : ℚ)
    (h : cbOn V cb) : handleOn V (SetTimer now cb r) := by
  intro t ht
  unfold SetTimer at ht
  split at ht
  · cases ht; exact h
  · cases ht

theorem Inv_getFM {V : Marks} {w : World} (h : Inv V w) {i : Nat} (hv : V.valid i = true) :
    ∃ fm, getFM w i = .ok fm :=
  (validFM_iff w i).mp ((h.slots i).1.trans hv)

theorem Inv_valid {V : Marks} {w : World} (h : Inv V w) {i : Nat} {fm : FireMode}
    (hfm : getFM w i = .ok fm) : V.valid i = true :=
  (h.slots i).1.symm.trans ((validFM_iff w i).mpr ⟨fm, hfm⟩)

theorem Inv_reads {V : Marks} {w : World} (h : Inv V w) {i : Nat} {fm : FireMode}
    (hfm : getFM w i = .ok fm) : ReadsVectors fm = V.reads i :=
  (h.slots i).2 fm hfm

theorem Inv_handles {V : Marks} {w : World} (h : Inv V w) {i : Nat} {fm : FireMode}
    (hfm : getFM w i = .ok fm) :
    handleOn V fm.CooldownTimerHandle ∧ handleOn V fm.DelayedFireTimerHandle := by
  have hg := (getFM_eq_ok_iff w i fm).mp hfm
  exact h.refs.fms (some fm) (List.getElem?_mem hg) fm rfl

theorem Inv_emit {V : Marks} {w : World} (h : Inv V w) (e : Effect) :
    Inv V (emit w e) :=
  ⟨h.slots, ⟨h.refs.cur, h.refs.des, h.refs.tick, h.refs.swap, h.refs.pdd, h.refs.retry,
    h.refs.fms⟩, h.firing⟩

theorem Inv_consume {V : Marks} {w : World} (h : Inv V w) (i : Nat) :
    Inv V (ConsumeAmmo w i) :=
  ⟨h.slots, ⟨h.refs.cur, h.refs.des, h.refs.tick, h.refs.swap, h.refs.pdd, h.refs.retry,
    h.refs.fms⟩, h.firing⟩

theorem validFM_setFM (w : World) (i : Nat) (fm : FireMode) (hv : validFM w i = true)
    (j : Nat) : validFM (setFM w i fm) j = validFM w j := by
  obtain ⟨fm0, hfm0⟩ := (validFM_iff w i).mp hv
  have hg := (getFM_eq_ok_iff w i fm0).mp hfm0
  unfold validFM setFM
  simp only [List.getElem?_set]
  by_cases hij : i = j
  · subst hij
    have hlt : i < w.FireModes.length := by
      by_contra hc
      rw [List.getElem?_eq_none (not_lt.mp hc)] at hg
      cases hg
    simp [hlt, hg]
  · simp [hij]

theorem getFM_setFM_other (w : World) (i j : Nat) (fm : FireMode) (hij : i ≠ j) :
    getFM (setFM w i fm) j = getFM w j := by
  unfold getFM setFM
  simp only [List.getElem?_set]
  rw [if_neg hij]

theorem Inv_setFM {V : Marks} {w : World} (h : Inv V w) {i : Nat} (hv : V.valid i = true)
    (fm : FireMode) (hr : ReadsVectors fm = V.reads i)
    (h1 : handleOn V fm.CooldownTimerHandle)
    (h2 : handleOn V fm.DelayedFireTimerHandle) : Inv V (setFM w i fm) := by
  have hvi : validFM w i = true := (h.slots i).1.trans hv
  refine ⟨fun j => ⟨(validFM_setFM w i fm hvi j).trans (h.slots j).1, fun fm1 hfm1 => ?_⟩,
    ⟨h.refs.cur, h.refs.des, h.refs.tick, h.refs.swap, h.refs.pdd, h.refs.retry, ?_⟩, h.firing⟩
  · by_cases hij : i = j
    · subst hij
      obtain ⟨fm0, hfm0⟩ := (validFM_iff w i).mp hvi
      rw [getFM_setFM_same w i fm0 fm hfm0] at hfm1
      cases hfm1
      exact hr
    · rw [getFM_setFM_other w i j fm hij] at hfm1
      exact (h.slots j).2 fm1 hfm1
  intro o ho fm' hfm'
  rcases List.mem_or_eq_of_mem_set ho with hmem | heq
  · exact h.refs.fms o hmem fm' hfm'
  · rw [heq] at hfm'
    cases hfm'
    exact ⟨h1, h2⟩

/-! ### No missing fire mode: the fire path -/

theorem Inv_current {V : Marks} {w : World} (h : Inv V w) {i : Nat} (hv : V.valid i = true) :
    Inv V { w with CurrentFireMode := some i } :=
  ⟨h.slots, ⟨fun c hc => by cases hc; exact hv, h.refs.des, h.refs.tick, h.refs.swap,
    h.refs.pdd, h.refs.retry, h.refs.fms⟩, fun _ hc => by cases hc⟩

theorem Inv_current_Firing {V : Marks} {w : World} (h : Inv V w) {i : Nat}
    (hv : V.valid i = true) : Inv V { w with CurrentFireMode := some i, WeaponState := .Firing } :=
  ⟨h.slots, ⟨fun c hc => by cases hc; exact hv, h.refs.des, h.refs.tick, h.refs.swap,
    h.refs.pdd, h.refs.retry, h.refs.fms⟩, fun _ hc => by cases hc⟩

theorem Inv_afterSetBusyTrue {V : Marks} {w : World} (h : Inv V w) {i : Nat}
    {fm : FireMode} (hfm : getFM w i = .ok fm) : Inv V (afterSetBusyTrue w i fm) := by
  have hv := Inv_valid h hfm
  obtain ⟨h1, h2⟩ := Inv_handles h hfm
  have hw1 : Inv V (setFM w i { fm with bIsBusy := true }) :=
    Inv_setFM h hv _ (show ReadsVectors fm = V.reads i from Inv_reads h hfm) h1 h2
  unfold afterSetBusyTrue
  split
  · exact h
  · dsimp only
    split
    · split
      · exact Inv_current hw1 hv
      · exact Inv_emit (Inv_current_Firing hw1 hv) _
    · exact hw1

/-- Whatever the budget, `SetBusy(true)` gives the closed form or runs out of
budget. -/
theorem SetBusy_true_cases (m : Nat) (w : World) (i : Nat) (fm : FireMode)
    (hfm : getFM w i = .ok fm) :
    SetBusy m true i w = .ok (afterSetBusyTrue w i fm) ∨
      SetBusy m true i w = .error .OutOfFuel := by
  match m with
  | 0 => right; simp [SetBusy]
  | 1 =>
    obtain ⟨busy, I, hs, pc, lft, ct, dt, bi, bsi⟩ := fm
    cases busy <;> cases bi <;>
      simp [afterSetBusyTrue, SetBusy, hfm, Run.bind_ok, Run.pure_eq,
        FireModeChangedStatus_Implementation]
  | 2 =>
    obtain ⟨busy, I, hs, pc, lft, ct, dt, bi, bsi⟩ := fm
    have h1 := fun x => getFM_setFM_same w i _ x hfm
    cases busy <;> cases bi <;>
      simp [afterSetBusyTrue, SetBusy, hfm, Run.bind_ok, Run.pure_eq,
        FireModeChangedStatus_Implementation, h1, IsBusy, SetWeaponState]
  | n + 3 => left; exact SetBusy_true_eq n w i fm hfm

theorem SetBusy_true_safe {V : Marks} {S : Bool} (m : Nat) (i : Nat) (w : World)
    (hv : V.valid i = true) (h : Inv V w) : Safe S (Inv V) (SetBusy m true i w) := by
  obtain ⟨fm, hfm⟩ := Inv_getFM h hv
  rcases SetBusy_true_cases m w i fm hfm with hc | hc
  · rw [hc]; exact Safe_ok (Inv_afterSetBusyTrue h hfm)
  · rw [hc]; exact Safe_fuel

theorem LocalConfirmFired_safe {V : Marks} {S : Bool} (i : Nat) (w : World)
    (hv : V.valid i = true) (h : Inv V w) : Safe S (Inv V) (LocalConfirmFired w i) := by
  obtain ⟨fm, hfm⟩ := Inv_getFM h hv
  simp only [LocalConfirmFired, hfm, Run.bind_ok]
  split
  · split
    · exact Safe_pure (Inv_setFM h hv _ (show ReadsVectors fm = V.reads i from Inv_reads h hfm) (handleOn_SetTimer V _ _ _ hv)
        (Inv_handles h hfm).2)
    · exact Safe_pure h
  · exact Safe_pure h

theorem MulticastFired_Implementation_safe {V : Marks} {S : Bool} (i : Nat) (w : World)
    (hv : V.valid i = true) (h : Inv V w) : Safe S (Inv V) (MulticastFired_Implementation w i) := by
  obtain ⟨fm, hfm⟩ := Inv_getFM h hv
  simp only [MulticastFired_Implementation, hfm, Run.bind_ok]
  split
  · split
    · exact LocalConfirmFired_safe i w hv h
    · split
      · exact Safe_pure (Inv_emit h _)
      · exact Safe_pure h
  · exact Safe_pure h

theorem MulticastFiredHitscan_Implementation_safe {V : Marks} {S : Bool} (i : Nat) (w : World)
    (hi : FHitscanVisualInfo) (hv : V.valid i = true) (h : Inv V w) :
    Safe S (Inv V) (MulticastFiredHitscan_Implementation w i hi) := by
  obtain ⟨fm, hfm⟩ := Inv_getFM h hv
  simp only [MulticastFiredHitscan_Implementation, hfm, Run.bind_ok]
  split
  · split
    · exact LocalConfirmFired_safe i w hv h
    · split
      · exact Safe_pure (Inv_emit (Inv_emit h _) _)
      · exact Safe_pure h
  · exact Safe_pure h

/-- Under the invariant the owner can answer `TimeUntilReadyToFire`. -/
theorem ServerFireDelay_ok {V : Marks} {w : World} (h : Inv V w) (i : Nat)
    (fm : FireMode) : ∃ d, ServerFireDelay w i fm = .ok d := by
  apply ServerFireDelay_defined
  intro _
  by_cases hs : w.WeaponState = .Firing
  · right
    cases hc : w.CurrentFireMode with
    | none => exact absurd hc (h.firing hs)
    | some c =>
      obtain ⟨cur, hcur⟩ := Inv_getFM h (h.refs.cur c hc)
      exact ⟨c, cur, rfl, hcur⟩
  · left; exact hs

theorem ServerFire_Implementation_safe {V : Marks} {S : Bool} (m : Nat) (i : Nat)
    (info : FSimulatedShotInfo) (w : World) (hv : V.valid i = true) (h : Inv V w)
    (hi : S = true ∨ V.pend = true → V.reads i = true → 2 ≤ info.Vectors.length) :
    Safe S (Inv V) (ServerFire_Implementation m i info w) := by
  match m with
  | 0 => simp only [ServerFire_Implementation]; exact Safe_fuel
  | m + 1 =>
    obtain ⟨fm, hfm⟩ := Inv_getFM h hv
    obtain ⟨d, hd⟩ := ServerFireDelay_ok h i fm
    have hrd : ReadsVectors fm = V.reads i := Inv_reads h hfm
    simp only [ServerFire_Implementation, hfm, hd, Run.bind_ok]
    by_cases hpos : d > 0
    · simp only [if_pos hpos]
      split
      · exact Safe_pure h
      · exact Safe_pure (Inv_setFM h hv _ hrd (Inv_handles h hfm).1
          (handleOn_SetTimer V _ (.DelayedServerFire i info) _
            ⟨hv, fun hp hr => hi (Or.inr hp) hr⟩))
    · simp only [if_neg hpos]
      rcases SetBusy_true_cases m w i fm hfm with hc | hc
      · rw [hc]
        simp only [Run.bind_ok]
        have h1 : Inv V (afterSetBusyTrue w i fm) := Inv_afterSetBusyTrue h hfm
        have hg1 : ∀ e, getFM (emit (afterSetBusyTrue w i fm) e) i =
            .ok { fm with bIsBusy := true } := fun e => by
          have := getFM_afterSetBusyTrue w i fm hfm
          rw [getFM_eq_ok_iff] at this ⊢
          exact this
        generalize afterSetBusyTrue w i fm = w1 at h1 hg1
        have hshort : ∀ {α : Type} (P : α → Prop), ReadsVectors fm = true →
            ¬ 2 ≤ info.Vectors.length → Safe S P (Except.error .OutOfRange : Run α) := by
          intro α P hr hl
          cases hS : S with
          | false => rfl
          | true => exact absurd (hi (Or.inl hS) (hrd ▸ hr)) hl
        have hshot : Safe S (Inv V) (if fm.bIsHitscan = true then do
              let (w, HitscanInfo) ← (if fm.BasicInterface = true then
                  AuthorityHitscanShot_Implementation (emit w1 (.AuthorityHitscanShot i info))
                    i info
                else pure (w1, default) : Run (World × FHitscanVisualInfo))
              MulticastFiredHitscan w i HitscanInfo
            else do
              let w ← (if fm.BasicInterface = true then
                  AuthorityShot_Implementation (emit w1 (.AuthorityShot i info)) i info
                else pure w1 : Run World)
              MulticastFired w i : Run World) := by
          split
          · next hh =>
            by_cases hbi : fm.BasicInterface = true
            · by_cases hl : 2 ≤ info.Vectors.length
              · simp only [hbi, if_true, AuthorityHitscanShot_ok _ i info hl, Run.bind_ok]
                exact MulticastFiredHitscan_Implementation_safe i _ _ hv
                  (Inv_emit (Inv_consume (Inv_emit h1 _) i) _)
              · simp only [hbi, if_true,
                  AuthorityHitscanShot_short _ i info (not_le.mp hl), Run.bind_error]
                exact hshort _ (by simp [ReadsVectors, hbi, hh]) hl
            · simp only [hbi, Bool.false_eq_true, if_false, Run.pure_eq, Run.bind_ok]
              exact MulticastFiredHitscan_Implementation_safe i _ _ hv (Inv_emit h1 _)
          · by_cases hbi : fm.BasicInterface = true
            · by_cases hl : fm.ProjectileClass = true → 2 ≤ info.Vectors.length
              · simp only [hbi, if_true, AuthorityShot_ok _ i info _ (hg1 _) hl, Run.bind_ok]
                split
                · exact MulticastFired_Implementation_safe i _ hv
                    (Inv_emit (Inv_consume (Inv_emit h1 _) i) _)
                · exact MulticastFired_Implementation_safe i _ hv (Inv_emit (Inv_emit h1 _) _)
              · push_neg at hl
                simp only [hbi, if_true, AuthorityShot_short _ i info _ (hg1 _) hl.1 hl.2,
                  Run.bind_error]
                exact hshort _ (by simp [ReadsVectors, hbi, hl.1]) (not_le.mpr hl.2)
            · simp only [hbi, Run.pure_eq, Run.bind_ok]
              exact MulticastFired_Implementation_safe i _ hv (Inv_emit h1 _)
        apply Safe_bind hshot
        intro w2 h2
        obtain ⟨fm2, hfm2⟩ := Inv_getFM h2 hv
        simp only [hfm2, Run.bind_ok]
        exact Safe_pure (Inv_setFM h2 hv _
          (show ReadsVectors fm2 = V.reads i from Inv_reads h2 hfm2)
          (handleOn_SetTimer V _ _ _ hv) (Inv_handles h2 hfm2).2)
      · rw [hc]
        exact Safe_fuel

/-! ### No missing fire mode: the weapon -/

theorem Inv_desired {V : Marks} {w : World} (h : Inv V w) (l : List Nat)
    (hl : ∀ i ∈ l, V.valid i = true) : Inv V { w with DesiredFireModes := l } :=
  ⟨h.slots, ⟨h.refs.cur, hl, h.refs.tick, h.refs.swap, h.refs.pdd, h.refs.retry, h.refs.fms⟩,
    h.firing⟩

theorem Inv_nextTick {V : Marks} {w : World} (h : Inv V w) (l : List Callback)
    (hl : ∀ cb ∈ l, cbOn V cb) : Inv V { w with NextTick := l } :=
  ⟨h.slots, ⟨h.refs.cur, h.refs.des, hl, h.refs.swap, h.refs.pdd, h.refs.retry, h.refs.fms⟩,
    h.firing⟩

theorem Inv_swap {V : Marks} {w : World} (h : Inv V w) (t : FTimerHandle)
    (ht : handleOn V t) : Inv V { w with SwapAnimTimerHandle := t } :=
  ⟨h.slots, ⟨h.refs.cur, h.refs.des, h.refs.tick, ht, h.refs.pdd, h.refs.retry, h.refs.fms⟩,
    h.firing⟩

theorem Inv_putDownDelay {V : Marks} {w : World} (h : Inv V w) (t : FTimerHandle)
    (ht : handleOn V t) : Inv V { w with PutDownDelayTimerHandle := t } :=
  ⟨h.slots, ⟨h.refs.cur, h.refs.des, h.refs.tick, h.refs.swap, ht, h.refs.retry, h.refs.fms⟩,
    h.firing⟩

theorem Inv_retry {V : Marks} {w : World} (h : Inv V w) (t : FTimerHandle)
    (ht : handleOn V t) : Inv V { w with RetryStartFireTimerHandle := t } :=
  ⟨h.slots, ⟨h.refs.cur, h.refs.des, h.refs.tick, h.refs.swap, h.refs.pdd, ht, h.refs.fms⟩,
    h.firing⟩

theorem Inv_now {V : Marks} {w : World} (h : Inv V w) (t : ℚ) :
    Inv V { w with now := t } :=
  ⟨h.slots, ⟨h.refs.cur, h.refs.des, h.refs.tick, h.refs.swap, h.refs.pdd, h.refs.retry,
    h.refs.fms⟩, h.firing⟩

/-- The state assignment of `SetWeaponState` keeps the invariant, provided a
weapon that is made `Firing` has a current fire mode. -/
theorem Inv_afterEnter {V : Marks} {w : World} (s : EWeaponState)
    (hsl : SlotsOn V w) (hr : RefsOn V w)
    (hf : s = .Firing → w.CurrentFireMode ≠ none) : Inv V (afterEnter s w) := by
  have hst := afterEnter_state s w
  refine ⟨?_, ?_, ?_⟩
  · unfold afterEnter; split <;> exact hsl
  · unfold afterEnter
    split
    · exact ⟨hr.cur, hr.des, hr.tick, hr.swap, hr.pdd, hr.retry, hr.fms⟩
    · exact hr
  · intro hs
    rw [hst] at hs
    rw [(afterEnter_keeps s w).2.2.1]
    exact hf hs

theorem StartFire_simulate_Inv {V : Marks} {w : World} (h : Inv V w) (i : Nat)
    (fm : FireMode) : Inv V (StartFire_simulate w i fm).1 := by
  unfold StartFire_simulate
  split
  · split
    · exact Inv_emit (Inv_emit (Inv_emit h _) _) _
    · exact Inv_emit (Inv_emit h _) _
  · exact h

theorem StartFire_localCooldown_Inv {V : Marks} {w : World} (h : Inv V w) {i : Nat}
    (hv : V.valid i = true) {fm : FireMode} (hfm : getFM w i = .ok fm) :
    Inv V (StartFire_localCooldown w i fm) := by
  obtain ⟨h1, h2⟩ := Inv_handles h hfm
  unfold StartFire_localCooldown
  split
  · dsimp only
    split
    · exact Inv_setFM h hv _ (show ReadsVectors fm = V.reads i from Inv_reads h hfm) (handleOn_SetTimer V _ _ _ hv) h2
    · refine Inv_nextTick (Inv_setFM h hv { fm with LocalFireTime := w.now } (show ReadsVectors fm = V.reads i from Inv_reads h hfm)
        h1 h2) _ ?_
      intro cb hcb
      rcases List.mem_append.mp hcb with hm | hm
      · exact h.refs.tick cb hm
      · rw [List.mem_singleton.mp hm]; exact hv
  · exact h

theorem ServerFire_safe {V : Marks} {S : Bool} (m : Nat) (i : Nat) (info : FSimulatedShotInfo)
    (w : World) (hv : V.valid i = true) (h : Inv V w)
    (hi : S = true ∨ V.pend = true → V.reads i = true → 2 ≤ info.Vectors.length) :
    Safe S (Inv V) (ServerFire m i info w) := by
  match m with
  | 0 => simp only [ServerFire]; exact Safe_fuel
  | m + 1 =>
    simp only [ServerFire]
    split
    · exact Safe_pure (Inv_emit h _)
    · exact ServerFire_Implementation_safe m i info w hv h hi

theorem StartFire_Implementation_safe {V : Marks} {S : Bool} (m : Nat) (i : Nat) (w : World)
    (hv : V.valid i = true) (h : Inv V w) : Safe S (Inv V) (StartFire_Implementation m i w) := by
  match m with
  | 0 => simp only [StartFire_Implementation]; exact Safe_fuel
  | m + 1 =>
    simp only [StartFire_Implementation]
    apply Safe_bind (SetBusy_true_safe m i w hv h)
    intro w1 h1
    obtain ⟨fm, hfm⟩ := Inv_getFM h1 hv
    simp only [hfm, Run.bind_ok]
    have h2 := StartFire_simulate_Inv h1 i fm
    have hg2 : getFM (StartFire_simulate w1 i fm).1 i = .ok fm := by
      rw [StartFire_simulate_getFM]; exact hfm
    refine ServerFire_safe m i _ _ hv (StartFire_localCooldown_Inv h2 hv hg2) (fun _ hr => ?_)
    exact StartFire_simulate_vectors w1 i fm (by rw [Inv_reads h1 hfm]; exact hr)

theorem TryStartFire_safe {V : Marks} {S : Bool} (m : Nat) (i : Nat) (w : World)
    (hv : V.valid i = true) (h : Inv V w) : Safe S (Inv V) (TryStartFire m i w) := by
  match m with
  | 0 => simp only [TryStartFire]; exact Safe_fuel
  | m + 1 =>
    simp only [TryStartFire]
    split
    · split
      · exact StartFire_Implementation_safe m i w hv h
      · exact Safe_pure (Inv_retry (Inv_emit h _) _ (handleOn_SetTimer V _ _ _ hv))
    · exact Safe_pure h

theorem RequestStartFire_safe {V : Marks} {S : Bool} (m : Nat) (i : Nat) (w : World)
    (h : Inv V w) : Safe S (Inv V) (RequestStartFire m i w) := by
  match m with
  | 0 => simp only [RequestStartFire]; exact Safe_fuel
  | m + 1 =>
    simp only [RequestStartFire]
    split
    · next fm hfm =>
      have hv : V.valid i = true := Inv_valid h ((getFM_eq_ok_iff w i fm).mpr hfm)
      refine TryStartFire_safe m i _ hv (Inv_desired h _ ?_)
      intro j hj
      rcases List.mem_cons.mp hj with hj | hj
      · rw [hj]; exact hv
      · exact h.refs.des j (List.mem_filter.mp hj).1
    · exact Safe_pure h

theorem StopFire_safe {V : Marks} {S : Bool} (i : Nat) (w : World) (hv : V.valid i = true)
    (h : Inv V w) : Safe S (Inv V) (StopFire w i) := by
  obtain ⟨fm, hfm⟩ := Inv_getFM h hv
  simp only [StopFire, hfm, Run.bind_ok]
  exact Safe_pure (Inv_emit h _)

theorem StopAllFire_safe {V : Marks} {S : Bool} (w : World) (h : Inv V w) :
    Safe S (Inv V) (StopAllFire w) := by
  have h0 : Inv V { w with DesiredFireModes := [] } :=
    Inv_desired h [] (fun i hi => by cases hi)
  unfold StopAllFire
  dsimp only
  split
  · next c hc => exact StopFire_safe c _ (h.refs.cur c hc) h0
  · exact Safe_pure h0

/-- Entering `PutDown` or `Inactive` dereferences no missing fire mode. -/
theorem SetWeaponState_down_safe {V : Marks} {S : Bool} (m : Nat) (s : EWeaponState) (w : World)
    (hs : s = .PutDown ∨ s = .Inactive) (hsl : SlotsOn V w) (hr : RefsOn V w) :
    Safe S (Inv V) (SetWeaponState m s w) := by
  match m with
  | 0 => simp only [SetWeaponState]; exact Safe_fuel
  | m + 1 =>
    have hA : Inv V (afterEnter s w) :=
      Inv_afterEnter s hsl hr (by rcases hs with hs | hs <;> rw [hs] <;> intro hc <;> cases hc)
    rw [SetWeaponState_eq]
    rcases hs with hs | hs <;> subst hs <;> exact StopAllFire_safe _ hA

theorem PutDownCallback_safe {V : Marks} {S : Bool} (m : Nat) (w : World) (h : Inv V w) :
    Safe S (Inv V) (PutDownCallback m w) := by
  match m with
  | 0 => simp only [PutDownCallback]; exact Safe_fuel
  | m + 1 =>
    simp only [PutDownCallback]
    split
    · exact SetWeaponState_down_safe m .Inactive w (Or.inr rfl) h.slots h.refs
    · exact Safe_pure h

theorem PutDown_safe {V : Marks} {S : Bool} (m : Nat) (p : ℚ) (w : World)
    (hsl : SlotsOn V w) (hr : RefsOn V w) : Safe S (Inv V) (PutDown m p w) := by
  match m with
  | 0 => simp only [PutDown]; exact Safe_fuel
  | m + 1 =>
    simp only [PutDown]
    have hr0 : RefsOn V { w with SwapAnimTimerHandle := none } :=
      ⟨hr.cur, hr.des, hr.tick, handleOn_none V, hr.pdd, hr.retry, hr.fms⟩
    have hsl0 : SlotsOn V { w with SwapAnimTimerHandle := none } := hsl
    apply Safe_bind (SetWeaponState_down_safe m .PutDown { w with SwapAnimTimerHandle := none }
      (Or.inl rfl) hsl0 hr0)
    intro w1 h1
    split
    · exact Safe_pure (Inv_swap h1 _ (handleOn_SetTimer V w1.now .PutDownCallback _ trivial))
    · exact PutDownCallback_safe m w1 h1

theorem RequestPutDown_safe {V : Marks} {S : Bool} (m : Nat) (w : World) (h : Inv V w) :
    Safe S (Inv V) (RequestPutDown m w) := by
  match m with
  | 0 => simp only [RequestPutDown]; exact Safe_fuel
  | m + 1 =>
    simp only [RequestPutDown]
    split
    · exact PutDown_safe m _ w h.slots h.refs
    · exact PutDown_safe m _ w h.slots h.refs
    · next hs =>
      split
      · next hnone => exact absurd hnone (h.firing hs)
      · next c hc =>
        obtain ⟨cur, hcur⟩ := Inv_getFM h (h.refs.cur c hc)
        simp only [hcur, Run.bind_ok]
        split
        · exact Safe_pure (Inv_putDownDelay h _
            (handleOn_SetTimer V w.now .RequestPutDown _ trivial))
        · exact PutDown_safe m _ w h.slots h.refs
    · exact Safe_pure (Inv_putDownDelay h _ (handleOn_SetTimer V w.now .RequestPutDown _ trivial))
    · exact Safe_pure h

/-! ### No missing fire mode: events -/

/-- The source function `SetWeaponState` dereferences no missing fire mode,
provided a weapon that is made `Firing` has a current fire mode. -/
theorem SetWeaponState_safe {V : Marks} {S : Bool} (m : Nat) (s : EWeaponState) (w : World)
    (hsl : SlotsOn V w) (hr : RefsOn V w)
    (hf : s = .Firing → w.CurrentFireMode ≠ none) : Safe S (Inv V) (SetWeaponState m s w) := by
  match m with
  | 0 => simp only [SetWeaponState]; exact Safe_fuel
  | m + 1 =>
    have hA : Inv V (afterEnter s w) := Inv_afterEnter s hsl hr hf
    rw [SetWeaponState_eq]
    cases s with
    | BringUp =>
      dsimp only
      split
      · split
        · exact RequestStartFire_safe m _ _ hA
        · exact Safe_pure hA
      · exact Safe_pure hA
    | Idle =>
      dsimp only
      split
      · exact RequestPutDown_safe m _ (Inv_putDownDelay hA none (handleOn_none V))
      · split
        · next fm rest hd =>
          refine TryStartFire_safe m fm _ (hA.refs.des fm ?_) hA
          rw [hd]; exact List.mem_cons_self _ _
        · exact Safe_pure hA
    | PutDown => exact StopAllFire_safe _ hA
    | Inactive => exact StopAllFire_safe _ hA
    | Firing => exact Safe_pure hA
    | Busy => exact Safe_pure hA

theorem FireModeChangedStatus_safe {V : Marks} {S : Bool} (m : Nat) (i : Nat) (w : World)
    (hv : V.valid i = true) (h : Inv V w) :
    Safe S (Inv V) (FireModeChangedStatus_Implementation m i w) := by
  match m with
  | 0 => simp only [FireModeChangedStatus_Implementation]; exact Safe_fuel
  | m + 1 =>
    obtain ⟨fm, hfm⟩ := Inv_getFM h hv
    simp only [FireModeChangedStatus_Implementation, hfm, Run.bind_ok]
    split
    · exact SetWeaponState_safe m .Firing { w with CurrentFireMode := some i } h.slots
        ⟨fun c hc => by cases hc; exact hv, h.refs.des, h.refs.tick, h.refs.swap, h.refs.pdd,
          h.refs.retry, h.refs.fms⟩ (fun _ hc => by cases hc)
    · split
      · have hr0 : RefsOn V { w with CurrentFireMode := none } :=
          ⟨(fun c hc => by cases hc), h.refs.des, h.refs.tick, h.refs.swap, h.refs.pdd,
            h.refs.retry, h.refs.fms⟩
        dsimp only
        split
        · exact SetWeaponState_safe m .Idle { w with CurrentFireMode := none } h.slots hr0
            (fun hc => by cases hc)
        · next hs => exact Safe_pure ⟨h.slots, hr0, fun hs' => absurd hs' hs⟩
      · exact Safe_pure h

theorem SetBusy_safe {V : Marks} {S : Bool} (m : Nat) (b : Bool) (i : Nat) (w : World)
    (hv : V.valid i = true) (h : Inv V w) : Safe S (Inv V) (SetBusy m b i w) := by
  match m with
  | 0 => simp only [SetBusy]; exact Safe_fuel
  | m + 1 =>
    obtain ⟨fm, hfm⟩ := Inv_getFM h hv
    obtain ⟨h1, h2⟩ := Inv_handles h hfm
    have hw1 : Inv V (setFM w i { fm with bIsBusy := b }) :=
      Inv_setFM h hv _ (show ReadsVectors fm = V.reads i from Inv_reads h hfm) h1 h2
    simp only [SetBusy, hfm, Run.bind_ok]
    split
    · split
      · exact FireModeChangedStatus_safe m i _ hv hw1
      · exact Safe_pure hw1
    · exact Safe_pure h

theorem BringUpCallback_safe {V : Marks} {S : Bool} (m : Nat) (w : World) (h : Inv V w) :
    Safe S (Inv V) (BringUpCallback m w) := by
  unfold BringUpCallback
  split
  · split
    · next c hc =>
      obtain ⟨cur, hcur⟩ := Inv_getFM h (h.refs.cur c hc)
      simp only [hcur, Run.bind_ok]
      split
      · exact SetWeaponState_safe m .Firing w h.slots h.refs (fun _ hn => by
          rw [hc] at hn; cases hn)
      · exact SetWeaponState_safe m .Idle w h.slots h.refs (fun hf => by cases hf)
    · exact SetWeaponState_safe m .Idle w h.slots h.refs (fun hf => by cases hf)
  · exact Safe_pure h

theorem BringUp_safe {V : Marks} {S : Bool} (m : Nat) (p : ℚ) (w : World) (h : Inv V w) :
    Safe S (Inv V) (BringUp m p w) := by
  unfold BringUp
  have hsl0 : SlotsOn V { w with SwapAnimTimerHandle := none } := h.slots
  have hr0 : RefsOn V { w with SwapAnimTimerHandle := none } :=
    ⟨h.refs.cur, h.refs.des, h.refs.tick, handleOn_none V, h.refs.pdd, h.refs.retry, h.refs.fms⟩
  apply Safe_bind (SetWeaponState_safe m .BringUp { w with SwapAnimTimerHandle := none }
    hsl0 hr0 (fun hf => by cases hf))
  intro w1 h1
  dsimp only
  split
  · exact Safe_pure (Inv_swap h1 _ (handleOn_SetTimer V w1.now .BringUpCallback _ trivial))
  · exact BringUpCallback_safe m w1 h1

theorem RequestBringUp_safe {V : Marks} {S : Bool} (m : Nat) (w : World) (h : Inv V w) :
    Safe S (Inv V) (RequestBringUp m w) := by
  have h0 : Inv V { w with PutDownDelayTimerHandle := none } :=
    Inv_putDownDelay h none (handleOn_none V)
  unfold RequestBringUp
  dsimp only
  split
  · exact BringUp_safe m _ _ h0
  · exact BringUp_safe m _ _ h0
  · exact Safe_pure h0

theorem RequestStopFire_safe {V : Marks} {S : Bool} (i : Nat) (w : World) (h : Inv V w) :
    Safe S (Inv V) (RequestStopFire i w) := by
  unfold RequestStopFire
  split
  · next fm hfm =>
    have hv : V.valid i = true := Inv_valid h ((getFM_eq_ok_iff w i fm).mpr hfm)
    have h0 : Inv V { w with
        DesiredFireModes := w.DesiredFireModes.filter (fun j => j ≠ i) } :=
      Inv_desired h _ (fun j hj => h.refs.des j (List.mem_filter.mp hj).1)
    dsimp only
    split
    · exact StopFire_safe i _ hv h0
    · exact Safe_pure h0
  · exact Safe_pure h

theorem RetryStartFire_safe {V : Marks} {S : Bool} (m : Nat) (i : Nat) (w : World)
    (hv : V.valid i = true) (h : Inv V w) : Safe S (Inv V) (RetryStartFire m i w) := by
  unfold RetryStartFire
  split
  · split
    · exact TryStartFire_safe m i w hv h
    · exact Safe_pure h
  · exact Safe_pure h

theorem runCallback_safe {V : Marks} {S : Bool} (m : Nat) (cb : Callback) (w : World)
    (hcb : cbOn V cb) (h : Inv V w) (hS : S = true → V.pend = true) :
    Safe S (Inv V) (runCallback m cb w) := by
  cases cb with
  | CooldownTimer i => exact SetBusy_safe m false i w hcb h
  | DelayedServerFire i info =>
    refine ServerFire_Implementation_safe m i info w hcb.1 h (fun hsp hr => hcb.2 ?_ hr)
    rcases hsp with hs | hp
    · exact hS hs
    · exact hp
  | BringUpCallback => exact BringUpCallback_safe m w h
  | PutDownCallback => exact PutDownCallback_safe m w h
  | RequestPutDown => exact RequestPutDown_safe m w h
  | RetryStartFire i => exact RetryStartFire_safe m i w hcb h

theorem readHandle_on {V : Marks} {w : World} (h : Inv V w) (hd : Handle) :
    handleOn V (readHandle w hd) := by
  cases hd with
  | Cooldown i =>
    simp only [readHandle]
    split
    · next fm hfm => exact (Inv_handles h ((getFM_eq_ok_iff w i fm).mpr hfm)).1
    · exact handleOn_none V
  | DelayedFire i =>
    simp only [readHandle]
    split
    · next fm hfm => exact (Inv_handles h ((getFM_eq_ok_iff w i fm).mpr hfm)).2
    · exact handleOn_none V
  | SwapAnim => exact h.refs.swap
  | PutDownDelay => exact h.refs.pdd
  | RetryStartFire => exact h.refs.retry

theorem clearHandle_Inv {V : Marks} {w : World} (h : Inv V w) (hd : Handle) :
    Inv V (clearHandle w hd) := by
  cases hd with
  | Cooldown i =>
    simp only [clearHandle]
    split
    · next fm hfm =>
      have hg := (getFM_eq_ok_iff w i fm).mpr hfm
      exact Inv_setFM h (Inv_valid h hg) _ (show ReadsVectors fm = V.reads i from Inv_reads h hg) (handleOn_none V)
        (Inv_handles h hg).2
    · exact h
  | DelayedFire i =>
    simp only [clearHandle]
    split
    · next fm hfm =>
      have hg := (getFM_eq_ok_iff w i fm).mpr hfm
      exact Inv_setFM h (Inv_valid h hg) _ (show ReadsVectors fm = V.reads i from Inv_reads h hg) (Inv_handles h hg).1
        (handleOn_none V)
    · exact h
  | SwapAnim => exact Inv_swap h none (handleOn_none V)
  | PutDownDelay => exact Inv_putDownDelay h none (handleOn_none V)
  | RetryStartFire => exact Inv_retry h none (handleOn_none V)

/-- No event dereferences a missing fire mode, and every event keeps the
invariant.  When the pending delayed checks hold their vectors and the event is
no fire request with fewer than two, they still do afterwards, and the event
does not index past the end. -/
theorem step_safe {V : Marks} {S : Bool} (m : Nat) (e : Event) (w : World) (h : Inv V w)
    (hS : S = true → V.pend = true) (he : V.pend = true → GoodRequest e) :
    Safe S (Inv V) (step m e w) := by
  have hvalid : ∀ i, validFM w i = true → V.valid i = true := fun i hi =>
    (h.slots i).1.symm.trans hi
  cases e with
  | RequestStartFire i => exact RequestStartFire_safe m i w h
  | RequestStopFire i => exact RequestStopFire_safe i w h
  | RequestBringUp => exact RequestBringUp_safe m w h
  | RequestPutDown => exact RequestPutDown_safe m w h
  | StartFire i =>
    simp only [step]; split
    · next hv => exact StartFire_Implementation_safe m i w (hvalid i hv) h
    · exact Safe_pure h
  | ServerFire i info =>
    simp only [step]; split
    · next hv =>
      refine ServerFire_Implementation_safe m i info w (hvalid i hv) h (fun hsp _ => ?_)
      rcases hsp with hs | hp
      · exact he (hS hs)
      · exact he hp
    · exact Safe_pure h
  | MulticastFired i =>
    simp only [step]; split
    · next hv => exact MulticastFired_Implementation_safe i w (hvalid i hv) h
    · exact Safe_pure h
  | MulticastFiredHitscan i hi =>
    simp only [step]; split
    · next hv => exact MulticastFiredHitscan_Implementation_safe i w hi (hvalid i hv) h
    · exact Safe_pure h
  | Advance dt =>
    simp only [step]; split
    · exact Safe_pure (Inv_now h _)
    · exact Safe_pure h
  | Fire hd =>
    simp only [step]; split
    · next t ht =>
      split
      · exact runCallback_safe m t.cb _ (readHandle_on h hd t ht) (clearHandle_Inv h hd) hS
      · exact Safe_pure h
    · exact Safe_pure h
  | Tick =>
    simp only [step]; split
    · next cb rest hn =>
      have hcb : cbOn V cb := h.refs.tick cb (by rw [hn]; exact List.mem_cons_self _ _)
      refine runCallback_safe m cb _ hcb (Inv_nextTick h rest ?_) hS
      intro cb' hcb'
      exact h.refs.tick cb' (by rw [hn]; exact List.mem_cons_of_mem _ hcb')
    · exact Safe_pure h

theorem run_safe {V : Marks} {S : Bool} (m : Nat) (es : List Event) (w : World) (h : Inv V w)
    (hS : S = true → V.pend = true) (hes : V.pend = true → ∀ e ∈ es, GoodRequest e) :
    Safe S (Inv V) (run m es w) := by
  induction es generalizing w with
  | nil => exact Safe_pure h
  | cons e es ih =>
    simp only [run]
    exact Safe_bind (step_safe m e w h hS (fun hp => hes hp e (List.mem_cons_self _ _)))
      (fun w1 h1 => ih w1 h1 (fun hp e' he' => hes hp e' (List.mem_cons_of_mem _ he')))

/-! ### C21 -/

/-- C21: in every weapon state.  (1) For a weapon whose references are in
place, `RequestBringUp()` returns.  (2) After `RequestBringUp()` the
put-down-delay timer is not armed, so the timer manager finds nothing to run
for it: the deferred `RequestPutDown` does not run.  (3) From `Inactive` the
call is `BringUp(0)`, (4) from `PutDown` it is `BringUp` from the position
`remaining put-down time / PutDownTime`, (5) in the other states nothing but
the cancellation happens.  (6) `BringUp` from a position `p` that leaves time
to run enters `BringUp` and arms the completion for `(1 - p) * BringUpTime`. -/
theorem C21_RequestBringUp_cancels_put_down_delay (n : Nat) (w : World) :
    (∀ V, Inv V w → ∃ w', RequestBringUp (n + 9) w = .ok w') ∧
    (∀ m w', RequestBringUp m w = .ok w' →
      w'.PutDownDelayTimerHandle = none ∧ ∀ k, step k (.Fire .PutDownDelay) w' = .ok w') ∧
    (w.WeaponState = .Inactive →
      ∀ m, RequestBringUp m w = BringUp m 0 { w with PutDownDelayTimerHandle := none }) ∧
    (w.WeaponState = .PutDown →
      ∀ m, RequestBringUp m w =
        BringUp m (GetTimerRemaining w.now w.SwapAnimTimerHandle / w.PutDownTime)
          { w with PutDownDelayTimerHandle := none }) ∧
    (w.WeaponState ≠ .Inactive → w.WeaponState ≠ .PutDown →
      ∀ m, RequestBringUp m w = .ok { w with PutDownDelayTimerHandle := none }) ∧
    (∀ p w1, 0 < (1 - p) * w1.BringUpTime →
      ∃ w', BringUp (n + 3) p w1 = .ok w' ∧ w'.WeaponState = .BringUp ∧
        w'.SwapAnimTimerHandle = some ⟨(1 - p) * w1.BringUpTime,
          w1.now + (1 - p) * w1.BringUpTime, .BringUpCallback⟩) := by
  refine ⟨fun V hI => ?_, fun m w' h => ?_, fun hs m => ?_, fun hs m => ?_, fun h1 h2 m => ?_,
    fun p w1 hpos => ⟨_, BringUp_eq n p w1 hpos, (afterBringUpEntry_keeps _).1, rfl⟩⟩
  · obtain ⟨w', hw', _⟩ := Safe_returns (RequestBringUp_safe (n + 9) w hI)
      (RequestBringUp_fuelOK n w)
    exact ⟨w', hw'⟩
  · have hp : w'.PutDownDelayTimerHandle = none := by
      unfold RequestBringUp at h
      dsimp only at h
      split at h
      · exact BringUp_noPutDownDelay m _ _ w' rfl h
      · exact BringUp_noPutDownDelay m _ _ w' rfl h
      · cases Run.ok_inj h; rfl
    refine ⟨hp, fun k => ?_⟩
    simp only [step, readHandle, hp, Run.pure_eq]
  · simp only [RequestBringUp, hs]
  · simp only [RequestBringUp, hs]
  · unfold RequestBringUp
    dsimp only
    split
    · next h => exact absurd h h1
    · next h => exact absurd h h2
    · rfl

/-- C21 at a firing weapon with a put-down pending, and 0.1 s into a put-down
of 0.3 s: the pending put-down is cancelled; from two thirds of the way down
the bring-up is armed for one third of `BringUpTime`. -/
theorem C21_witness :
    RequestBringUp 3 pendingPutDownWorld = .ok shortCooldownWorld ∧
      (∃ w', RequestBringUp 3 halfDownWorld = .ok w' ∧ w'.PutDownDelayTimerHandle = none ∧
        ∀ k, step k (.Fire .PutDownDelay) w' = .ok w') ∧
      (RequestBringUp 3 halfDownWorld).toOption.map
          (fun w => (w.WeaponState, w.SwapAnimTimerHandle)) =
        some (.BringUp, some ⟨1/10, 1/5, .BringUpCallback⟩) := by
  have h := C21_RequestBringUp_cancels_put_down_delay 0 pendingPutDownWorld
  have h2 := C21_RequestBringUp_cancels_put_down_delay 0 halfDownWorld
  refine ⟨h.2.2.2.2.1 (by decide) (by decide) 3, ?_, by decide!⟩
  have hex : ∃ w', RequestBringUp 3 halfDownWorld = .ok w' := by
    cases hr : RequestBringUp 3 halfDownWorld with
    | ok w' => exact ⟨w', rfl⟩
    | error e =>
      exfalso
      have : (RequestBringUp 3 halfDownWorld).toOption.map (fun w => w.WeaponState)
          = some .BringUp := by decide!
      rw [hr] at this
      cases this
  obtain ⟨w', hw'⟩ := hex
  exact ⟨w', hw', h2.2.1 3 w' hw'⟩

/-! ### C26 -/

theorem readsFM_eq (w : World) (i : Nat) (fm : FireMode) (h : getFM w i = .ok fm) :
    ReadsVectors fm = readsFM w i := by
  rw [getFM_eq_ok_iff] at h
  simp only [readsFM, h]

theorem SlotsOn_marksOf (w : World) (p : Bool) : SlotsOn (marksOf w p) w :=
  fun i => ⟨rfl, fun fm hfm => readsFM_eq w i fm hfm⟩

theorem InactiveWeapon_Inv {w : World} (h : InactiveWeapon w) : Inv (marksOf w false) w :=
  ⟨SlotsOn_marksOf w false, h.refs, fun hs => by rw [h.state] at hs; cases hs⟩

theorem TimeUntilReadyToFire_ok {V : Marks} {w : World} (h : Inv V w) (i : Nat) :
    ∃ d, TimeUntilReadyToFire_Implementation w i = .ok d := by
  have hd := ServerFireDelay_ok h i
    ⟨false, 0, false, false, 0, none, none, true, false⟩
  simpa [ServerFireDelay] using hd

/-- C26: from an inactive weapon with no current fire mode (whose desired list
and pending timers refer to fire modes that it holds), for every sequence of
events.  (1) No call dereferences a missing fire mode, whatever the call-depth
budget.  (2) In every world reached, state `Firing` comes with a current fire
mode that is in place, so that `TimeUntilReadyToFire` answers and
`RequestPutDown` returns.  (3) With a budget of 11 or more the sequence runs to
its end, or it stops where the vectors of a fire request are indexed past their
end; (4) it runs to its end when every fire request holds two vectors and so
does every delayed check that is pending at the start. -/
theorem C26_Firing_has_current_fire_mode (n : Nat) (es : List Event) (w0 : World)
    (h0 : InactiveWeapon w0) :
    (∀ m, run m es w0 ≠ .error .NullDeref) ∧
    (∀ m w', run m es w0 = .ok w' →
      (w'.WeaponState = .Firing →
        ∃ c cur, w'.CurrentFireMode = some c ∧ getFM w' c = .ok cur) ∧
      (∀ i, ∃ d, TimeUntilReadyToFire_Implementation w' i = .ok d) ∧
      (∃ w'', RequestPutDown (n + 4) w' = .ok w'')) ∧
    ((∃ w', run (n + 11) es w0 = .ok w') ∨ run (n + 11) es w0 = .error .OutOfRange) ∧
    ((∀ e ∈ es, GoodRequest e) → RefsOn (marksOf w0 true) w0 →
      ∃ w', run (n + 11) es w0 = .ok w') := by
  have hI := InactiveWeapon_Inv h0
  have hlax : ∀ m, Safe false (Inv (marksOf w0 false)) (run m es w0) := fun m =>
    run_safe m es w0 hI (fun hs => by cases hs) (fun hp => by cases hp)
  refine ⟨fun m => Safe_noNull (hlax m), fun m w' hw' => ?_, ?_, fun hes hp => ?_⟩
  · have hI' : Inv (marksOf w0 false) w' := Safe_of_ok (hlax m) hw'
    refine ⟨fun hs => ?_, fun i => TimeUntilReadyToFire_ok hI' i, ?_⟩
    · cases hc : w'.CurrentFireMode with
      | none => exact absurd hc (hI'.firing hs)
      | some c =>
        obtain ⟨cur, hcur⟩ := Inv_getFM hI' (hI'.refs.cur c hc)
        exact ⟨c, cur, rfl, hcur⟩
    · obtain ⟨w'', hw'', _⟩ := Safe_returns (RequestPutDown_safe (n + 4) w' hI')
        (RequestPutDown_fuelOK n w')
      exact ⟨w'', hw''⟩
  · cases hr : run (n + 11) es w0 with
    | ok w' => exact Or.inl ⟨w', rfl⟩
    | error e =>
      cases e with
      | OutOfFuel => exact absurd hr (run_fuelOK n es w0)
      | NullDeref => exact absurd hr (Safe_noNull (hlax (n + 11)))
      | OutOfRange => exact Or.inr rfl
  · have hI1 : Inv (marksOf w0 true) w0 :=
      ⟨SlotsOn_marksOf w0 true, hp, fun hs => by rw [h0.state] at hs; cases hs⟩
    obtain ⟨w', hw', _⟩ := Safe_returns
      (run_safe (n + 11) es w0 hI1 (fun _ => rfl) (fun _ => hes)) (run_fuelOK n es w0)
    exact ⟨w', hw'⟩

/-- C26 on the example weapon with two fire modes: brought up, it accepts a
request for fire mode 1; the sequence runs to its end, the weapon is `Firing`
and its current fire mode is in place. -/
theorem C26_witness :
    (run (0 + 11) [.RequestBringUp, .Advance (3/10), .Fire .SwapAnim, .ServerFire 1 shotA]
        twoModeWorld).toOption.map (fun w => (w.WeaponState, w.CurrentFireMode)) =
        some (.Firing, some 1) ∧
      ∃ w', run (0 + 11) [.RequestBringUp, .Advance (3/10), .Fire .SwapAnim,
          .ServerFire 1 shotA] twoModeWorld = .ok w' ∧
        (w'.WeaponState = .Firing →
          ∃ c cur, w'.CurrentFireMode = some c ∧ getFM w' c = .ok cur) := by
  have hr : ∀ p, RefsOn (marksOf twoModeWorld p) twoModeWorld := by
    intro p
    refine ⟨(fun c hc => by cases hc), (fun i hi => by cases hi),
      (fun cb hcb => by cases hcb), handleOn_none _, handleOn_none _, handleOn_none _, ?_⟩
    intro o ho fm hfm
    have hfm' : fm = exFireMode := by
      simp only [twoModeWorld, List.mem_cons, List.mem_singleton, List.not_mem_nil,
        or_false, or_self] at ho
      rw [ho] at hfm
      cases hfm
      rfl
    rw [hfm']
    exact ⟨handleOn_none _, handleOn_none _⟩
  have h := C26_Firing_has_current_fire_mode 0
    [.RequestBringUp, .Advance (3/10), .Fire .SwapAnim, .ServerFire 1 shotA] twoModeWorld
    ⟨rfl, rfl, hr false⟩
  obtain ⟨w', hw'⟩ := h.2.2.2 (by
    intro e he
    simp only [List.mem_cons, List.mem_singleton, List.not_mem_nil, or_false] at he
    rcases he with rfl | rfl | rfl | rfl
    · trivial
    · trivial
    · trivial
    · show 2 ≤ shotA.Vectors.length
      decide) (hr true)
  exact ⟨by decide!, w', hw', (h.2.1 _ w' hw').1⟩

/-! ### Closed forms for the rescheduled check -/

/-- C3 fails on the code.  With `FireInterval = 2`, the requests A and B of
`reversedSwap 0` are both accepted, at 0.5625 s and at 1.671875 s, 1.109375 s
apart; every advance is a frame in which the timer manager runs what is due.
Before the last frame, at 1.578125 s, the weapon is in `BringUp`, the
rescheduled check of B is due at 1.625 s, the bring-up completion at 1.65625 s
and the cooldown of A at 2.5625 s; the frame ends at 1.671875 s, the check runs
first, and in state `BringUp` the owner answers the (spent) bring-up time and
not the cooldown of the fire mode.  Without the put-down and the second
bring-up (`plainSwap 0`) the bring-up completion, armed before the check and
due with it at 1.625 s, runs first, and B is dropped. -/
theorem C3_cooldown_bypassed_during_bring_up :
    slowFireMode.FireInterval = 2 ∧
      (play callDepth (reversedSwap 0) slowWorld).toOption.map (fun w => acceptedAt w 0) =
        some [9/16, 107/64] ∧
      (play callDepth ((reversedSwap 0).take 12) slowWorld).toOption.map
          (fun w => (w.now, w.WeaponState)) = some (101/64, .BringUp) ∧
      (play callDepth ((reversedSwap 0).take 12) slowWorld).toOption.map
          (fun w => ((readHandle w (.DelayedFire 0)).map FTimerData.ExpireTime,
            (readHandle w .SwapAnim).map FTimerData.ExpireTime,
            (readHandle w (.Cooldown 0)).map FTimerData.ExpireTime)) =
        some (some (13/8), some (53/32), some (41/16)) ∧
      (play callDepth (reversedSwap 0) slowWorld).toOption.map (fun w => w.log) =
        some [(0, .OnWeaponStateChanged .BringUp), (9/16, .OnWeaponStateChanged .Idle),
          (9/16, .OnWeaponStateChanged .Firing), (9/16, .AuthorityHitscanShot 0 shotA),
          (9/16, .MulticastFiredHitscan 0 default), (9/16, .OnWeaponStateChanged .PutDown),
          (9/16, .StopFire 0), (9/8, .OnWeaponStateChanged .Inactive), (9/8, .StopFire 0),
          (9/8, .OnWeaponStateChanged .BringUp), (25/16, .OnWeaponStateChanged .PutDown),
          (25/16, .StopFire 0), (101/64, .OnWeaponStateChanged .BringUp),
          (107/64, .AuthorityHitscanShot 0 shotB), (107/64, .MulticastFiredHitscan 0 default),
          (107/64, .OnWeaponStateChanged .Firing)] ∧
      (play callDepth ((plainSwap 0).take 10) slowWorld).toOption.map
          (fun w => (readHandle w (.DelayedFire 0), readHandle w .SwapAnim)) =
        some (some ⟨1/8, 13/8, .DelayedServerFire 0 shotB⟩,
          some ⟨1/2, 13/8, .BringUpCallback⟩) ∧
      (play callDepth (plainSwap 0) slowWorld).toOption.map (fun w => acceptedAt w 0) =
        some [9/16] :=
  ⟨by decide!, by decide!, by decide!, by decide!, by decide!, by decide!, by decide!⟩

/-- C20 fails on the code; every advance is a frame in which the timer manager
runs what is due.  (1) From the inactive weapon with two idle fire modes of
`FireInterval = 2`, after `reversedSwap 1` both fire modes are busy at
1.671875 s (fire mode 0 cools down until 2.5625 s), and the busy fire mode 0 is
not the current fire mode: in state `BringUp` the owner answers the bring-up
time and not the cooldown of the busy current fire mode.  Without the put-down
and the second bring-up (`plainSwap 1`) the request for fire mode 1 is dropped.
(2) From the inactive weapon with an idle fire mode of `FireInterval = 0` in
slot 0, after `twoModeRequests` both fire modes are busy at 0.625 s: fire mode
0, accepted at 0.5 s, has no cooldown timer (`SetTimer` arms none for a rate of
0) and `GetTimerRemaining` answers `-1` for it.  After a further frame of
1.25 s fire mode 1 has cooled down, the weapon is `Idle` without a current fire
mode, and fire mode 0 is still busy. -/
theorem C20_two_fire_modes_busy :
    twoSlowWorld.WeaponState = .Inactive ∧
      twoSlowWorld.FireModes.map (Option.map FireMode.bIsBusy) = [some false, some false] ∧
      (play callDepth (reversedSwap 1) twoSlowWorld).toOption.map
          (fun w => (w.now, w.WeaponState, w.CurrentFireMode)) =
        some (107/64, .Firing, some 1) ∧
      (play callDepth (reversedSwap 1) twoSlowWorld).toOption.map
          (fun w => w.FireModes.map (Option.map (fun f => (f.bIsBusy, f.CooldownTimerHandle)))) =
        some [some (true, some ⟨2, 41/16, .CooldownTimer 0⟩),
          some (true, some ⟨2, 235/64, .CooldownTimer 1⟩)] ∧
      (play callDepth (plainSwap 1) twoSlowWorld).toOption.map
          (fun w => (w.CurrentFireMode, w.FireModes.map (Option.map FireMode.bIsBusy))) =
        some (some 0, [some true, some false]) ∧
      mixedWorld.WeaponState = .Inactive ∧
      mixedWorld.FireModes.map (Option.map FireMode.bIsBusy) = [some false, some false] ∧
      (play callDepth twoModeRequests mixedWorld).toOption.map
          (fun w => (w.now, w.WeaponState, w.CurrentFireMode)) = some (5/8, .Firing, some 1) ∧
      (play callDepth twoModeRequests mixedWorld).toOption.map
          (fun w => w.FireModes.map (Option.map (fun f => (f.bIsBusy, f.CooldownTimerHandle)))) =
        some [some (true, none), some (true, some ⟨1, 13/8, .CooldownTimer 1⟩)] ∧
      (play callDepth (twoModeRequests ++ [.Advance (5/4)]) mixedWorld).toOption.map
          (fun w => (w.now, w.WeaponState, w.CurrentFireMode)) = some (15/8, .Idle, none) ∧
      (play callDepth (twoModeRequests ++ [.Advance (5/4)]) mixedWorld).toOption.map
          (fun w => w.FireModes.map (Option.map FireMode.bIsBusy)) =
        some [some true, some false] :=
  ⟨by decide!, by decide!, by decide!, by decide!, by decide!, by decide!, by decide!,
    by decide!, by decide!, by decide!, by decide!⟩

/-! ### C18: the late broadcast on the issuing client -/

theorem LocalConfirmFired_late (w : World) (i : Nat) (fm : FireMode)
    (hfm : getFM w i = .ok fm)
    (hd : fm.FireInterval - (w.now - fm.LocalFireTime) / 2 ≤ 0) :
    LocalConfirmFired w i = .ok w := by
  have hd' : ¬ (fm.FireInterval - (w.now - fm.LocalFireTime) / 2 > 0) := not_lt.mpr hd
  simp only [LocalConfirmFired, hfm, Run.bind_ok, TimeSince, if_neg hd', Run.pure_eq]
  split <;> rfl


/-- A call of `StartFire()` on a client returns with the fire mode busy, the
local fire time recorded, and the local cooldown armed. -/
theorem StartFire_client_armed (n : Nat) (w : World) (i : Nat) (fm : FireMode)
    (hfm : getFM w i = .ok fm) (hcl : w.NetModeClient = true) :
    ∃ w' fm', StartFire_Implementation (n + 6) i w = .ok w' ∧ getFM w' i = .ok fm' ∧
      fm'.bIsBusy = true ∧ fm'.LocalFireTime = w.now ∧ w'.now = w.now ∧
      LocalCooldownArmed w' i fm' := by
  have hb := SetBusy_true_eq (n + 2) w i fm hfm
  have hg1 := getFM_afterSetBusyTrue w i fm hfm
  generalize hw1 : (StartFire_simulate (afterSetBusyTrue w i fm) i { fm with bIsBusy := true }).1
    = w1
  have hg2 : getFM w1 i = .ok { fm with bIsBusy := true } := by
    rw [← hw1, StartFire_simulate_getFM]; exact hg1
  have hc1 : w1.NetModeClient = true := by
    rw [← hw1, StartFire_simulate_client, afterSetBusyTrue_client]; exact hcl
  have hn1 : w1.now = w.now := by
    rw [← hw1]
    have : ∀ (x : World) (f : FireMode), (StartFire_simulate x i f).1.now = x.now := by
      intro x f; unfold StartFire_simulate; split <;> [(split <;> rfl); rfl]
    rw [this, afterSetBusyTrue_now]
  have hc2 : (StartFire_localCooldown w1 i { fm with bIsBusy := true }).NetModeClient = true := by
    rw [StartFire_localCooldown_client]; exact hc1
  have hrun : StartFire_Implementation (n + 6) i w =
      .ok (emit (StartFire_localCooldown w1 i { fm with bIsBusy := true })
        (.ServerFireRequest i
          (StartFire_simulate (afterSetBusyTrue w i fm) i { fm with bIsBusy := true }).2)) := by
    simp only [StartFire_Implementation, hb, Run.bind_ok, hg1, ServerFire, hw1, hc2, if_true,
      Run.pure_eq]
  by_cases hI : fm.FireInterval > 0
  · have hI' : ({ fm with bIsBusy := true, LocalFireTime := w1.now } : FireMode).FireInterval > 0 :=
      hI
    have hlc : StartFire_localCooldown w1 i { fm with bIsBusy := true } =
        setFM w1 i { fm with
          bIsBusy := true, LocalFireTime := w1.now,
          CooldownTimerHandle := SetTimer w1.now (.CooldownTimer i) fm.FireInterval } := by
      unfold StartFire_localCooldown
      rw [if_pos hc1]
      exact if_pos hI'
    rw [hlc] at hrun
    refine ⟨_, _, hrun, getFM_setFM_same w1 i _ _ hg2, rfl, hn1, hn1, fun _ => ?_⟩
    show if 0 < fm.FireInterval then _ else _
    rw [if_pos hI]
    refine ⟨⟨fm.FireInterval, w1.now + fm.FireInterval, .CooldownTimer i⟩, ?_, ?_⟩
    · simp only [SetTimer, if_pos hI]
    · show 0 < fm.FireInterval ∧ w1.now + fm.FireInterval - fm.FireInterval ≤ w1.now ∧
        fm.FireInterval =
          fm.FireInterval - (w1.now + fm.FireInterval - fm.FireInterval - w1.now) / 2
      exact ⟨hI, by linarith, by ring⟩
  · have hI' : ¬ ({ fm with bIsBusy := true, LocalFireTime := w1.now } : FireMode).FireInterval > 0
      := hI
    have hlc : StartFire_localCooldown w1 i { fm with bIsBusy := true } =
        { setFM w1 i { fm with bIsBusy := true, LocalFireTime := w1.now } with
          NextTick := w1.NextTick ++ [.CooldownTimer i] } := by
      unfold StartFire_localCooldown
      rw [if_pos hc1]
      exact if_neg hI'
    rw [hlc] at hrun
    refine ⟨_, _, hrun, getFM_setFM_same w1 i _ _ hg2, rfl, hn1, hn1, fun _ => ?_⟩
    show if 0 < fm.FireInterval then _ else _
    rw [if_neg hI]
    show Callback.CooldownTimer i ∈ w1.NextTick ++ [.CooldownTimer i]
    simp

/-- The re-arming by `LocalConfirmFired` keeps the local cooldown armed. -/
theorem LocalConfirmFired_armed (w w' : World) (i : Nat) (fm fm' : FireMode)
    (hfm : getFM w i = .ok fm) (h : LocalConfirmFired w i = .ok w') (hfm' : getFM w' i = .ok fm')
    (ha : LocalCooldownArmed w i fm) : LocalCooldownArmed w' i fm' := by
  simp only [LocalConfirmFired, hfm, Run.bind_ok, TimeSince] at h
  split at h
  · split at h
    · next hb hd =>
      cases Run.ok_inj h
      rw [getFM_setFM_same w i fm _ hfm] at hfm'
      cases Run.ok_inj hfm'
      intro _
      show if 0 < fm.FireInterval then _ else _
      split
      · refine ⟨⟨fm.FireInterval - (w.now - fm.LocalFireTime) / 2,
          w.now + (fm.FireInterval - (w.now - fm.LocalFireTime) / 2), .CooldownTimer i⟩, ?_, ?_⟩
        · simp only [SetTimer, if_pos hd]
        · show 0 < fm.FireInterval - (w.now - fm.LocalFireTime) / 2 ∧
            w.now + (fm.FireInterval - (w.now - fm.LocalFireTime) / 2) -
              (fm.FireInterval - (w.now - fm.LocalFireTime) / 2) ≤ w.now ∧
            fm.FireInterval - (w.now - fm.LocalFireTime) / 2 =
              fm.FireInterval - (w.now + (fm.FireInterval - (w.now - fm.LocalFireTime) / 2) -
                (fm.FireInterval - (w.now - fm.LocalFireTime) / 2) - fm.LocalFireTime) / 2
          exact ⟨hd, by linarith, by ring⟩
      · next hI =>
        have := ha hb
        rw [if_neg hI] at this
        exact this
    · cases Run.ok_inj h
      rw [hfm] at hfm'
      cases Run.ok_inj hfm'
      exact ha
  · cases Run.ok_inj h
    rw [hfm] at hfm'
    cases Run.ok_inj hfm'
    exact ha

/-- C18, as amended: on the issuing client (`LocalFireTime > 0`), when a
broadcast of the authority arrives and the adjusted delay `FireInterval -
ping/2` is `≤ 0`.  (1) The handling of either broadcast returns the world as it
is: no timer is re-armed, no effect is replayed, the busy flag is as before.
(2) A fire mode whose local cooldown is armed as `StartFire()` and the earlier
broadcasts arm it, and whose cooldown timer is not overdue, is no longer busy,
if `FireInterval > 0` or no cooldown callback is waiting for the next tick: a
cooldown timer armed in that way would be overdue.  (3) `StartFire()` returns
at once, with the fire mode busy again, the local fire time recorded, and the
local cooldown armed.  (4) The handling of either broadcast and (5) the passing
of time keep the local cooldown armed.  A fire mode with `FireInterval ≤ 0` is
busy from `StartFire()` until the cooldown callback that is queued for the next
tick has run, whatever broadcast arrives. -/
theorem C18_late_broadcast_finds_fire_mode_idle (n : Nat) (w : World) (i : Nat)
    (fm : FireMode) (h : FHitscanVisualInfo) (hfm : getFM w i = .ok fm)
    (hcl : w.NetModeClient = true) :
    (fm.LocalFireTime > 0 → fm.FireInterval - (w.now - fm.LocalFireTime) / 2 ≤ 0 →
      MulticastFired_Implementation w i = .ok w ∧
        MulticastFiredHitscan_Implementation w i h = .ok w) ∧
    (fm.FireInterval - (w.now - fm.LocalFireTime) / 2 ≤ 0 →
      LocalCooldownArmed w i fm → CooldownNotOverdue w fm →
      (0 < fm.FireInterval ∨ Callback.CooldownTimer i ∉ w.NextTick) →
      fm.bIsBusy = false) ∧
    (∃ w' fm', StartFire_Implementation (n + 6) i w = .ok w' ∧ getFM w' i = .ok fm' ∧
      fm'.bIsBusy = true ∧ fm'.LocalFireTime = w.now ∧ w'.now = w.now ∧
      LocalCooldownArmed w' i fm') ∧
    (LocalCooldownArmed w i fm → ∀ w' fm',
      (MulticastFired_Implementation w i = .ok w' ∨
        MulticastFiredHitscan_Implementation w i h = .ok w') →
      getFM w' i = .ok fm' → LocalCooldownArmed w' i fm') ∧
    (LocalCooldownArmed w i fm → ∀ m dt w', step m (.Advance dt) w = .ok w' →
      LocalCooldownArmed w' i fm) := by
  refine ⟨fun hl hd => ?_, fun hd ha hr hq => ?_, StartFire_client_armed n w i fm hfm hcl,
    fun ha w' fm' hm hfm' => ?_, fun ha m dt w' hs => ?_⟩
  · have hlc := LocalConfirmFired_late w i fm hfm hd
    refine ⟨?_, ?_⟩
    · simp only [MulticastFired_Implementation, hfm, Run.bind_ok, hcl, if_true, if_pos hl, hlc]
    · simp only [MulticastFiredHitscan_Implementation, hfm, Run.bind_ok, hcl, if_true,
        if_pos hl, hlc]
  · by_contra hb
    have hb' : fm.bIsBusy = true := by simpa using hb
    have hcase := ha hb'
    by_cases hI : 0 < fm.FireInterval
    · rw [if_pos hI] at hcase
      obtain ⟨t, ht, hR, hb0, hRe⟩ := hcase
      have := hr t ht
      linarith
    · rw [if_neg hI] at hcase
      rcases hq with hq | hq
      · exact hI hq
      · exact hq hcase
  · have key : ∀ e1 : List Effect, (if fm.LocalFireTime > 0 then LocalConfirmFired w i
        else if fm.BasicInterface = true then
          (pure (e1.foldl emit w) : Run World) else pure w) = .ok w' →
        LocalCooldownArmed w' i fm' := by
      intro e1 hk
      split at hk
      · exact LocalConfirmFired_armed w w' i fm fm' hfm hk hfm' ha
      · have hsame : ∀ l : List Effect, getFM (l.foldl emit w) i = getFM w i ∧
            (l.foldl emit w).NextTick = w.NextTick ∧ (l.foldl emit w).now = w.now := by
          intro l
          induction l using List.reverseRecOn with
          | nil => exact ⟨rfl, rfl, rfl⟩
          | append_singleton l e ih =>
            rw [List.foldl_append]
            exact ih
        split at hk
        · cases Run.ok_inj hk
          obtain ⟨h1, h2, h3⟩ := hsame e1
          rw [h1, hfm] at hfm'
          cases Run.ok_inj hfm'
          intro hb
          have hcase := ha hb
          show if 0 < fm.FireInterval then _ else _
          split
          · next hI =>
            rw [if_pos hI] at hcase
            obtain ⟨t, ht, hR, hb0, hRe⟩ := hcase
            exact ⟨t, ht, hR, by rw [h3]; exact hb0, hRe⟩
          · next hI =>
            rw [if_neg hI] at hcase
            rw [h2]; exact hcase
        · cases Run.ok_inj hk
          rw [hfm] at hfm'
          cases Run.ok_inj hfm'
          exact ha
    rcases hm with hm | hm
    · simp only [MulticastFired_Implementation, hfm, Run.bind_ok, hcl, if_true] at hm
      exact key [.PlayFireEffects i] hm
    · simp only [MulticastFiredHitscan_Implementation, hfm, Run.bind_ok, hcl, if_true] at hm
      exact key [.PlayFireEffects i, .PlayHitscanEffects i h] hm
  · simp only [step] at hs
    split at hs
    · next hdt =>
      cases Run.ok_inj hs
      intro hb
      have hcase := ha hb
      show if 0 < fm.FireInterval then _ else _
      split
      · next hI =>
        rw [if_pos hI] at hcase
        obtain ⟨t, ht, hR, hb0, hRe⟩ := hcase
        refine ⟨t, ht, hR, ?_, hRe⟩
        show t.ExpireTime - t.Rate ≤ w.now + dt
        linarith
      · next hI =>
        rw [if_neg hI] at hcase
        exact hcase
    · cases Run.ok_inj hs
      exact ha

/-- C18 on the client that predicted a shot at 1.0 s, with a cooldown of one
second, when the broadcast arrives at 3.5 s: the frames of `lateConfirm` lead
to `lateConfirmWorld` (the cooldown timer, due at 2.0 s, runs in the frame that
ends at 2.25 s), the adjusted delay is `1 - 2.5/2 ≤ 0`, the fire mode is idle,
the broadcast changes nothing, and `StartFire()` returns. -/
theorem C18_witness :
    play callDepth lateConfirm clientWorld = .ok lateConfirmWorld ∧
      getFM lateConfirmWorld 0 = .ok { exFireMode with LocalFireTime := 1 } ∧
      (1 : ℚ) - (lateConfirmWorld.now - 1) / 2 ≤ 0 ∧
      MulticastFiredHitscan_Implementation lateConfirmWorld 0 default = .ok lateConfirmWorld ∧
      ({ exFireMode with LocalFireTime := 1 } : FireMode).bIsBusy = false ∧
      ∃ w' fm', StartFire_Implementation 6 0 lateConfirmWorld = .ok w' ∧
        getFM w' 0 = .ok fm' ∧ fm'.bIsBusy = true := by
  have h := C18_late_broadcast_finds_fire_mode_idle 0 lateConfirmWorld 0
    { exFireMode with LocalFireTime := 1 } default (by decide!) rfl
  obtain ⟨w', fm', h1, h2, h3, _⟩ := h.2.2.1
  exact ⟨by decide!, by decide!, by decide!, (h.1 (by decide!) (by decide!)).2,
    h.2.1 (by decide!) (fun hb => absurd hb (by decide)) (fun t ht => (by cases ht))
      (Or.inl (by decide!)),
    w', fm', h1, h2, h3⟩

/-- C18 as stated fails for a fire mode with `FireInterval = 0`.  The owner
holds fire; in the frame that ends at 1.015625 s the cooldown callback queued
by the first `StartFire()` runs and the weapon fires again: the fire mode is
busy, `LocalFireTime` is the time of that frame, and the next cooldown callback
waits for the next tick.  A broadcast that arrives before the next frame finds
the adjusted delay `0 - 0/2 ≤ 0`, changes nothing, and leaves the fire mode
busy. -/
theorem C18_counterexample :
    zeroIntervalFireMode.FireInterval = 0 ∧
      (play callDepth heldFire zeroClientWorld).toOption.map
          (fun w => (w.now, w.NextTick)) = some (65/64, [.CooldownTimer 0]) ∧
      (play callDepth heldFire zeroClientWorld).toOption.map
          (fun w => w.FireModes.map (Option.map (fun f =>
            (f.bIsBusy, f.LocalFireTime, f.CooldownTimerHandle)))) =
        some [some (true, 65/64, none)] ∧
      (0 : ℚ) - (65/64 - 65/64) / 2 ≤ 0 ∧
      play callDepth (heldFire ++ [.MulticastFiredHitscan 0 default]) zeroClientWorld =
        play callDepth heldFire zeroClientWorld ∧
      (play callDepth (heldFire ++ [.MulticastFired 0]) zeroClientWorld).toOption.map
          (fun w => w.FireModes.map (Option.map FireMode.bIsBusy)) = some [some true] :=
  ⟨by decide!, by decide!, by decide!, by decide!, by decide!, by decide!⟩

end OpenTournament
